import Mathlib

/-!
# go-log: a shallow embedding of the dispatch core and the rotation engine

The Go package `golog` is embedded as pure Lean functions: the dispatch core of
`log.go` (levels, records, the logger, its worker and `Close`) and the file
sink of `file_writer.go` (template compilation, `Init`, `Rotate`).

* Go strings are modelled as lists of characters (`Str`).  Every byte the
  package inspects (`'%'`, the placeholder letters, digits) is ASCII, so for
  valid UTF-8 text the byte loops of the source and the character recursions
  below visit the same symbols.
* Go `int` is modelled as `Int`.
* Methods with a pointer receiver become functions returning the updated
  receiver next to the Go result.
* The worker goroutine is a step function: each step is one case of its
  select (a receive or a timer tick); schedules list the steps taken.
* The standard library is modelled only as far as the package drives it:
  `fmt.Sprintf` (directives `%d`, `%s`, `%v`, the `0` flag and a decimal
  width), `bytes.Replace`, `strings.ToUpper`, `strings.TrimSpace`,
  `strconv.ParseInt` in base 8, `path.Base`, `filepath.Ext`, channels, and the
  calendar reading of a `time.Time` (proleptic Gregorian; an instant carries
  the zone offset its location has at that instant).
-/

namespace GoLog

/-! ## Strings -/

/-- Go `string`: a sequence of characters. -/
abbrev Str := List Char

/-- Go `error` values carry their message. -/
abbrev Error := Str

/-- Go slice indexing with an `int` index; `none` is the index-out-of-range
runtime panic. -/
def index {α : Type} (xs : List α) (i : Int) : Option α :=
  if i < 0 then none else xs.get? i.toNat

/-- Go `strings.HasPrefix s old`, arguments in the order used by `replaceFrom`. -/
def startsWith : Str → Str → Bool
  | [], _ => true
  | _ :: _, [] => false
  | o :: os, c :: cs => o == c && startsWith os cs

/-- Go `strings.Contains s sub`. -/
def containsStr (sub : Str) : Str → Bool
  | [] => sub.isEmpty
  | c :: cs => startsWith sub (c :: cs) || containsStr sub cs

/-- Worker of `bytes.Replace(s, old, new, -1)` for a non-empty `old`: scan from
the left, `skip` counts the characters of a match still to be dropped. -/
def replaceFrom (old new : Str) : Nat → Str → Str
  | _, [] => []
  | skip + 1, _ :: cs => replaceFrom old new skip cs
  | 0, c :: cs =>
    if startsWith old (c :: cs) then new ++ replaceFrom old new (old.length - 1) cs
    else c :: replaceFrom old new 0 cs

/-- Go `bytes.Replace(s, old, new, -1)` for a non-empty `old`: every
non-overlapping occurrence of `old`, found left to right, becomes `new`. -/
def replaceAll (s old new : Str) : Str :=
  replaceFrom old new 0 s

/-! ## `fmt.Sprintf`, the modelled fragment -/

/-- The dynamic values the package passes to `fmt`: an `int`, a `string`, or
the nil interface value. -/
inductive Arg where
  | int (v : Int)
  | str (s : Str)
  | null
  deriving DecidableEq, Repr

/-- Decimal digits of a natural number. -/
def decimal (n : Nat) : Str :=
  Nat.toDigits 10 n

/-- Go `fmt`'s integer formatting for the verbs `d` and `v`: with the `0` flag and
a width the digits are zero-padded to the width (one less when a sign is
written), any remaining width is filled with blanks on the left. -/
def fmtInteger (v : Int) (zero : Bool) (wid : Option Nat) : Str :=
  let digs := decimal v.natAbs
  let prec := match zero, wid with
    | true, some w => if v < 0 then w - 1 else w
    | _, _ => 0
  let body := List.replicate (prec - digs.length) '0' ++ digs
  let signed := if v < 0 then '-' :: body else body
  List.replicate (wid.getD 0 - signed.length) ' ' ++ signed

/-- What `fmt` writes for a verb that does not fit the operand:
`%!verb(type=value)`; `none` where the value would need an unmodelled
padding rule. -/
def badVerb (verb : Char) (a : Arg) (zero : Bool) (wid : Option Nat) : Option Str :=
  match a with
  | .null => some ("%!".toList ++ [verb] ++ "(<nil>)".toList)
  | .int v => some ("%!".toList ++ [verb] ++ "(int=".toList ++ fmtInteger v zero wid ++ ")".toList)
  | .str s =>
    if zero = false ∧ wid = none then
      some ("%!".toList ++ [verb] ++ "(string=".toList ++ s ++ ")".toList)
    else none

/-- One operand under one verb; `none` outside the modelled fragment. -/
def printArg (a : Arg) (verb : Char) (zero : Bool) (wid : Option Nat) : Option Str :=
  match a with
  | .int v =>
    if verb = 'd' ∨ verb = 'v' then some (fmtInteger v zero wid)
    else if verb = 's' then badVerb verb a zero wid
    else none
  | .str s =>
    if verb = 's' ∨ verb = 'v' then
      (if zero = false ∧ wid = none then some s else none)
    else if verb = 'd' then badVerb verb a zero wid
    else none
  | .null =>
    if verb = 'v' then
      (if zero = false ∧ wid = none then some "<nil>".toList else none)
    else if verb = 'd' ∨ verb = 's' then badVerb verb a zero wid
    else none

/-- One operand left over after the format is exhausted. -/
def extraArg : Arg → Str
  | .null => "<nil>".toList
  | .int v => "int=".toList ++ fmtInteger v false none
  | .str s => "string=".toList ++ s

/-- The `%!(EXTRA ...)` tail `fmt` appends when operands are left over. -/
def extraArgs : List Arg → Str
  | [] => []
  | a :: as =>
    "%!(EXTRA ".toList ++ (", ".toList).intercalate ((a :: as).map extraArg) ++ ")".toList

/-- Scanner state of `doPrintf`: plain text, just after `%` (flags), or inside
a decimal width. -/
inductive Mode where
  | text
  | flags (zero : Bool)
  | width (zero : Bool) (w : Nat)
  deriving DecidableEq, Repr

/-- Characters that start a feature of `fmt` outside the modelled fragment:
the other flags, argument indexes, `*` widths, precisions. -/
def unmodelled (c : Char) : Bool :=
  c == '#' || c == '+' || c == '-' || c == ' ' || c == '[' || c == '*' || c == '.'

/-- Finish a directive whose verb is `c`. `rest` formats the rest of the format
string from the operands it is given. -/
def verbStep (c : Char) (zero : Bool) (wid : Option Nat) (args : List Arg)
    (rest : List Arg → Option Str) : Option Str :=
  if c = '%' then (rest args).map ('%' :: ·)
  else if unmodelled c then none
  else match args with
    | [] => (rest []).map (("%!".toList ++ [c] ++ "(MISSING)".toList) ++ ·)
    | a :: as =>
      match printArg a c zero wid with
      | none => none
      | some s => (rest as).map (s ++ ·)

/-- The scanner of `fmt.Sprintf`; the result is `none` when the format uses a
directive outside the modelled fragment. -/
def doPrintf : Str → Mode → List Arg → Option Str
  | [], .text, args => some (extraArgs args)
  | [], _, args => some ("%!(NOVERB)".toList ++ extraArgs args)
  | c :: cs, .text, args =>
    if c = '%' then doPrintf cs (.flags false) args
    else (doPrintf cs .text args).map (c :: ·)
  | c :: cs, .flags z, args =>
    if c = '0' then doPrintf cs (.flags true) args
    else if c.isDigit then doPrintf cs (.width z (c.toNat - 48)) args
    else verbStep c z none args (doPrintf cs .text)
  | c :: cs, .width z w, args =>
    if c.isDigit then
      (if w > 1000000 then none else doPrintf cs (.width z (w * 10 + (c.toNat - 48))) args)
    else verbStep c z (some w) args (doPrintf cs .text)

/-- Go `fmt.Sprintf(format, args...)` on the modelled fragment. -/
def Sprintf (format : Str) (args : List Arg) : Option Str :=
  doPrintf format .text args

/-! ## Levels and records (`log.go`) -/

def LevelFlagAccess : Str := "ACCESS".toList
def LevelFlagError : Str := "ERROR".toList
def LevelFlagTransaction : Str := "TRANSACTION".toList
def LevelFlagAbnormal : Str := "ABNORMAL".toList
def LevelFlagCommon : Str := "COMMON".toList
def LevelFlagDebug : Str := "DEBUG".toList

def ACCESS : Int := 0
def ERROR : Int := 1
def TRANSACTION : Int := 2
def ABNORMAL : Int := 3
def COMMON : Int := 4
def DEBUG : Int := 5

/-- The name table, in the order of the source. -/
def LevelFlags : List Str :=
  [LevelFlagAccess, LevelFlagTransaction, LevelFlagError, LevelFlagAbnormal,
   LevelFlagCommon, LevelFlagDebug]

def defaultLayout : Str := "2006/01/02 15:04:05".toList

/-- A log record. -/
structure Record where
  level : Int
  time : Str
  file : Str
  msg : Str
  deriving DecidableEq, Repr

/-- Go `Record.String`; `none` is the index-out-of-range panic of
`LevelFlags[r.level]`. -/
def Record.String (r : Record) : Option Str :=
  (index LevelFlags r.level).bind fun flag =>
    Sprintf "%s [%s] <%s> %s\n".toList [.str r.time, .str flag, .str r.file, .str r.msg]

/-- Go `unicode.ToUpper` as far as it can produce an ASCII letter: the ASCII
lower-case letters, the long s and the dotless i. Every other character is left
alone (Go maps other letters to non-ASCII letters, which no level flag
contains). -/
def toUpperRune (c : Char) : Char :=
  if c.toNat = 0x17F then 'S'
  else if c.toNat = 0x131 then 'I'
  else c.toUpper

/-- Go `strings.ToUpper`. -/
def toUpper (s : Str) : Str :=
  s.map toUpperRune

/-- Go `unicode.IsSpace`. -/
def isSpace (c : Char) : Bool :=
  let n := c.toNat
  (9 ≤ n && n ≤ 13) || n == 0x20 || n == 0x85 || n == 0xA0 || n == 0x1680 ||
  (0x2000 ≤ n && n ≤ 0x200A) || n == 0x2028 || n == 0x2029 || n == 0x202F ||
  n == 0x205F || n == 0x3000

/-- Go `strings.TrimSpace`. -/
def trimSpace (s : Str) : Str :=
  ((s.dropWhile isSpace).reverse.dropWhile isSpace).reverse

/-- The loop of `getLevelDefault` over `LevelFlags` from position `i`. -/
def findLevel (flag : Str) : List Str → Int → Option Int
  | [], _ => none
  | f :: fs, i => if trimSpace (toUpper flag) = f then some i else findLevel flag fs (i + 1)

/-- Go `getLevelDefault(flag, defaultFlag, writer)`: the position of the flag in
`LevelFlags`, or the default. -/
def getLevelDefault (flag : Str) (defaultFlag : Int) (_writer : Str) : Int :=
  match findLevel flag LevelFlags 0 with
  | some i => i
  | none => defaultFlag

/-! ## `time.Time`: the calendar reading of an instant -/

/-- An instant as `time.Now()` returns it: nanoseconds since the Unix epoch,
with the offset (seconds east of UTC) that its location has at that instant.
Two instants of one location carry different offsets when the clock of the
location was changed between them. -/
structure Time where
  unixNano : Int
  offset : Int
  deriving DecidableEq, Repr

/-- Seconds since the epoch on the wall clock of the location. -/
def Time.abs (t : Time) : Int :=
  t.unixNano / 1000000000 + t.offset

/-- Go `Time.Unix`. -/
def Time.Unix (t : Time) : Int :=
  t.unixNano / 1000000000

/-- Year, month and day of a day number counted from 1970-01-01 (proleptic
Gregorian calendar). -/
def civilFromDays (z0 : Int) : Int × Int × Int :=
  let z := z0 + 719468
  let era := z / 146097
  let doe := z % 146097
  let yoe := (doe - doe / 1460 + doe / 36524 - doe / 146096) / 365
  let doy := doe - (365 * yoe + yoe / 4 - yoe / 100)
  let mp := (5 * doy + 2) / 153
  let d := doy - (153 * mp + 2) / 5 + 1
  let m := if mp < 10 then mp + 3 else mp - 9
  (yoe + era * 400 + (if m ≤ 2 then 1 else 0), m, d)

/-- Day number, counted from 1970-01-01, of a calendar date with month in
1..12; the day may lie outside the month and is carried over. -/
def daysFromCivil (y0 m d : Int) : Int :=
  let y := if m ≤ 2 then y0 - 1 else y0
  let era := y / 400
  let yoe := y % 400
  let doy := (153 * (if m > 2 then m - 3 else m + 9) + 2) / 5 + d - 1
  let doe := yoe * 365 + yoe / 4 - yoe / 100 + doy
  era * 146097 + doe - 719468

/-- Go `time.Date(year, month, day, hour, min, sec, nsec, loc)`: values outside
their usual ranges are normalised. -/
def Date (year month day hour min sec nsec offset : Int) : Time :=
  let m0 := month - 1
  let days := daysFromCivil (year + m0 / 12) (m0 % 12 + 1) 1 + (day - 1)
  { unixNano := (days * 86400 + hour * 3600 + min * 60 + sec - offset) * 1000000000 + nsec,
    offset := offset }

def Time.Year (t : Time) : Int := (civilFromDays (t.abs / 86400)).1
def Time.Month (t : Time) : Int := (civilFromDays (t.abs / 86400)).2.1
def Time.Day (t : Time) : Int := (civilFromDays (t.abs / 86400)).2.2
def Time.Hour (t : Time) : Int := t.abs % 86400 / 3600
def Time.Minute (t : Time) : Int := t.abs % 3600 / 60
def Time.Second (t : Time) : Int := t.abs % 60
def Time.Nanosecond (t : Time) : Int := t.unixNano % 1000000000

/-- Go `Time.AddDate(years, months, days)`: the wall-clock reading of the
receiver moved in the calendar and normalised. The result is read with the
offset of the receiver; its year, month, day, hour and minute are those of the
moved wall clock whatever the offset is. -/
def Time.AddDate (t : Time) (years months days : Int) : Time :=
  Date (t.Year + years) (t.Month + months) (t.Day + days) t.Hour t.Minute t.Second
    t.Nanosecond t.offset

/-- Two's-complement wrap-around of `int64` arithmetic. -/
def wrapInt64 (x : Int) : Int :=
  (x + 9223372036854775808) % 18446744073709551616 - 9223372036854775808

/-- Go `time.Minute` and `time.Hour`, in nanoseconds. -/
def durMinute : Int := 60000000000
def durHour : Int := 3600000000000

/-- Go `Time.Add(d)` between two instants at which the location has the same
offset: the result carries the offset of the receiver. -/
def Time.Add (t : Time) (d : Int) : Time :=
  { t with unixNano := t.unixNano + d }

def getYear (now : Time) : Int := now.Year
def getMonth (now : Time) : Int := now.Month
def getDay (now : Time) : Int := now.Day
def getHour (now : Time) : Int := now.Hour
def getMin (now : Time) : Int := now.Minute

/-- The table filled by `init` in `file_writer.go`. -/
def pathVariableTable (c : Char) : Option (Time → Int) :=
  if c = 'Y' then some getYear
  else if c = 'M' then some getMonth
  else if c = 'D' then some getDay
  else if c = 'H' then some getHour
  else if c = 'm' then some getMin
  else none

/-! ## Files and buffered writers, as far as the file sink drives them -/

/-- An open `*os.File`, identified by the path it was opened with. -/
structure File where
  name : Str
  deriving DecidableEq, Repr

/-- A `*bufio.Writer`: the file underneath, the bytes accepted and not yet
flushed, and the sticky error. -/
structure BufWriter where
  wr : File
  buf : Str
  err : Option Error
  deriving DecidableEq, Repr

/-- Go `bufio.NewWriterSize(file, 8192)`. -/
def NewWriterSize (file : File) : BufWriter :=
  { wr := file, buf := [], err := none }

/-- The outcomes of the operating-system calls, as functions of their
arguments. -/
structure FileEnv where
  /-- Result of writing the bytes to the file. -/
  write : File → Str → Option Error
  /-- Result of `file.Close()`. -/
  close : File → Option Error
  /-- Result of `os.MkdirAll(path.Dir(filePath), perm)`, given `filePath`; the
  flag is `os.IsExist(err)`. -/
  mkdirAll : Str → Nat → Option (Error × Bool)
  /-- Result of `os.OpenFile(filePath, O_RDWR|O_CREATE|O_APPEND, perm)`. -/
  openFile : Str → Nat → Option Error

/-- The operating-system calls a method performed, in order. -/
inductive FileOp where
  | write (f : File) (bytes : Str)
  | close (f : File)
  | mkdirAll (filePath : Str) (perm : Nat)
  | openFile (filePath : Str) (perm : Nat)
  deriving DecidableEq, Repr

/-- Go `bufio.Writer.Flush`. -/
def BufWriter.Flush (env : FileEnv) (b : BufWriter) : BufWriter × Option Error × List FileOp :=
  match b.err with
  | some e => (b, some e, [])
  | none =>
    if b.buf = [] then (b, none, [])
    else match env.write b.wr b.buf with
      | some e => ({ b with err := some e }, some e, [.write b.wr b.buf])
      | none => ({ b with buf := [] }, none, [.write b.wr b.buf])

/-- Go `filepath.Ext` on the reversed path: the suffix from the last dot of the
last path element. -/
def extRev : Str → Str → Str
  | [], _ => []
  | c :: cs, acc =>
    if c = '/' then [] else if c = '.' then '.' :: acc else extRev cs (c :: acc)

/-- Go `filepath.Ext`. -/
def Ext (path : Str) : Str :=
  extRev path.reverse []

/-- Go `strings.TrimSuffix`. -/
def TrimSuffix (s suffix : Str) : Str :=
  if suffix.isSuffixOf s then s.take (s.length - suffix.length) else s

/-- Digits of `strconv.ParseUint(s, 8, 64)`: `none` is a syntax error. -/
def octalValue : Str → Nat → Option Nat
  | [], acc => some acc
  | c :: cs, acc =>
    if '0' ≤ c ∧ c ≤ '7' then octalValue cs (acc * 8 + (c.toNat - 48)) else none

/-- Go `strconv.ParseInt(s, 8, 64)`; the error message leaves the quoting of
special characters aside. -/
def ParseInt8 (s : Str) : Except Error Int :=
  let syntaxErr : Error :=
    "strconv.ParseInt: parsing \"".toList ++ s ++ "\": invalid syntax".toList
  let rangeErr : Error :=
    "strconv.ParseInt: parsing \"".toList ++ s ++ "\": value out of range".toList
  let neg := s.head? = some '-'
  let digits := if s.head? = some '-' ∨ s.head? = some '+' then s.tail else s
  if digits = [] then .error syntaxErr
  else match octalValue digits 0 with
    | none => .error syntaxErr
    | some un =>
      if neg then (if un > 9223372036854775808 then .error rangeErr else .ok (-(un : Int)))
      else (if un ≥ 9223372036854775808 then .error rangeErr else .ok un)

/-! ## The file sink (`file_writer.go`) -/

/-- Go `FileWriter`. The field `vars` is the slice called variables in the
source (a reserved word here); it holds interface values: `none` is the nil
interface, `some v` an `int`. `initFileOnce` is the done flag of the
`sync.Once`. -/
structure FileWriter where
  level : Int := 0
  initFileOnce : Bool := false
  rotatePerm : Nat := 0
  perm : Str := []
  filename : Str := []
  file : Option File := none
  fileBufWriter : Option BufWriter := none
  filenameOnly : Str := []
  suffix : Str := []
  pathFmt : Str := []
  actions : List (Time → Int) := []
  vars : List (Option Int) := []
  lastWriteTime : Time := { unixNano := 0, offset := 0 }
  initFileOk : Bool := false
  rotate : Bool := false
  daily : Bool := false
  hourly : Bool := false
  minutely : Bool := false
  maxDays : Int := 0
  dailyOpenDate : Int := 0
  dailyOpenTime : Time := { unixNano := 0, offset := 0 }
  maxHours : Int := 0
  hourlyOpenDate : Int := 0
  hourlyOpenTime : Time := { unixNano := 0, offset := 0 }
  maxMinutes : Int := 0
  minutelyOpenDate : Int := 0
  minutelyOpenTime : Time := { unixNano := 0, offset := 0 }

/-- Go `FileWriterOptions`. -/
structure FileWriterOptions where
  Level : Str := []
  Filename : Str := []
  Enable : Bool := false
  Rotate : Bool := false
  Daily : Bool := false
  Hourly : Bool := false
  Minutely : Bool := false
  MaxDays : Int := 0
  MaxHours : Int := 0
  MaxMinutes : Int := 0

/-- Go `NewFileWriter()`: the zero value. -/
def NewFileWriter : FileWriter := {}

/-- Go `convertPatternToFmt`: five replacements, one after the other. -/
def convertPatternToFmt (pattern : Str) : Str :=
  let p1 := replaceAll pattern "%Y".toList "%d".toList
  let p2 := replaceAll p1 "%M".toList "%02d".toList
  let p3 := replaceAll p2 "%D".toList "%02d".toList
  let p4 := replaceAll p3 "%H".toList "%02d".toList
  replaceAll p4 "%m".toList "%02d".toList

/-- The second loop of `SetPathPattern`: `variable` is the flag set by a `%`,
`actions` the extractors appended so far. The result is the slice at the moment
the loop ends and whether it ended without the error return. -/
def compileActions : Str → Bool → List (Time → Int) → List (Time → Int) × Bool
  | [], _, actions => (actions, true)
  | c :: cs, true, actions =>
    match pathVariableTable c with
    | none => (actions, false)
    | some act => compileActions cs false (actions ++ [act])
  | c :: cs, false, actions => compileActions cs (c == '%') actions

/-- Go `FileWriter.SetPathPattern`: the updated writer and the returned error. -/
def FileWriter.SetPathPattern (w : FileWriter) (pattern : Str) : FileWriter × Option Error :=
  let n := pattern.count '%'
  if n = 0 then ({ w with pathFmt := pattern }, none)
  else
    let r := compileActions pattern false []
    let w1 := { w with actions := r.1, vars := List.replicate n none }
    if r.2 then ({ w1 with pathFmt := convertPatternToFmt pattern }, none)
    else (w1, some ("invalid rotate pattern (".toList ++ pattern ++ ")".toList))

/-- Go `NewFileWriterWithOptions`; the error of `SetPathPattern` is only logged. -/
def NewFileWriterWithOptions (options : FileWriterOptions) : FileWriter :=
  let defaultLevel :=
    if options.Level.length > 0 then getLevelDefault options.Level DEBUG [] else DEBUG
  let fileWriter : FileWriter :=
    { level := defaultLevel, filename := options.Filename, rotate := options.Rotate,
      daily := options.Daily, maxDays := options.MaxDays, hourly := options.Hourly,
      maxHours := options.MaxHours, minutely := options.Minutely,
      maxMinutes := options.MaxMinutes }
  (fileWriter.SetPathPattern options.Filename).1

/-- How a run can leave the embedding: a Go runtime panic, or a `fmt`
directive outside the modelled fragment. -/
inductive Fault where
  | panic (msg : Str)
  | unmodelled
  deriving DecidableEq, Repr

/-- The interface value stored in `vars` as an operand of `fmt`. -/
def toArg : Option Int → Arg
  | none => .null
  | some v => .int v

/-- The loop of `Rotate` over `w.actions`, at position `i`, with the local
`rotate`. The index expression on the variables slice panics when out of range. -/
def rotateLoop (now : Time) : List (Time → Int) → Nat → FileWriter → Bool →
    Except Fault (FileWriter × Bool)
  | [], _, w, rotate => .ok (w, rotate)
  | act :: acts, i, w, rotate =>
    let v := act now
    match w.vars.get? i with
    | none => .error (.panic "index out of range".toList)
    | some old =>
      if old ≠ some v then
        if ¬ w.initFileOk then
          rotateLoop now acts (i + 1) { w with vars := w.vars.set i (some v) } true
        else if i = 2 then
          if w.daily then
            let w1 := { w with dailyOpenDate := v, dailyOpenTime := now }
            if v = (w.lastWriteTime.AddDate 0 0 w.maxDays).Day then
              rotateLoop now acts (i + 1) { w1 with vars := w.vars.set i (some v) } true
            else rotateLoop now acts (i + 1) w1 rotate
          else rotateLoop now acts (i + 1) w rotate
        else if i = 3 then
          if w.hourly then
            let w1 := { w with hourlyOpenDate := v, hourlyOpenTime := now }
            if v = (w.lastWriteTime.Add (wrapInt64 (durHour * w.maxHours))).Hour then
              rotateLoop now acts (i + 1) { w1 with vars := w.vars.set i (some v) } true
            else rotateLoop now acts (i + 1) w1 rotate
          else rotateLoop now acts (i + 1) w rotate
        else if i = 4 then
          if w.minutely then
            let w1 := { w with minutelyOpenDate := v, minutelyOpenTime := now }
            if v = (w.lastWriteTime.Add (wrapInt64 (durMinute * w.maxMinutes))).Minute then
              rotateLoop now acts (i + 1) { w1 with vars := w.vars.set i (some v) } true
            else rotateLoop now acts (i + 1) w1 rotate
          else rotateLoop now acts (i + 1) w rotate
        else rotateLoop now acts (i + 1) w rotate
      else rotateLoop now acts (i + 1) w rotate

/-- What one call of `Rotate` or `Init` did: the writer afterwards, the
returned error, the path computed by `fmt.Sprintf` from `pathFmt`
when that line was reached, and the operating-system calls made. -/
structure RotateResult where
  w : FileWriter
  err : Option Error
  filePath : Option Str
  ops : List FileOp

/-- The cut-over of `Rotate`, entered when the local `rotate` is true. -/
def cutOver (env : FileEnv) (now : Time) (w0 : FileWriter) : Except Fault RotateResult :=
  let w1 := if w0.initFileOnce then w0 else { w0 with initFileOnce := true, initFileOk := true }
  let w2 := { w1 with lastWriteTime := now }
  let flushed : FileWriter × Option Error × List FileOp :=
    match w2.fileBufWriter with
    | none => (w2, none, [])
    | some b =>
      let r := b.Flush env
      ({ w2 with fileBufWriter := some r.1 }, r.2.1, r.2.2)
  match flushed.2.1 with
  | some e => .ok { w := flushed.1, err := some e, filePath := none, ops := flushed.2.2 }
  | none =>
    let w3 := flushed.1
    let closed : Option Error × List FileOp :=
      match w3.file with
      | none => (none, [])
      | some f => (env.close f, [.close f])
    let ops1 := flushed.2.2 ++ closed.2
    match closed.1 with
    | some e => .ok { w := w3, err := some e, filePath := none, ops := ops1 }
    | none =>
      match Sprintf w3.pathFmt (w3.vars.map toArg) with
      | none => .error .unmodelled
      | some filePath =>
        let ops2 := ops1 ++ [.mkdirAll filePath w3.rotatePerm]
        let mkdirFails : Option Error :=
          match env.mkdirAll filePath w3.rotatePerm with
          | some (e, isExist) => if isExist then none else some e
          | none => none
        match mkdirFails with
        | some e => .ok { w := w3, err := some e, filePath := some filePath, ops := ops2 }
        | none =>
          let ops3 := ops2 ++ [.openFile filePath w3.rotatePerm]
          match env.openFile filePath w3.rotatePerm with
          | some e => .ok { w := w3, err := some e, filePath := some filePath, ops := ops3 }
          | none =>
            let file : File := { name := filePath }
            let suffix := Ext filePath
            .ok { w := { w3 with file := some file, fileBufWriter := some (NewWriterSize file),
                                 suffix := suffix, filenameOnly := TrimSuffix filePath suffix },
                  err := none, filePath := some filePath, ops := ops3 }

/-- Go `FileWriter.Rotate`, with `time.Now()` and the outcomes of the
operating-system calls supplied. -/
def FileWriter.Rotate (env : FileEnv) (now : Time) (w : FileWriter) : Except Fault RotateResult :=
  match rotateLoop now w.actions 0 w false with
  | .error f => .error f
  | .ok (w1, rotate) =>
    if rotate = false then .ok { w := w1, err := none, filePath := none, ops := [] }
    else cutOver env now w1

/-- The first block of `Init`: suffix and base name of a non-empty filename. -/
def FileWriter.initNames (w : FileWriter) : FileWriter :=
  if w.filename.length ≠ 0 then
    let suffix := Ext w.filename
    { w with suffix := if suffix = [] then ".log".toList else suffix,
             filenameOnly := TrimSuffix w.filename suffix }
  else w

/-- The block of `Init` that replaces non-positive multipliers when rotation is
enabled. -/
def FileWriter.initDefaults (w : FileWriter) : FileWriter :=
  if w.rotate then
    let a := if w.daily ∧ w.maxDays ≤ 0 then { w with maxDays := 60 } else w
    let b := if a.hourly ∧ a.maxHours ≤ 0 then { a with maxHours := 12 } else a
    if b.minutely ∧ b.maxMinutes ≤ 0 then { b with maxMinutes := 1 } else b
  else w

/-- Go `FileWriter.Init`. -/
def FileWriter.Init (env : FileEnv) (now : Time) (w : FileWriter) : Except Fault RotateResult :=
  let w1 := w.initNames
  let w2 := if w1.perm = [] then { w1 with perm := "0755".toList } else w1
  match ParseInt8 w2.perm with
  | .error e => .ok { w := w2, err := some e, filePath := none, ops := [] }
  | .ok perm =>
    ({ w2 with rotatePerm := (perm % 4294967296).toNat } : FileWriter).initDefaults.Rotate env now

/-! ## Channels -/

/-- A Go channel: capacity, the values handed to it and not yet received
(oldest first), and the closed flag. The first `cap` values of `queue` sit in
the buffer; each further value is held by a goroutine parked in its send. -/
structure Chan (α : Type) where
  cap : Nat
  queue : List α
  closed : Bool
  deriving DecidableEq, Repr

/-- Go `make(chan T, cap)`. -/
def Chan.make {α : Type} (cap : Nat) : Chan α :=
  { cap := cap, queue := [], closed := false }

/-- Result of `ch <- v`. -/
inductive SendResult (α : Type) where
  | sent (ch : Chan α)
  | parked (ch : Chan α)
  | panic (msg : Str)

/-- The statement `ch <- v`: panic on a closed channel; otherwise the value
joins the queue, and the sender returns when a buffer slot is free and parks
when none is. -/
def Chan.send {α : Type} (ch : Chan α) (v : α) : SendResult α :=
  if ch.closed then .panic "send on closed channel".toList
  else if ch.queue.length < ch.cap then .sent { ch with queue := ch.queue ++ [v] }
  else .parked { ch with queue := ch.queue ++ [v] }

/-- Result of `v, ok := <-ch`. -/
inductive RecvResult (α : Type) where
  | value (v : α) (ch : Chan α)
  | closed
  | empty

/-- The expression `<-ch`: the oldest value, `closed` once a closed channel is
drained, `empty` when the receiver would block. -/
def Chan.recv {α : Type} (ch : Chan α) : RecvResult α :=
  match ch.queue with
  | v :: rest => .value v { ch with queue := rest }
  | [] => if ch.closed then .closed else .empty

/-- The statement `close(ch)`; `none` is the panic "close of closed channel".
Parked senders panic and their values are gone; the buffer stays. -/
def Chan.close {α : Type} (ch : Chan α) : Option (Chan α) :=
  if ch.closed then none else some { ch with closed := true, queue := ch.queue.take ch.cap }

/-! ## The dispatch core (`log.go`) -/

/-- The method set of a sink type with receiver state `σ`: the `Writer`
interface, and the optional `Flusher` and `Rotater` capabilities. -/
structure WriterImpl (σ : Type) where
  Init : σ → σ × Option Error
  Write : σ → Record → σ × Option Error
  Flush : Option (σ → σ × Option Error)
  Rotate : Option (σ → σ × Option Error)

/-- A value of the interface type `Writer`: a receiver with its methods. -/
structure Writer (σ : Type) where
  impl : WriterImpl σ
  self : σ

/-- A method call made on a registered sink, with the position of the sink in
`writers` and the error the call returned. -/
inductive Call where
  | Write (sink : Nat) (r : Record) (err : Option Error)
  | Flush (sink : Nat) (err : Option Error)
  | Rotate (sink : Nat) (err : Option Error)
  deriving DecidableEq, Repr

/-- The loop `for _, w := range logger.writers`, from position `i`, with `body`
the call made on each sink (`none` when the sink lacks the capability). The
error of a call is logged and the loop goes on. -/
def rangeWriters {σ : Type} (body : Nat → Writer σ → Option (σ × Call)) :
    List (Writer σ) → Nat → List (Writer σ) × List Call
  | [], _ => ([], [])
  | w :: ws, i =>
    let rest := rangeWriters body ws (i + 1)
    match body i w with
    | none => (w :: rest.1, rest.2)
    | some (s, call) => ({ w with self := s } :: rest.1, call :: rest.2)

/-- Body `w.Write(r)`. -/
def writeBody {σ : Type} (r : Record) (i : Nat) (w : Writer σ) : Option (σ × Call) :=
  let res := w.impl.Write w.self r
  some (res.1, .Write i r res.2)

/-- Body `if f, ok := w.(Flusher); ok then f.Flush()`. -/
def flushBody {σ : Type} (i : Nat) (w : Writer σ) : Option (σ × Call) :=
  match w.impl.Flush with
  | none => none
  | some flush =>
    let res := flush w.self
    some (res.1, .Flush i res.2)

/-- Body `if r, ok := w.(Rotater); ok then r.Rotate()`. -/
def rotateBody {σ : Type} (i : Nat) (w : Writer σ) : Option (σ × Call) :=
  match w.impl.Rotate with
  | none => none
  | some rotate =>
    let res := rotate w.self
    some (res.1, .Rotate i res.2)

/-- Go `Logger`; `c` is the buffer of the one-slot channel `c`. -/
structure Logger (σ : Type) where
  writers : List (Writer σ)
  records : Chan Record
  recordsChanSize : Nat
  lastTime : Int
  lastTimeStr : Str
  flushTimer : Int
  rotateTimer : Int
  c : List Bool
  layout : Str
  level : Int
  fullPath : Bool
  withFuncName : Bool

/-- Where the goroutine running `bootstrapLogWriter` stands: at the first
receive, in the select loop, at the send on `c`, or returned. -/
inductive WorkerPC where
  | firstReceive
  | selectLoop
  | signal
  | returned
  deriving DecidableEq, Repr

/-- A logger together with its worker goroutine. -/
structure System (σ : Type) where
  logger : Logger σ
  worker : WorkerPC

/-- Go `newLoggerWithRecords`. -/
def newLoggerWithRecords {σ : Type} (records : Chan Record) : System σ :=
  { logger :=
      { writers := [], records := records, recordsChanSize := 0, lastTime := 0,
        lastTimeStr := [], flushTimer := 0, rotateTimer := 0, c := [],
        layout := defaultLayout, level := DEBUG, fullPath := false, withFuncName := false },
    worker := .firstReceive }

/-- Result of `Logger.Register`: the logger afterwards and the value the call
panicked with, if it did. -/
structure RegisterResult (σ : Type) where
  logger : Logger σ
  panic : Option Error

/-- Go `Logger.Register`. -/
def Logger.Register {σ : Type} (l : Logger σ) (w : Writer σ) : RegisterResult σ :=
  let res := w.impl.Init w.self
  match res.2 with
  | some err => { logger := l, panic := some err }
  | none => { logger := { l with writers := l.writers ++ [{ w with self := res.1 }] }, panic := none }

/-- Go `path.Base`. -/
def Base (path : Str) : Str :=
  if path = [] then ".".toList
  else
    let last := ((path.reverse.dropWhile (· == '/')).takeWhile (· != '/')).reverse
    if last = [] then "/".toList else last

/-- The result of `runtime.Caller(2)` with the name of the function at that
program counter. -/
structure CallerInfo where
  file : Str
  line : Int
  funcName : Str

/-- What a log call reads from its surroundings: `fmt.Sprintf`, the caller and
the clock with `Time.Format`. -/
structure CallEnv where
  sprintf : Str → List Arg → Str
  caller : Option CallerInfo
  now : Time
  format : Time → Str → Str

/-- How a log call ended: returned at the level check, returned after handing
the record to the queue, parked in the send on a full queue, or panicked. -/
inductive Delivery (σ : Type) where
  | filtered (l : Logger σ)
  | sent (l : Logger σ)
  | parked (l : Logger σ)
  | panicked (msg : Str) (l : Logger σ)

/-- The format used by `deliverRecordToWriter` for `f` with `sz` arguments. -/
def messageFormat (f : Str) (sz : Nat) : Str :=
  if sz ≠ 0 then
    if containsStr "%".toList f ∧ ¬ containsStr "%%".toList f then f
    else f ++ (List.replicate sz "%v".toList).flatten
  else f

/-- The record built by `deliverRecordToWriter` once the level check passed,
and the logger with its cached time string. -/
def buildRecord {σ : Type} (env : CallEnv) (l : Logger σ) (level : Int) (f : Str)
    (args : List Arg) : Logger σ × Record :=
  let msg := env.sprintf (messageFormat f args.length) args
  let fi : Str :=
    match env.caller with
    | none => []
    | some ci =>
      let fileName := if l.fullPath then ci.file else Base ci.file
      let loc := env.sprintf "%s:%d".toList [.str fileName, .int ci.line]
      if l.withFuncName then loc ++ env.sprintf " %s".toList [.str (Base ci.funcName)] else loc
  let l1 :=
    if env.now.Unix ≠ l.lastTime then
      { l with lastTime := env.now.Unix, lastTimeStr := env.format env.now l.layout }
    else l
  (l1, { level := level, time := l1.lastTimeStr, file := fi, msg := msg })

/-- Go `Logger.deliverRecordToWriter`. -/
def Logger.deliverRecordToWriter {σ : Type} (env : CallEnv) (l : Logger σ) (level : Int)
    (f : Str) (args : List Arg) : Delivery σ :=
  if level > l.level then .filtered l
  else
    let built := buildRecord env l level f args
    match built.1.records.send built.2 with
    | .sent ch => .sent { built.1 with records := ch }
    | .parked ch => .parked { built.1 with records := ch }
    | .panic msg => .panicked msg built.1

/-- The logger a log call leaves behind. -/
def Delivery.logger {σ : Type} : Delivery σ → Logger σ
  | .filtered l => l
  | .sent l => l
  | .parked l => l
  | .panicked _ l => l

def Logger.Debug {σ : Type} (env : CallEnv) (l : Logger σ) (f : Str) (args : List Arg) :=
  l.deliverRecordToWriter env DEBUG f args
def Logger.Common {σ : Type} (env : CallEnv) (l : Logger σ) (f : Str) (args : List Arg) :=
  l.deliverRecordToWriter env COMMON f args
def Logger.Abnormal {σ : Type} (env : CallEnv) (l : Logger σ) (f : Str) (args : List Arg) :=
  l.deliverRecordToWriter env ABNORMAL f args
def Logger.Transaction {σ : Type} (env : CallEnv) (l : Logger σ) (f : Str) (args : List Arg) :=
  l.deliverRecordToWriter env TRANSACTION f args
def Logger.Error {σ : Type} (env : CallEnv) (l : Logger σ) (f : Str) (args : List Arg) :=
  l.deliverRecordToWriter env ERROR f args
def Logger.Access {σ : Type} (env : CallEnv) (l : Logger σ) (f : Str) (args : List Arg) :=
  l.deliverRecordToWriter env ACCESS f args

/-- The send `logger.c <- true` followed by `return`: with the slot of `c`
taken the worker stays at the send. -/
def signalDone {σ : Type} (l : Logger σ) : System σ :=
  if l.c.length < 1 then { logger := { l with c := l.c ++ [true] }, worker := .returned }
  else { logger := l, worker := .signal }

/-- The worker takes the receive on `logger.records` (the first receive of
`bootstrapLogWriter`, or the first case of its select): a record is written to
every sink, a closed and drained queue makes the worker signal and return, an
empty open queue leaves it waiting. Records are values here; the record pool,
which only recycles their storage, is left out. -/
def workerReceive {σ : Type} (s : System σ) : System σ × List Call :=
  match s.worker with
  | .returned => (s, [])
  | .signal => (signalDone s.logger, [])
  | _ =>
    match s.logger.records.recv with
    | .empty => (s, [])
    | .closed => (signalDone s.logger, [])
    | .value r ch =>
      let res := rangeWriters (writeBody r) s.logger.writers 0
      ({ logger := { s.logger with records := ch, writers := res.1 }, worker := .selectLoop },
       res.2)

/-- The two timers of the select loop. -/
inductive Tick where
  | flush
  | rotate
  deriving DecidableEq, Repr

/-- The worker takes a timer case of its select. The timers exist only once
the select loop is entered. -/
def workerTick {σ : Type} (t : Tick) (s : System σ) : System σ × List Call :=
  match s.worker with
  | .selectLoop =>
    let res := match t with
      | .flush => rangeWriters flushBody s.logger.writers 0
      | .rotate => rangeWriters rotateBody s.logger.writers 0
    ({ s with logger := { s.logger with writers := res.1 } }, res.2)
  | _ => (s, [])

/-- The worker takes the timer cases of `ticks`, in order. -/
def workerTicks {σ : Type} : List Tick → System σ → System σ × List Call
  | [], s => (s, [])
  | t :: ts, s =>
    let a := workerTick t s
    let b := workerTicks ts a.1
    (b.1, a.2 ++ b.2)

/-- The worker runs until it has returned: before each receive it takes the
timer cases the scheduler hands it (`ticks`, one list per receive). `fuel`
bounds the number of receives. -/
def drain {σ : Type} : Nat → List (List Tick) → System σ → System σ × List Call
  | 0, _, s => (s, [])
  | fuel + 1, ticks, s =>
    let a := workerTicks (ticks.headD []) s
    let b := workerReceive a.1
    if b.1.worker = .returned then (b.1, a.2 ++ b.2)
    else
      let d := drain fuel ticks.tail b.1
      (d.1, a.2 ++ b.2 ++ d.2)

/-- How `Logger.Close` ended. -/
inductive CloseResult (σ : Type) where
  | returned (s : System σ) (trace : List Call)
  | panicked (msg : Str) (s : System σ)
  | blocked (s : System σ) (trace : List Call)

/-- Go `Logger.Close`: close the queue, wait on `c` while the worker drains the
queue, then flush every sink that is a `Flusher`. `ticks` are the timer cases
the worker takes before each of its receives. -/
def Logger.Close {σ : Type} (ticks : List (List Tick)) (s : System σ) : CloseResult σ :=
  match s.logger.records.close with
  | none => .panicked "close of closed channel".toList s
  | some ch =>
    let s1 : System σ := { s with logger := { s.logger with records := ch } }
    let d := drain (ch.queue.length + 1) ticks s1
    match d.1.logger.c with
    | [] => .blocked d.1 d.2
    | _ :: rest =>
      let res := rangeWriters flushBody d.1.logger.writers 0
      .returned { d.1 with logger := { d.1.logger with c := rest, writers := res.1 } }
        (d.2 ++ res.2)

/-- An action of the running system: a producer hands a record to the queue,
or the worker takes a case of its select. -/
inductive Action where
  | submit (r : Record)
  | receive
  | tick (t : Tick)
  deriving DecidableEq, Repr

/-- One action. A submit on a closed queue panics in the producer and leaves
the system as it is. -/
def System.step {σ : Type} (s : System σ) : Action → System σ × List Call
  | .submit r =>
    match s.logger.records.send r with
    | .sent ch => ({ s with logger := { s.logger with records := ch } }, [])
    | .parked ch => ({ s with logger := { s.logger with records := ch } }, [])
    | .panic _ => (s, [])
  | .receive => workerReceive s
  | .tick t => workerTick t s

/-- A schedule of actions. -/
def System.run {σ : Type} : System σ → List Action → System σ × List Call
  | s, [] => (s, [])
  | s, a :: as =>
    let x := s.step a
    let y := System.run x.1 as
    (y.1, x.2 ++ y.2)

/-! ## Reading a trace of sink calls -/

/-- The `Write` calls of a trace, in order: sink position and record. -/
def writesOf : List Call → List (Nat × Record)
  | [] => []
  | .Write i r _ :: cs => (i, r) :: writesOf cs
  | _ :: cs => writesOf cs

/-- The records passed to `Write` of the sink at position `i`, in order. -/
def recordsWrittenTo (i : Nat) (trace : List Call) : List Record :=
  (writesOf trace).filterMap fun p => if p.1 = i then some p.2 else none

/-- The sinks on which `Flush` was called, in order. -/
def flushesOf : List Call → List Nat
  | [] => []
  | .Flush i _ :: cs => i :: flushesOf cs
  | _ :: cs => flushesOf cs

/-- The errors returned by the calls of a trace (each is passed to
`log.Printf` by the caller). -/
def errorsOf : List Call → List Error
  | [] => []
  | .Write _ _ (some e) :: cs => e :: errorsOf cs
  | .Flush _ (some e) :: cs => e :: errorsOf cs
  | .Rotate _ (some e) :: cs => e :: errorsOf cs
  | _ :: cs => errorsOf cs

/-- One record written to the sinks at positions `0 .. n-1`, in that order. -/
def fanOut (n : Nat) (r : Record) : List (Nat × Record) :=
  (List.range n).map fun i => (i, r)

/-- The positions, from `i` on, of the sinks that are a `Flusher`. -/
def flushers {σ : Type} : List (Writer σ) → Nat → List Nat
  | [], _ => []
  | w :: ws, i => if w.impl.Flush.isSome then i :: flushers ws (i + 1) else flushers ws (i + 1)

/-- The records of the submit actions of a schedule, in order. -/
def submitted : List Action → List Record
  | [] => []
  | .submit r :: as => r :: submitted as
  | _ :: as => submitted as

/-- A worker schedule of `n` receives; before the k-th receive the worker takes
the timer cases of the k-th list of `ticks`. -/
def serve : List (List Tick) → Nat → List Action
  | _, 0 => []
  | ticks, n + 1 => (ticks.headD []).map Action.tick ++ Action.receive :: serve ticks.tail n

/-- The worker goroutine is at one of its receives. -/
def System.Live {σ : Type} (s : System σ) : Prop :=
  s.worker = .firstReceive ∨ s.worker = .selectLoop

instance {σ : Type} (s : System σ) : Decidable s.Live :=
  inferInstanceAs (Decidable (s.worker = .firstReceive ∨ s.worker = .selectLoop))

/-- A sink type whose receiver counts the calls made on it; `Write` fails on
the sinks built with `failing`, and only the sinks built with `flusher` have
the `Flush` method. -/
def countingSink (failing flusher : Bool) : WriterImpl Nat :=
  { Init := fun n => (n + 1, none),
    Write := fun n _ => (n + 1, if failing then some "write failed".toList else none),
    Flush := if flusher then some (fun n => (n + 1, none)) else none,
    Rotate := none }

/-- A sink type whose `Init` fails. -/
def brokenSink : WriterImpl Nat :=
  { Init := fun n => (n, some "init failed".toList),
    Write := fun n _ => (n, none),
    Flush := none,
    Rotate := none }

/-- A clock and caller for concrete runs. -/
def sampleEnv : CallEnv :=
  { sprintf := fun f args => (Sprintf f args).getD [],
    caller := some { file := "/src/app/main.go".toList, line := 42, funcName := "main.run".toList },
    now := Date 2024 3 7 9 5 0 0 0,
    format := fun _ layout => layout }

/-- A logger over a queue of capacity two, minimum level ABNORMAL, with a
failing sink registered before a healthy one. -/
def sampleLogger : Logger Nat :=
  { (newLoggerWithRecords (Chan.make 2) : System Nat).logger with
    level := ABNORMAL,
    writers := [{ impl := countingSink true false, self := 0 },
                { impl := countingSink false true, self := 0 }] }

/-- The sample logger with its worker at the first receive. -/
def sampleSystem : System Nat :=
  { logger := sampleLogger, worker := .firstReceive }

/-- Two records. -/
def recordA : Record := { level := ERROR, time := [], file := [], msg := "a".toList }
def recordB : Record := { level := ACCESS, time := [], file := [], msg := "b".toList }

/-! ## Path templates, as the specification words them -/

/-- The placeholder letters: year, month, day, hour, minute. -/
def isPlaceholder (c : Char) : Bool :=
  c == 'Y' || c == 'M' || c == 'D' || c == 'H' || c == 'm'

/-- Every `%` of the template is followed by a placeholder letter. -/
def eachPercentFollowed : Str → Bool
  | [] => true
  | [c] => c != '%'
  | c :: d :: rest => (c != '%' || isPlaceholder d) && eachPercentFollowed (d :: rest)

/-- Decimal numeral of an integer, without padding. -/
def decimalInt (v : Int) : Str :=
  if v < 0 then '-' :: decimal v.natAbs else decimal v.natAbs

/-- Decimal numeral of a natural number, zero-padded to two digits. -/
def twoDigits (n : Nat) : Str :=
  if n < 10 then ['0', Nat.digitChar n] else decimal n

/-- The text a placeholder letter stands for at the instant `t`. -/
def placeholderText (t : Time) (c : Char) : Str :=
  if c = 'Y' then decimalInt t.Year
  else if c = 'M' then twoDigits t.Month.toNat
  else if c = 'D' then twoDigits t.Day.toNat
  else if c = 'H' then twoDigits t.Hour.toNat
  else twoDigits t.Minute.toNat

/-- The template with every placeholder replaced by its text at the instant
`t`, all other characters unchanged. -/
def expandTemplate (t : Time) : Str → Str
  | [] => []
  | [c] => [c]
  | c :: d :: rest =>
    if c = '%' ∧ isPlaceholder d then placeholderText t d ++ expandTemplate t rest
    else c :: expandTemplate t (d :: rest)

/-- The `fmt` directive a placeholder is converted to. -/
def placeholderVerb (c : Char) : Str :=
  if c = 'Y' then "%d".toList else "%02d".toList

/-- The extractor a placeholder letter stands for. -/
def extractor (c : Char) : Time → Int :=
  if c = 'Y' then getYear
  else if c = 'M' then getMonth
  else if c = 'D' then getDay
  else if c = 'H' then getHour
  else getMin

/-- The format string of a template: each placeholder becomes its directive. -/
def formatOf : Str → Str
  | [] => []
  | [c] => [c]
  | c :: d :: rest =>
    if c = '%' ∧ isPlaceholder d then placeholderVerb d ++ formatOf rest
    else c :: formatOf (d :: rest)

/-- The extractors of the placeholders of a template, in order. -/
def extractorsOf : Str → List (Time → Int)
  | [] => []
  | [_] => []
  | c :: d :: rest =>
    if c = '%' ∧ isPlaceholder d then extractor d :: extractorsOf rest
    else extractorsOf (d :: rest)

/-- A file sink that has never been initialised and has no compiled template:
the state the constructors build before `SetPathPattern`. -/
def FileWriter.Fresh (w : FileWriter) : Prop :=
  w.actions = [] ∧ w.vars = [] ∧ w.initFileOk = false ∧ w.initFileOnce = false ∧
  w.file = none ∧ w.fileBufWriter = none ∧ w.perm = []

/-- The fields a block of `Init` leaves alone. -/
def FileWriter.sameCore (a b : FileWriter) : Prop :=
  a.actions = b.actions ∧ a.vars = b.vars ∧ a.pathFmt = b.pathFmt ∧
  a.initFileOk = b.initFileOk ∧ a.initFileOnce = b.initFileOnce ∧
  a.file = b.file ∧ a.fileBufWriter = b.fileBufWriter ∧ a.perm = b.perm ∧
  a.rotatePerm = b.rotatePerm

/-- Somewhere in the template a `%` is followed by a character that is not a
placeholder letter. -/
def hasUnknownToken (p : Str) : Prop :=
  ∃ (pre : Str) (c : Char) (post : Str), p = pre ++ '%' :: c :: post ∧ isPlaceholder c = false

/-- The path computed by a call of `Init` or `Rotate`, if the call computed
one. -/
def resolvedPath (r : Except Fault RotateResult) : Option Str :=
  match r with
  | .ok x => x.filePath
  | .error _ => none

/-- Operating-system calls that all succeed. -/
def okEnv : FileEnv :=
  { write := fun _ _ => none, close := fun _ => none, mkdirAll := fun _ _ => none,
    openFile := fun _ _ => none }

/-! ## Writing and flushing on the file sink (`file_writer.go`) -/

/-- Size of the buffer `Rotate` gives the buffered writer. -/
def bufSize : Nat := 8192

/-- Go `bufio.Writer.WriteString`: with a sticky error nothing is accepted; a
string that fits the free part of the buffer is appended to it; a string that
does not fit goes straight to the file when the buffer is empty, and otherwise
fills the buffer, which is flushed, before the rest is buffered or written. A
failed write of the file is taken to have written nothing. -/
def BufWriter.WriteString (env : FileEnv) (b : BufWriter) (s : Str) :
    BufWriter × Option Error × List FileOp :=
  match b.err with
  | some e => (b, some e, [])
  | none =>
    if s.length ≤ bufSize - b.buf.length then ({ b with buf := b.buf ++ s }, none, [])
    else if b.buf = [] then
      match env.write b.wr s with
      | some e => ({ b with err := some e }, some e, [.write b.wr s])
      | none => (b, none, [.write b.wr s])
    else
      let full := b.buf ++ s.take (bufSize - b.buf.length)
      let rest := s.drop (bufSize - b.buf.length)
      match env.write b.wr full with
      | some e => ({ b with buf := full, err := some e }, some e, [.write b.wr full])
      | none =>
        if rest.length ≤ bufSize then ({ b with buf := rest }, none, [.write b.wr full])
        else
          match env.write b.wr rest with
          | some e =>
            ({ b with buf := [], err := some e }, some e, [.write b.wr full, .write b.wr rest])
          | none => ({ b with buf := [] }, none, [.write b.wr full, .write b.wr rest])

/-- What one call of `Write` or `Flush` on the file sink did: the writer
afterwards, the returned error and the operating-system calls made. -/
structure WriteResult where
  w : FileWriter
  err : Option Error
  ops : List FileOp

/-- Go `FileWriter.Write`; the panic is the one of `Record.String`. -/
def FileWriter.Write (env : FileEnv) (w : FileWriter) (r : Record) : Except Fault WriteResult :=
  if r.level > w.level then .ok { w := w, err := none, ops := [] }
  else
    match w.fileBufWriter with
    | none =>
      .ok { w := w, err := some ("fileWriter no opened file: ".toList ++ w.filename), ops := [] }
    | some b =>
      match r.String with
      | none => .error (.panic "index out of range".toList)
      | some s =>
        let res := b.WriteString env s
        .ok { w := { w with fileBufWriter := some res.1 }, err := res.2.1, ops := res.2.2 }

/-- Go `FileWriter.Flush`. -/
def FileWriter.Flush (env : FileEnv) (w : FileWriter) : WriteResult :=
  match w.fileBufWriter with
  | none => { w := w, err := none, ops := [] }
  | some b =>
    let res := b.Flush env
    { w := { w with fileBufWriter := some res.1 }, err := res.2.1, ops := res.2.2 }

/-- The bytes the operating-system calls of a trace wrote, in order. -/
def bytesWritten : List FileOp → Str
  | [] => []
  | .write _ bytes :: ops => bytes ++ bytesWritten ops
  | _ :: ops => bytesWritten ops

/-! ## `Init` and `Rotate`, stage by stage -/

/-- The writer `Init` has built when it parses the permission string: names
set, and the default permission string in place of an empty one. -/
def FileWriter.named (w : FileWriter) : FileWriter :=
  let w1 := w.initNames
  if w1.perm = [] then { w1 with perm := "0755".toList } else w1

/-- The writer `Init` hands to `Rotate` when the permission string parses to
`perm`. -/
def FileWriter.prepared (w : FileWriter) (perm : Int) : FileWriter :=
  ({ w.named with rotatePerm := (perm % 4294967296).toNat } : FileWriter).initDefaults

/-- The writer after the first two statements of the cut-over: `initFile` has
run once and the time of the last write is `now`. -/
def FileWriter.stamped (w : FileWriter) (now : Time) : FileWriter :=
  { w with initFileOnce := true, initFileOk := w.initFileOk || !w.initFileOnce,
           lastWriteTime := now }

/-- The last part of the cut-over of `Rotate`: format the path, create the
directory, open the file and wrap it in a buffered writer. `ops1` are the
operating-system calls made before. -/
def openNext (env : FileEnv) (w3 : FileWriter) (ops1 : List FileOp) : Except Fault RotateResult :=
  match Sprintf w3.pathFmt (w3.vars.map toArg) with
  | none => .error .unmodelled
  | some filePath =>
    let ops2 := ops1 ++ [.mkdirAll filePath w3.rotatePerm]
    let mkdirFails : Option Error :=
      match env.mkdirAll filePath w3.rotatePerm with
      | some (e, isExist) => if isExist then none else some e
      | none => none
    match mkdirFails with
    | some e => .ok { w := w3, err := some e, filePath := some filePath, ops := ops2 }
    | none =>
      let ops3 := ops2 ++ [.openFile filePath w3.rotatePerm]
      match env.openFile filePath w3.rotatePerm with
      | some e => .ok { w := w3, err := some e, filePath := some filePath, ops := ops3 }
      | none =>
        let file : File := { name := filePath }
        let suffix := Ext filePath
        .ok { w := { w3 with file := some file, fileBufWriter := some (NewWriterSize file),
                             suffix := suffix, filenameOnly := TrimSuffix filePath suffix },
              err := none, filePath := some filePath, ops := ops3 }

/-- The middle part of the cut-over of `Rotate`: close the file held, if any,
and go on to open the next one. -/
def closeNext (env : FileEnv) (w3 : FileWriter) (ops0 : List FileOp) : Except Fault RotateResult :=
  match w3.file with
  | none => openNext env w3 ops0
  | some f =>
    match env.close f with
    | some e => .ok { w := w3, err := some e, filePath := none, ops := ops0 ++ [.close f] }
    | none => openNext env w3 (ops0 ++ [.close f])

/-- The permission arguments of the directory and file creations of a trace. -/
def permsOf : List FileOp → List Nat
  | [] => []
  | .mkdirAll _ perm :: ops => perm :: permsOf ops
  | .openFile _ perm :: ops => perm :: permsOf ops
  | _ :: ops => permsOf ops

/-- The writer with the fields the loop of `Rotate` assigns (the cached values
and the three open-date and open-time pairs) cleared: two writers with the same
`core` agree on every other field. -/
def FileWriter.core (w : FileWriter) : FileWriter :=
  { w with vars := [], dailyOpenDate := 0, dailyOpenTime := { unixNano := 0, offset := 0 },
           hourlyOpenDate := 0, hourlyOpenTime := { unixNano := 0, offset := 0 },
           minutelyOpenDate := 0, minutelyOpenTime := { unixNano := 0, offset := 0 } }

/-- The fields the trigger of `Rotate` reads and the cut-over leaves alone: the
extractors, the cached values, the three flags and their multipliers. -/
def FileWriter.timing (w : FileWriter) : FileWriter :=
  { actions := w.actions, vars := w.vars, daily := w.daily, hourly := w.hourly,
    minutely := w.minutely, maxDays := w.maxDays, maxHours := w.maxHours,
    maxMinutes := w.maxMinutes }

/-! ## The trigger of `Rotate`, as the specification words it -/

/-- The value of the local `rotate` when the loop of `Rotate` ends: whether the
call triggers a rotation. `none` when the loop panics. -/
def rotationTriggered (now : Time) (w : FileWriter) : Option Bool :=
  match rotateLoop now w.actions 0 w false with
  | .ok (_, rotate) => some rotate
  | .error _ => none

/-- The day of the month of the last write advanced by `maxDays` days. -/
def dayBoundary (w : FileWriter) : Int :=
  (w.lastWriteTime.AddDate 0 0 w.maxDays).Day

/-- The hour of the last write advanced by `maxHours` hours (a
`time.Duration`, 64-bit nanoseconds). -/
def hourBoundary (w : FileWriter) : Int :=
  (w.lastWriteTime.Add (wrapInt64 (durHour * w.maxHours))).Hour

/-- The minute of the last write advanced by `maxMinutes` minutes (a
`time.Duration`, 64-bit nanoseconds). -/
def minuteBoundary (w : FileWriter) : Int :=
  (w.lastWriteTime.Add (wrapInt64 (durMinute * w.maxMinutes))).Minute

/-- After initialisation, the extractor at position `i` fires: its value
differs from the cached one, the position is the third, fourth or fifth, the
flag of that position is set and the value is the projected boundary. -/
def fires (now : Time) (w : FileWriter) (i : Nat) (act : Time → Int) : Bool :=
  match w.vars.get? i with
  | none => false
  | some old =>
    decide (old ≠ some (act now)) &&
      ((i == 2 && w.daily && decide (act now = dayBoundary w)) ||
       (i == 3 && w.hourly && decide (act now = hourBoundary w)) ||
       (i == 4 && w.minutely && decide (act now = minuteBoundary w)))

/-- Some extractor of the list, standing at positions `i`, `i+1`, ..., fires. -/
def anyFires (now : Time) (w : FileWriter) : List (Time → Int) → Nat → Bool
  | [], _ => false
  | act :: acts, i => fires now w i act || anyFires now w acts (i + 1)

/-- The letters of the placeholders of a template, in order. -/
def placeholdersOf : Str → List Char
  | [] => []
  | [_] => []
  | c :: d :: rest =>
    if c = '%' ∧ isPlaceholder d then d :: placeholdersOf rest
    else placeholdersOf (d :: rest)

/-! ## The terms of `civilFromDays` -/

/-- The year of the 400-year era that holds the day `doe` of the era, as
`civilFromDays` computes it. -/
def yearOfEra (doe : Int) : Int :=
  (doe - doe / 1460 + doe / 36524 - doe / 146096) / 365

/-- The first day of the year `k` of the era, counted from the start of the
era. -/
def yearStart (k : Int) : Int :=
  365 * k + k / 4 - k / 100 + k / 400

/-- The day of the year, counted from March 1, of the day `doe` of the era. -/
def dayOfYear (doe : Int) : Int :=
  doe - (365 * yearOfEra doe + yearOfEra doe / 4 - yearOfEra doe / 100)

/-- The day of the month of the day `doe` of the era. -/
def dayOfMonth (doe : Int) : Int :=
  dayOfYear doe - (153 * ((5 * dayOfYear doe + 2) / 153) + 2) / 5 + 1

/-! ## Sinks, options and records to evaluate on -/

/-- The writer a successful call left behind. -/
def writerAfter (r : Except Fault RotateResult) (w : FileWriter) : FileWriter :=
  match r with
  | .ok x => x.w
  | .error _ => w

/-- The sink built from the options, as its first `Init` at the instant `t`
leaves it when every operating-system call succeeds. -/
def initialisedSink (o : FileWriterOptions) (t : Time) : FileWriter :=
  writerAfter ((NewFileWriterWithOptions o).Init okEnv t) (NewFileWriterWithOptions o)

/-- A writer in the state the first rotation leaves behind at 2024-03-07 09:05
for the template `log-%Y%M%D%H%m.log`, set to rotate daily after one day. -/
def dailySink : FileWriter :=
  { initFileOnce := true, initFileOk := true, rotate := true, daily := true, maxDays := 1,
    rotatePerm := 493, perm := "0755".toList, filename := "log-%Y%M%D%H%m.log".toList,
    pathFmt := "log-%d%02d%02d%02d%02d.log".toList,
    actions := [getYear, getMonth, getDay, getHour, getMin],
    vars := [some 2024, some 3, some 7, some 9, some 5],
    lastWriteTime := Date 2024 3 7 9 5 0 0 0,
    file := some { name := "log-202403070905.log".toList },
    fileBufWriter := some (NewWriterSize { name := "log-202403070905.log".toList }),
    suffix := ".log".toList, filenameOnly := "log-202403070905".toList }

/-- Options of a sink whose only placeholder is the day, rotating daily after
one day. -/
def dayOnlyOptions : FileWriterOptions :=
  { Filename := "app-%D.log".toList, Rotate := true, Daily := true, MaxDays := 1 }

/-- Options of a sink whose third placeholder is the hour, rotating daily after
one day. -/
def hourThirdOptions : FileWriterOptions :=
  { Filename := "%Y%M%H.log".toList, Rotate := true, Daily := true, MaxDays := 1 }

/-- Options of a sink with year, month and day in its template, rotating daily
after one day. -/
def dailyOptions : FileWriterOptions :=
  { Filename := "log-%Y%M%D.log".toList, Rotate := true, Daily := true, MaxDays := 1 }

/-- A record of level ERROR. -/
def recordE : Record :=
  { level := ERROR, time := "2024/03/07 09:05:00".toList, file := "main.go:10".toList,
    msg := "disk full".toList }

/-- A record of level DEBUG. -/
def recordD : Record :=
  { level := DEBUG, time := "2024/03/07 09:05:00".toList, file := "main.go:12".toList,
    msg := "retrying".toList }

/-- Operating-system calls that succeed, except that no file can be opened. -/
def noOpenEnv : FileEnv :=
  { okEnv with openFile := fun _ _ => some "permission denied".toList }

/-! ## Configuration (`config.go`, `console_writer.go`) -/

/-- Go `ConsoleWriter`. -/
structure ConsoleWriter where
  level : Int := 0
  color : Bool := false
  fullColor : Bool := false
  deriving DecidableEq, Repr

/-- Go `ConsoleWriterOptions`. -/
structure ConsoleWriterOptions where
  Enable : Bool := false
  Color : Bool := false
  FullColor : Bool := false
  Level : Str := []

/-- Go `NewConsoleWriterWithOptions`. -/
def NewConsoleWriterWithOptions (options : ConsoleWriterOptions) : ConsoleWriter :=
  let defaultLevel :=
    if options.Level.length > 0 then getLevelDefault options.Level DEBUG [] else DEBUG
  { level := defaultLevel, color := options.Color, fullColor := options.FullColor }

/-- Go `LogConfig`. -/
structure LogConfig where
  Level : Str := []
  Debug : Bool := false
  FullPath : Bool := false
  ConsoleWriter : ConsoleWriterOptions := {}
  FileWriter : FileWriterOptions := {}

def WriterNameConsole : Str := "console_writer".toList
def WriterNameFile : Str := "file_writer".toList

/-- Go `getLevel`. -/
def getLevel (flag : Str) : Int :=
  getLevelDefault flag DEBUG []

/-- Go `maxInt`. -/
def maxInt (a b : Int) : Int :=
  if a < b then b else a

/-- The receivers `SetupLog` registers: a `*ConsoleWriter` or a
`*FileWriter`. -/
inductive Sink where
  | console (w : ConsoleWriter)
  | file (w : FileWriter)

/-- The field `level` of a sink. -/
def Sink.level : Sink → Int
  | .console w => w.level
  | .file w => w.level

/-- How `SetupLog` ended: the package variable `GlobalLevel`, the default
logger, and the value the call panicked with, if it did (`none`: it returned
nil). -/
structure SetupResult where
  GlobalLevel : Int
  logger : Logger Sink
  panic : Option Error

/-- The message of the runtime panic of an index expression. -/
def indexPanic : Error := "index out of range".toList

/-- The console part of the second half of `SetupLog`: build the writer, set
its level, evaluate `LevelFlags[level]` for the log line and register. -/
def setupConsole (consoleMethods : WriterImpl Sink) (lc : LogConfig) (level : Int)
    (l : Logger Sink) : RegisterResult Sink :=
  if lc.ConsoleWriter.Enable then
    let w := { NewConsoleWriterWithOptions lc.ConsoleWriter with level := level }
    match index LevelFlags level with
    | none => { logger := l, panic := some indexPanic }
    | some _ => l.Register { impl := consoleMethods, self := .console w }
  else { logger := l, panic := none }

/-- The file part of the second half of `SetupLog`. -/
def setupFile (fileMethods : WriterImpl Sink) (lc : LogConfig) (level : Int)
    (l : Logger Sink) : RegisterResult Sink :=
  if lc.FileWriter.Enable then
    let w := { NewFileWriterWithOptions lc.FileWriter with level := level }
    match index LevelFlags level with
    | none => { logger := l, panic := some indexPanic }
    | some _ => l.Register { impl := fileMethods, self := .file w }
  else { logger := l, panic := none }

/-- Go `SetupLog` on the default logger `l`. The method sets of the two sink
types, as the dispatch core sees them, are `consoleMethods` and `fileMethods`.
Of the lines written with `log.Printf` only the index expressions are kept;
the name in `validGlobalMinLevelBy` is used by those lines alone. -/
def SetupLog (consoleMethods fileMethods : WriterImpl Sink) (lc : LogConfig) (l : Logger Sink) :
    SetupResult :=
  let GlobalLevel := getLevel lc.Level
  let validGlobalMinLevel0 := ACCESS
  let consoleWriterLevelDefault :=
    if lc.ConsoleWriter.Enable then
      getLevelDefault lc.ConsoleWriter.Level GlobalLevel WriterNameConsole
    else GlobalLevel
  let validGlobalMinLevel1 :=
    if lc.ConsoleWriter.Enable then maxInt consoleWriterLevelDefault validGlobalMinLevel0
    else validGlobalMinLevel0
  let fileWriterLevelDefault :=
    if lc.FileWriter.Enable then getLevelDefault lc.FileWriter.Level GlobalLevel WriterNameFile
    else GlobalLevel
  let validGlobalMinLevel :=
    if lc.FileWriter.Enable then maxInt fileWriterLevelDefault validGlobalMinLevel1
    else validGlobalMinLevel1
  let l1 := { l with fullPath := lc.FullPath, level := validGlobalMinLevel }
  let c := setupConsole consoleMethods lc consoleWriterLevelDefault l1
  match c.panic with
  | some e => { GlobalLevel := GlobalLevel, logger := c.logger, panic := some e }
  | none =>
    let f := setupFile fileMethods lc fileWriterLevelDefault c.logger
    match f.panic with
    | some e => { GlobalLevel := GlobalLevel, logger := f.logger, panic := some e }
    | none =>
      match index LevelFlags validGlobalMinLevel, index LevelFlags GlobalLevel with
      | some _, some _ => { GlobalLevel := GlobalLevel, logger := f.logger, panic := none }
      | _, _ => { GlobalLevel := GlobalLevel, logger := f.logger, panic := some indexPanic }

/-- The level `SetupLog` gives an enabled sink, as the specification words it:
the sink's own level string parsed, or the parsed global level when the string
names no level. -/
def sinkLevel (own global : Str) : Int :=
  match findLevel own LevelFlags 0 with
  | some i => i
  | none =>
    match findLevel global LevelFlags 0 with
    | some g => g
    | none => DEBUG

/-- A sink type whose methods all return nil and leave the receiver alone, and
that has neither `Flush` nor `Rotate`. -/
def idleMethods : WriterImpl Sink :=
  { Init := fun s => (s, none), Write := fun s _ => (s, none), Flush := none, Rotate := none }

/-- The configuration of `config_test.go`. -/
def testConfig : LogConfig :=
  { Level := "common".toList, FullPath := true, Debug := true,
    FileWriter := { Level := "abnormal".toList,
                    Filename := "./test/golog-test-%Y%M%D.log".toList, Enable := true },
    ConsoleWriter := { Level := "error".toList, Enable := true, Color := true,
                       FullColor := true } }

/-- The default logger as `init` of `log.go` builds it. -/
def defaultLogger : Logger Sink :=
  { (newLoggerWithRecords (Chan.make 4096) : System Sink).logger with
    flushTimer := 500000000, rotateTimer := 10000000000 }

/-- The levels of the sinks a configuration enables, console before file, as
the specification words them. -/
def enabledLevels (lc : LogConfig) : List Int :=
  (if lc.ConsoleWriter.Enable then [sinkLevel lc.ConsoleWriter.Level lc.Level] else []) ++
  (if lc.FileWriter.Enable then [sinkLevel lc.FileWriter.Level lc.Level] else [])

/-- The sinks `SetupLog` hands to `Register`, console before file: built from
the options, with the level field overwritten. -/
def enabledSinks (lc : LogConfig) : List Sink :=
  (if lc.ConsoleWriter.Enable then
    [Sink.console { NewConsoleWriterWithOptions lc.ConsoleWriter with
      level := sinkLevel lc.ConsoleWriter.Level lc.Level }]
   else []) ++
  (if lc.FileWriter.Enable then
    [Sink.file { NewFileWriterWithOptions lc.FileWriter with
      level := sinkLevel lc.FileWriter.Level lc.Level }]
   else [])

/-- A sink set to rotate by day, hour and minute with no multiplier given and a
permission string that is not octal. -/
def badPermSink : FileWriter :=
  { rotate := true, daily := true, hourly := true, minutely := true, perm := "0999".toList }

/-- The default rendering of an operand, the one of the verb `v`: an integer in
decimal, a string as it is, the nil interface as `<nil>`. -/
def defaultText : Arg → Str
  | .int v => decimalInt v
  | .str s => s
  | .null => "<nil>".toList

/-! ## Theorems -/

/-! ### Traces of the fan-out loops -/

theorem writesOf_append (a b : List Call) : writesOf (a ++ b) = writesOf a ++ writesOf b := by
  induction a with
  | nil => rfl
  | cons c cs ih => cases c <;> simp [writesOf, ih]

theorem flushesOf_append (a b : List Call) : flushesOf (a ++ b) = flushesOf a ++ flushesOf b := by
  induction a with
  | nil => rfl
  | cons c cs ih => cases c <;> simp [flushesOf, ih]

theorem recordsWrittenTo_append (i : Nat) (a b : List Call) :
    recordsWrittenTo i (a ++ b) = recordsWrittenTo i a ++ recordsWrittenTo i b := by
  simp [recordsWrittenTo, writesOf_append]

theorem rangeWriters_length {σ : Type} (body : Nat → Writer σ → Option (σ × Call))
    (ws : List (Writer σ)) (i : Nat) : (rangeWriters body ws i).1.length = ws.length := by
  induction ws generalizing i with
  | nil => rfl
  | cons w ws ih =>
    simp only [rangeWriters]
    split <;> simp [ih]

theorem rangeWriters_impl {σ : Type} (body : Nat → Writer σ → Option (σ × Call))
    (ws : List (Writer σ)) (i : Nat) :
    (rangeWriters body ws i).1.map (fun w => w.impl) = ws.map (fun w => w.impl) := by
  induction ws generalizing i with
  | nil => rfl
  | cons w ws ih =>
    simp only [rangeWriters]
    split <;> simp [ih]

theorem writesOf_write_loop {σ : Type} (r : Record) (ws : List (Writer σ)) (i : Nat) :
    writesOf (rangeWriters (writeBody r) ws i).2
      = (List.range' i ws.length).map fun k => (k, r) := by
  induction ws generalizing i with
  | nil => rfl
  | cons w ws ih =>
    simp [rangeWriters, writeBody, writesOf, ih, List.range'_succ]

theorem writesOf_flush_loop {σ : Type} (ws : List (Writer σ)) (i : Nat) :
    writesOf (rangeWriters flushBody ws i).2 = [] := by
  induction ws generalizing i with
  | nil => rfl
  | cons w ws ih =>
    simp only [rangeWriters, flushBody]
    cases hf : w.impl.Flush with
    | none => simpa using ih (i + 1)
    | some f => simpa [writesOf] using ih (i + 1)

theorem writesOf_rotate_loop {σ : Type} (ws : List (Writer σ)) (i : Nat) :
    writesOf (rangeWriters rotateBody ws i).2 = [] := by
  induction ws generalizing i with
  | nil => rfl
  | cons w ws ih =>
    simp only [rangeWriters, rotateBody]
    cases hf : w.impl.Rotate with
    | none => simpa using ih (i + 1)
    | some f => simpa [writesOf] using ih (i + 1)

theorem flushers_congr {σ : Type} (ws ws' : List (Writer σ)) (i : Nat)
    (h : ws'.map (fun w => w.impl) = ws.map (fun w => w.impl)) :
    flushers ws' i = flushers ws i := by
  induction ws generalizing ws' i with
  | nil =>
    cases ws' with
    | nil => rfl
    | cons a as => simp at h
  | cons w ws ih =>
    cases ws' with
    | nil => simp at h
    | cons a as =>
      simp only [List.map_cons, List.cons.injEq] at h
      simp [flushers, h.1, ih as (i + 1) h.2]

theorem flush_loop_calls {σ : Type} (ws : List (Writer σ)) (i : Nat) :
    flushesOf (rangeWriters flushBody ws i).2 = flushers ws i ∧
    (rangeWriters flushBody ws i).2.length = (flushers ws i).length := by
  induction ws generalizing i with
  | nil => exact ⟨rfl, rfl⟩
  | cons w ws ih =>
    simp only [rangeWriters, flushBody, flushers]
    cases hf : w.impl.Flush with
    | none => simpa using ih (i + 1)
    | some f => simpa [flushesOf] using ih (i + 1)

theorem fanOut_select (n i : Nat) (h : i < n) (rs : List Record) :
    (rs.flatMap (fanOut n)).filterMap (fun p => if p.1 = i then some p.2 else none) = rs := by
  induction rs with
  | nil => rfl
  | cons r rs ih =>
    rw [List.flatMap_cons, List.filterMap_append, ih]
    have : (fanOut n r).filterMap (fun p => if p.1 = i then some p.2 else none) = [r] := by
      clear ih
      unfold fanOut
      induction n with
      | zero => omega
      | succ m ihm =>
        rw [List.range_succ, List.map_append, List.filterMap_append]
        by_cases hm : i < m
        · rw [ihm hm]
          have : m ≠ i := by omega
          simp [this]
        · have hi : i = m := by omega
          subst hi
          have hnone : List.filterMap (fun p : Nat × Record => if p.1 = i then some p.2 else none)
              (List.map (fun k => (k, r)) (List.range i)) = [] := by
            rw [List.filterMap_eq_nil_iff]
            intro p hp
            simp only [List.mem_map, List.mem_range] at hp
            obtain ⟨k, hk, rfl⟩ := hp
            have : k ≠ i := by omega
            simp [this]
          rw [hnone]
          simp
    rw [this]
    rfl


/-! ### The worker on a schedule -/

theorem run_append {σ : Type} (s : System σ) (as bs : List Action) :
    s.run (as ++ bs) = ((s.run as).1.run bs |>.1, (s.run as).2 ++ ((s.run as).1.run bs).2) := by
  induction as generalizing s with
  | nil => simp [System.run]
  | cons a as ih => simp [System.run, ih, List.append_assoc]

theorem workerTick_frame {σ : Type} (t : Tick) (s : System σ) :
    (workerTick t s).1.logger.records = s.logger.records ∧
    (workerTick t s).1.worker = s.worker ∧
    (workerTick t s).1.logger.writers.length = s.logger.writers.length ∧
    (workerTick t s).1.logger.writers.map (fun w => w.impl) = s.logger.writers.map (fun w => w.impl) ∧
    (workerTick t s).1.logger.c = s.logger.c ∧
    writesOf (workerTick t s).2 = [] := by
  unfold workerTick
  cases hw : s.worker
  case selectLoop =>
    cases t <;>
      simp [rangeWriters_length, rangeWriters_impl, writesOf_flush_loop, writesOf_rotate_loop, hw]
  all_goals simp [writesOf, hw]

theorem workerReceive_value {σ : Type} (s : System σ) (r : Record) (q : List Record)
    (hlive : s.Live) (hq : s.logger.records.queue = r :: q) :
    (workerReceive s).1.logger.records = { s.logger.records with queue := q } ∧
    (workerReceive s).1.worker = .selectLoop ∧
    (workerReceive s).1.logger.writers.length = s.logger.writers.length ∧
    (workerReceive s).1.logger.writers.map (fun w => w.impl) = s.logger.writers.map (fun w => w.impl) ∧
    (workerReceive s).1.logger.c = s.logger.c ∧
    writesOf (workerReceive s).2 = fanOut s.logger.writers.length r := by
  unfold workerReceive
  rcases hlive with h | h <;>
    simp [h, Chan.recv, hq, rangeWriters_length, rangeWriters_impl, writesOf_write_loop, fanOut,
      List.range_eq_range']

theorem step_fifo {σ : Type} (s : System σ) (a : Action)
    (hopen : s.logger.records.closed = false) :
    ∃ d : List Record,
      d ++ (s.step a).1.logger.records.queue = s.logger.records.queue ++ submitted [a] ∧
      writesOf (s.step a).2 = d.flatMap (fanOut s.logger.writers.length) ∧
      (s.step a).1.logger.writers.length = s.logger.writers.length ∧
      (s.step a).1.logger.records.closed = false := by
  cases a with
  | submit r =>
    refine ⟨[], ?_⟩
    unfold System.step Chan.send
    by_cases hc : s.logger.records.queue.length < s.logger.records.cap <;>
      simp [hopen, hc, submitted, writesOf]
  | tick t =>
    obtain ⟨h1, _, h3, _, _, h6⟩ := workerTick_frame t s
    exact ⟨[], by simp [System.step, h1, submitted], by simp [System.step, h6],
      by simp [System.step, h3], by simp [System.step, h1, hopen]⟩
  | receive =>
    by_cases hlive : s.Live
    · cases hq : s.logger.records.queue with
      | nil =>
        refine ⟨[], ?_⟩
        rcases hlive with h | h <;>
          simp [System.step, workerReceive, h, Chan.recv, hq, hopen, submitted, writesOf]
      | cons r q =>
        obtain ⟨h1, _, h3, _, _, h6⟩ := workerReceive_value s r q hlive hq
        exact ⟨[r], by simp [System.step, h1, submitted], by simp [System.step, h6],
          by simp [System.step, h3], by simp [System.step, h1, hopen]⟩
    · refine ⟨[], ?_⟩
      unfold System.Live at hlive
      cases hw : s.worker
      · simp [hw] at hlive
      · simp [hw] at hlive
      · unfold System.step workerReceive signalDone
        by_cases hc : s.logger.c.length < 1 <;> simp [hw, hc, submitted, writesOf, hopen]
      · simp [System.step, workerReceive, hw, submitted, writesOf, hopen]

theorem submitted_cons (a : Action) (as : List Action) :
    submitted (a :: as) = submitted [a] ++ submitted as := by
  cases a <;> simp [submitted]

theorem run_fifo {σ : Type} (acts : List Action) (s : System σ)
    (hopen : s.logger.records.closed = false) :
    ∃ d : List Record,
      d ++ (s.run acts).1.logger.records.queue = s.logger.records.queue ++ submitted acts ∧
      writesOf (s.run acts).2 = d.flatMap (fanOut s.logger.writers.length) ∧
      (s.run acts).1.logger.writers.length = s.logger.writers.length ∧
      (s.run acts).1.logger.records.closed = false := by
  induction acts generalizing s with
  | nil => exact ⟨[], by simp [System.run, submitted], by simp [System.run, writesOf], rfl, hopen⟩
  | cons a as ih =>
    obtain ⟨d1, e1, w1, l1, c1⟩ := step_fifo s a hopen
    obtain ⟨d2, e2, w2, l2, c2⟩ := ih (s.step a).1 c1
    refine ⟨d1 ++ d2, ?_, ?_, ?_, ?_⟩
    · simp only [System.run]
      rw [List.append_assoc, e2, ← List.append_assoc, e1, List.append_assoc, ← submitted_cons]
    · simp only [System.run]
      rw [writesOf_append, w1, w2, l1, List.flatMap_append]
    · simp only [System.run]
      rw [l2, l1]
    · simpa only [System.run] using c2

theorem run_ticks {σ : Type} (ts : List Tick) (s : System σ) :
    (s.run (ts.map Action.tick)).1.logger.records = s.logger.records ∧
    (s.run (ts.map Action.tick)).1.worker = s.worker ∧
    (s.run (ts.map Action.tick)).1.logger.writers.length = s.logger.writers.length ∧
    (s.run (ts.map Action.tick)).1.logger.writers.map (fun w => w.impl)
      = s.logger.writers.map (fun w => w.impl) ∧
    (s.run (ts.map Action.tick)).1.logger.c = s.logger.c ∧
    writesOf (s.run (ts.map Action.tick)).2 = [] := by
  induction ts generalizing s with
  | nil => simp [System.run, writesOf]
  | cons t ts ih =>
    obtain ⟨h1, h2, h3, h4, h5, h6⟩ := workerTick_frame t s
    obtain ⟨i1, i2, i3, i4, i5, i6⟩ := ih (workerTick t s).1
    simp only [List.map_cons, System.run, System.step]
    exact ⟨by rw [i1, h1], by rw [i2, h2], by rw [i3, h3], by rw [i4, h4], by rw [i5, h5],
      by rw [writesOf_append, h6, i6]; rfl⟩

theorem run_serve {σ : Type} (k : Nat) (ticks : List (List Tick)) (s : System σ)
    (hlive : s.Live) (hk : k ≤ s.logger.records.queue.length) :
    (s.run (serve ticks k)).1.logger.records
      = { s.logger.records with queue := s.logger.records.queue.drop k } ∧
    ((s.run (serve ticks k)).1).Live ∧
    (s.run (serve ticks k)).1.logger.writers.length = s.logger.writers.length ∧
    (s.run (serve ticks k)).1.logger.writers.map (fun w => w.impl)
      = s.logger.writers.map (fun w => w.impl) ∧
    (s.run (serve ticks k)).1.logger.c = s.logger.c ∧
    writesOf (s.run (serve ticks k)).2
      = (s.logger.records.queue.take k).flatMap (fanOut s.logger.writers.length) := by
  induction k generalizing ticks s with
  | zero => simp [serve, System.run, writesOf, hlive]
  | succ k ih =>
    obtain ⟨t1, t2, t3, t4, t5, t6⟩ := run_ticks (ticks.headD []) s
    cases hq : s.logger.records.queue with
    | nil => simp [hq] at hk
    | cons r q =>
      have hlive1 : ((s.run ((ticks.headD []).map Action.tick)).1).Live := by
        unfold System.Live at hlive ⊢
        rw [t2]
        exact hlive
      have hq1 : (s.run ((ticks.headD []).map Action.tick)).1.logger.records.queue = r :: q := by
        rw [t1, hq]
      obtain ⟨r1, r2, r3, r4, r5, r6⟩ :=
        workerReceive_value (s.run ((ticks.headD []).map Action.tick)).1 r q hlive1 hq1
      have hlive2 : ((workerReceive (s.run ((ticks.headD []).map Action.tick)).1).1).Live :=
        Or.inr r2
      have hk2 : k ≤ (workerReceive (s.run ((ticks.headD []).map Action.tick)).1).1.logger.records.queue.length := by
        rw [r1]
        simp [hq] at hk
        simpa using hk
      obtain ⟨i1, i2, i3, i4, i5, i6⟩ :=
        ih ticks.tail (workerReceive (s.run ((ticks.headD []).map Action.tick)).1).1 hlive2 hk2
      simp only [serve, run_append, System.run, System.step]
      refine ⟨?_, i2, ?_, ?_, ?_, ?_⟩
      · rw [i1, r1, t1]
        simp [hq]
      · rw [i3, r3, t3]
      · rw [i4, r4, t4]
      · rw [i5, r5, t5]
      · rw [writesOf_append, writesOf_append, t6, r6, i6, r1, r3, t3]
        simp [hq]

/-! ### The worker during `Close` -/

theorem workerTicks_frame {σ : Type} (ts : List Tick) (s : System σ) :
    (workerTicks ts s).1.logger.records = s.logger.records ∧
    (workerTicks ts s).1.worker = s.worker ∧
    (workerTicks ts s).1.logger.writers.length = s.logger.writers.length ∧
    (workerTicks ts s).1.logger.writers.map (fun w => w.impl)
      = s.logger.writers.map (fun w => w.impl) ∧
    (workerTicks ts s).1.logger.c = s.logger.c ∧
    writesOf (workerTicks ts s).2 = [] := by
  induction ts generalizing s with
  | nil => simp [workerTicks, writesOf]
  | cons t ts ih =>
    obtain ⟨h1, h2, h3, h4, h5, h6⟩ := workerTick_frame t s
    obtain ⟨i1, i2, i3, i4, i5, i6⟩ := ih (workerTick t s).1
    simp only [workerTicks]
    exact ⟨by rw [i1, h1], by rw [i2, h2], by rw [i3, h3], by rw [i4, h4], by rw [i5, h5],
      by rw [writesOf_append, h6, i6]; rfl⟩

theorem workerReceive_closed {σ : Type} (s : System σ) (hlive : s.Live)
    (hq : s.logger.records.queue = []) (hclosed : s.logger.records.closed = true)
    (hc : s.logger.c = []) :
    (workerReceive s).1.worker = .returned ∧
    (workerReceive s).1.logger.records = s.logger.records ∧
    (workerReceive s).1.logger.writers = s.logger.writers ∧
    (workerReceive s).1.logger.c = [true] ∧
    (workerReceive s).2 = [] := by
  unfold workerReceive
  rcases hlive with h | h <;> simp [h, Chan.recv, hq, hclosed, signalDone, hc]

theorem drain_succ {σ : Type} (fuel : Nat) (ticks : List (List Tick)) (s : System σ) :
    drain (fuel + 1) ticks s
      = if (workerReceive (workerTicks (ticks.headD []) s).1).1.worker = .returned then
          ((workerReceive (workerTicks (ticks.headD []) s).1).1,
           (workerTicks (ticks.headD []) s).2 ++ (workerReceive (workerTicks (ticks.headD []) s).1).2)
        else
          ((drain fuel ticks.tail (workerReceive (workerTicks (ticks.headD []) s).1).1).1,
           (workerTicks (ticks.headD []) s).2 ++ (workerReceive (workerTicks (ticks.headD []) s).1).2
             ++ (drain fuel ticks.tail (workerReceive (workerTicks (ticks.headD []) s).1).1).2) :=
  rfl

theorem drain_closed {σ : Type} (q : List Record) (ticks : List (List Tick)) (s : System σ)
    (hq : s.logger.records.queue = q) (hclosed : s.logger.records.closed = true)
    (hlive : s.Live) (hc : s.logger.c = []) :
    (drain (q.length + 1) ticks s).1.worker = .returned ∧
    (drain (q.length + 1) ticks s).1.logger.records.queue = [] ∧
    (drain (q.length + 1) ticks s).1.logger.c = [true] ∧
    (drain (q.length + 1) ticks s).1.logger.writers.length = s.logger.writers.length ∧
    (drain (q.length + 1) ticks s).1.logger.writers.map (fun w => w.impl)
      = s.logger.writers.map (fun w => w.impl) ∧
    writesOf (drain (q.length + 1) ticks s).2 = q.flatMap (fanOut s.logger.writers.length) := by
  induction q generalizing ticks s with
  | nil =>
    obtain ⟨t1, t2, t3, t4, t5, t6⟩ := workerTicks_frame (ticks.headD []) s
    have hlive1 : ((workerTicks (ticks.headD []) s).1).Live := by
      unfold System.Live at hlive ⊢
      rw [t2]
      exact hlive
    obtain ⟨r1, r2, r3, r4, r5⟩ := workerReceive_closed (workerTicks (ticks.headD []) s).1 hlive1
      (by rw [t1, hq]) (by rw [t1, hclosed]) (by rw [t5, hc])
    rw [List.length_nil, drain_succ, if_pos r1]
    exact ⟨r1, by rw [r2, t1, hq], r4, by rw [r3, t3], by rw [r3, t4],
      by rw [writesOf_append, t6, r5]; rfl⟩
  | cons r q ih =>
    obtain ⟨t1, t2, t3, t4, t5, t6⟩ := workerTicks_frame (ticks.headD []) s
    have hlive1 : ((workerTicks (ticks.headD []) s).1).Live := by
      unfold System.Live at hlive ⊢
      rw [t2]
      exact hlive
    obtain ⟨r1, r2, r3, r4, r5, r6⟩ :=
      workerReceive_value (workerTicks (ticks.headD []) s).1 r q hlive1 (by rw [t1, hq])
    obtain ⟨i1, i2, i3, i4, i5, i6⟩ :=
      ih ticks.tail (workerReceive (workerTicks (ticks.headD []) s).1).1
        (by rw [r1]) (by rw [r1, t1]; exact hclosed) (Or.inr r2) (by rw [r5, t5, hc])
    have hne : ¬ (workerReceive (workerTicks (ticks.headD []) s).1).1.worker = .returned := by
      rw [r2]
      decide
    rw [List.length_cons, drain_succ, if_neg hne]
    refine ⟨i1, i2, i3, by rw [i4, r3, t3], by rw [i5, r4, t4], ?_⟩
    rw [writesOf_append, writesOf_append, t6, r6, i6, r3, t3]
    simp

theorem step_live {σ : Type} (s : System σ) (a : Action)
    (hopen : s.logger.records.closed = false) (hlive : s.Live) : ((s.step a).1).Live := by
  cases a with
  | submit r =>
    unfold System.step Chan.send
    by_cases hc : s.logger.records.queue.length < s.logger.records.cap <;>
      simpa [hopen, hc, System.Live] using hlive
  | tick t =>
    unfold System.Live at hlive ⊢
    simp only [System.step]
    rw [(workerTick_frame t s).2.1]
    exact hlive
  | receive =>
    cases hq : s.logger.records.queue with
    | nil =>
      unfold System.Live at hlive ⊢
      rcases hlive with h | h <;>
        simp [System.step, workerReceive, h, Chan.recv, hq, hopen]
    | cons r q => exact Or.inr (workerReceive_value s r q hlive hq).2.1

theorem run_live {σ : Type} (acts : List Action) (s : System σ)
    (hopen : s.logger.records.closed = false) (hlive : s.Live) : ((s.run acts).1).Live := by
  induction acts generalizing s with
  | nil => exact hlive
  | cons a as ih =>
    simp only [System.run]
    exact ih (s.step a).1 (step_fifo s a hopen).choose_spec.2.2.2 (step_live s a hopen hlive)

theorem write_loop_calls {σ : Type} (r : Record) (ws : List (Writer σ)) (i : Nat) :
    (rangeWriters (writeBody r) ws i).2
      = (ws.enumFrom i).map fun p => Call.Write p.1 r (p.2.impl.Write p.2.self r).2 := by
  induction ws generalizing i with
  | nil => rfl
  | cons w ws ih => simp [rangeWriters, writeBody, ih, List.enumFrom]

theorem run_submits {σ : Type} (rs : List Record) (s : System σ)
    (hopen : s.logger.records.closed = false) :
    (s.run (rs.map Action.submit)).1.logger.records
      = { s.logger.records with queue := s.logger.records.queue ++ rs } ∧
    (s.run (rs.map Action.submit)).1.worker = s.worker ∧
    (s.run (rs.map Action.submit)).1.logger.writers = s.logger.writers ∧
    (s.run (rs.map Action.submit)).2 = [] := by
  induction rs generalizing s with
  | nil => simp [System.run]
  | cons r rs ih =>
    have hstep : (s.step (.submit r)).1.logger.records
          = { s.logger.records with queue := s.logger.records.queue ++ [r] } ∧
        (s.step (.submit r)).1.worker = s.worker ∧
        (s.step (.submit r)).1.logger.writers = s.logger.writers ∧
        (s.step (.submit r)).2 = [] := by
      unfold System.step Chan.send
      by_cases hc : s.logger.records.queue.length < s.logger.records.cap <;> simp [hopen, hc]
    obtain ⟨s1, s2, s3, s4⟩ := hstep
    obtain ⟨i1, i2, i3, i4⟩ := ih (s.step (.submit r)).1 (by rw [s1]; exact hopen)
    simp only [List.map_cons, System.run]
    exact ⟨by rw [i1, s1]; simp, by rw [i2, s2], by rw [i3, s3], by rw [i4, s4]; rfl⟩

theorem buildRecord_frame {σ : Type} (env : CallEnv) (l : Logger σ) (s : Int) (f : Str)
    (args : List Arg) :
    (buildRecord env l s f args).1.records = l.records ∧
    (buildRecord env l s f args).1.writers = l.writers ∧
    (buildRecord env l s f args).2.level = s := by
  refine ⟨?_, ?_, rfl⟩ <;> (simp only [buildRecord]; split <;> rfl)

/-! ### Digits -/

theorem decimal_lt_ten (n : Nat) (h : n < 10) : decimal n = [Nat.digitChar n] := by
  interval_cases n <;> rfl

theorem toDigitsCore_length_pos (b fuel m : Nat) (h : 1 ≤ fuel) :
    1 ≤ (Nat.toDigitsCore b fuel m []).length := by
  cases fuel with
  | zero => omega
  | succ f =>
    rw [Nat.toDigitsCore]
    split
    · simp
    · rw [Nat.toDigitsCore_lens_eq]
      omega

theorem decimal_length_ge (n : Nat) (h : 10 ≤ n) : 2 ≤ (decimal n).length := by
  unfold decimal Nat.toDigits
  rw [Nat.toDigitsCore]
  have h0 : n / 10 ≠ 0 := by omega
  simp only [h0, if_false]
  rw [Nat.toDigitsCore_lens_eq]
  have := toDigitsCore_length_pos 10 n (n / 10) (by omega)
  omega

theorem fmtInteger_two (v : Int) (h : 0 ≤ v) : fmtInteger v true (some 2) = twoDigits v.toNat := by
  obtain ⟨n, rfl⟩ := Int.eq_ofNat_of_zero_le h
  have hneg : ¬ ((n : Int) < 0) := by omega
  simp only [fmtInteger, twoDigits, hneg, if_false, Int.natAbs_ofNat, Int.toNat_ofNat,
    Option.getD_some]
  by_cases hn : n < 10
  · simp [hn, decimal_lt_ten n hn]
  · have h2 := decimal_length_ge n (by omega)
    have e1 : 2 - (decimal n).length = 0 := by omega
    simp [hn, e1]

theorem fmtInteger_plain (v : Int) : fmtInteger v false none = decimalInt v := by
  simp only [fmtInteger, decimalInt]
  split <;> simp

/-! ### The calendar reading stays in range -/

theorem month_range (t : Time) : 1 ≤ t.Month ∧ t.Month ≤ 12 := by
  simp only [Time.Month, civilFromDays]
  split <;> omega

theorem day_range (t : Time) : 1 ≤ t.Day ∧ t.Day ≤ 31 := by
  simp only [Time.Day, civilFromDays]
  omega

theorem hour_range (t : Time) : 0 ≤ t.Hour ∧ t.Hour ≤ 23 := by
  simp only [Time.Hour]
  omega

theorem minute_range (t : Time) : 0 ≤ t.Minute ∧ t.Minute ≤ 59 := by
  simp only [Time.Minute]
  omega

/-! ### `convertPatternToFmt` -/

theorem replaceFrom_plain (o new : Str) (c : Char) (x : Str) (hc : c ≠ '%') :
    replaceFrom ('%' :: o) new 0 (c :: x) = c :: replaceFrom ('%' :: o) new 0 x := by
  have : ('%' == c) = false := by
    simp only [beq_eq_false_iff_ne, ne_eq]
    exact fun h => hc h.symm
  simp [replaceFrom, startsWith, this]

theorem replaceFrom_other (a b : Char) (new x : Str) (hb : b ≠ a) (hp : b ≠ '%') :
    replaceFrom ['%', a] new 0 ('%' :: b :: x) = '%' :: b :: replaceFrom ['%', a] new 0 x := by
  have h1 : (a == b) = false := by
    simp only [beq_eq_false_iff_ne, ne_eq]
    exact fun h => hb h.symm
  have h2 : ('%' == b) = false := by
    simp only [beq_eq_false_iff_ne, ne_eq]
    exact fun h => hp h.symm
  simp [replaceFrom, startsWith, h1, h2]

theorem replaceFrom_match (a : Char) (new x : Str) :
    replaceFrom ['%', a] new 0 ('%' :: a :: x) = new ++ replaceFrom ['%', a] new 0 x := by
  simp [replaceFrom, startsWith]

theorem convert_plain (c : Char) (x : Str) (hc : c ≠ '%') :
    convertPatternToFmt (c :: x) = c :: convertPatternToFmt x := by
  simp only [convertPatternToFmt, replaceAll, String.toList]
  simp only [replaceFrom_plain _ _ c _ hc]

theorem convert_placeholder (d : Char) (x : Str) (hd : isPlaceholder d = true) :
    convertPatternToFmt ('%' :: d :: x) = placeholderVerb d ++ convertPatternToFmt x := by
  simp only [isPlaceholder, Bool.or_eq_true, beq_iff_eq] at hd
  simp only [convertPatternToFmt, replaceAll, String.toList]
  rcases hd with (((rfl | rfl) | rfl) | rfl) | rfl
  · simp [replaceFrom_match, replaceFrom_other, replaceFrom_plain, placeholderVerb]
  · simp [replaceFrom_match, replaceFrom_other, replaceFrom_plain, placeholderVerb]
  · simp [replaceFrom_match, replaceFrom_other, replaceFrom_plain, placeholderVerb]
  · simp [replaceFrom_match, replaceFrom_other, replaceFrom_plain, placeholderVerb]
  · simp [replaceFrom_match, replaceFrom_other, replaceFrom_plain, placeholderVerb]

theorem placeholder_ne_percent (d : Char) (hd : isPlaceholder d = true) : d ≠ '%' := by
  intro h
  subst h
  revert hd
  decide

theorem convert_eq_formatOf (p : Str) (hv : eachPercentFollowed p = true) :
    convertPatternToFmt p = formatOf p := by
  induction p using formatOf.induct with
  | case1 => rfl
  | case2 c =>
    simp only [eachPercentFollowed, bne_iff_ne, ne_eq] at hv
    rw [convert_plain c [] hv]
    rfl
  | case3 c d rest hcd ih =>
    simp only [eachPercentFollowed, Bool.and_eq_true, Bool.or_eq_true, bne_iff_ne, ne_eq] at hv
    have hrest : eachPercentFollowed rest = true := by
      cases rest with
      | nil => rfl
      | cons e rest' =>
        have h2 := hv.2
        simp only [eachPercentFollowed, Bool.and_eq_true] at h2
        exact h2.2
    rw [formatOf, if_pos hcd, hcd.1, convert_placeholder d rest hcd.2, ih hrest]
  | case4 c d rest hcd ih =>
    simp only [eachPercentFollowed, Bool.and_eq_true, Bool.or_eq_true, bne_iff_ne, ne_eq] at hv
    have hc : c ≠ '%' := by
      rcases hv.1 with h | h
      · exact h
      · intro hc
        exact hcd ⟨hc, h⟩
    rw [formatOf, if_neg hcd, convert_plain c _ hc, ih hv.2]

/-! ### Templates in which every `%` is followed by a placeholder -/

theorem eachPercentFollowed_plain (c : Char) (x : Str) (hc : c ≠ '%') :
    eachPercentFollowed (c :: x) = eachPercentFollowed x := by
  cases x with
  | nil => simp [eachPercentFollowed, hc]
  | cons d rest => simp [eachPercentFollowed, hc]

theorem eachPercentFollowed_placeholder (d : Char) (x : Str) (hd : isPlaceholder d = true) :
    eachPercentFollowed ('%' :: d :: x) = eachPercentFollowed x := by
  have hne := placeholder_ne_percent d hd
  rw [eachPercentFollowed, eachPercentFollowed_plain d x hne]
  simp [hd]

theorem template_induction (P : Str → Prop) (h0 : P [])
    (h1 : ∀ c x, c ≠ '%' → eachPercentFollowed x = true → P x → P (c :: x))
    (h2 : ∀ d x, isPlaceholder d = true → eachPercentFollowed x = true → P x →
      P ('%' :: d :: x)) :
    ∀ p, eachPercentFollowed p = true → P p := by
  intro p
  induction p using formatOf.induct with
  | case1 => exact fun _ => h0
  | case2 c =>
    intro hv
    simp only [eachPercentFollowed, bne_iff_ne, ne_eq] at hv
    exact h1 c [] hv rfl h0
  | case3 c d rest hcd ih =>
    intro hv
    obtain ⟨rfl, hd⟩ := hcd
    rw [eachPercentFollowed_placeholder d rest hd] at hv
    exact h2 d rest hd hv (ih hv)
  | case4 c d rest hcd ih =>
    intro hv
    have hc : c ≠ '%' := by
      intro hc
      subst hc
      simp only [eachPercentFollowed, Bool.and_eq_true, Bool.or_eq_true, bne_iff_ne, ne_eq,
        not_true_eq_false, false_or] at hv
      exact hcd ⟨rfl, hv.1⟩
    rw [eachPercentFollowed_plain c _ hc] at hv
    exact h1 c _ hc hv (ih hv)

theorem formatOf_plain (c : Char) (x : Str) (hc : c ≠ '%') :
    formatOf (c :: x) = c :: formatOf x := by
  cases x with
  | nil => rfl
  | cons d rest => simp [formatOf, hc]

theorem formatOf_placeholder (d : Char) (x : Str) (hd : isPlaceholder d = true) :
    formatOf ('%' :: d :: x) = placeholderVerb d ++ formatOf x := by
  simp [formatOf, hd]

theorem extractorsOf_plain (c : Char) (x : Str) (hc : c ≠ '%') :
    extractorsOf (c :: x) = extractorsOf x := by
  cases x with
  | nil => rfl
  | cons d rest => simp [extractorsOf, hc]

theorem extractorsOf_placeholder (d : Char) (x : Str) (hd : isPlaceholder d = true) :
    extractorsOf ('%' :: d :: x) = extractor d :: extractorsOf x := by
  simp [extractorsOf, hd]

theorem expandTemplate_plain (t : Time) (c : Char) (x : Str) (hc : c ≠ '%') :
    expandTemplate t (c :: x) = c :: expandTemplate t x := by
  cases x with
  | nil => rfl
  | cons d rest => simp [expandTemplate, hc]

theorem expandTemplate_placeholder (t : Time) (d : Char) (x : Str)
    (hd : isPlaceholder d = true) :
    expandTemplate t ('%' :: d :: x) = placeholderText t d ++ expandTemplate t x := by
  simp [expandTemplate, hd]

theorem table_placeholder (d : Char) (hd : isPlaceholder d = true) :
    pathVariableTable d = some (extractor d) := by
  simp only [isPlaceholder, Bool.or_eq_true, beq_iff_eq] at hd
  rcases hd with (((rfl | rfl) | rfl) | rfl) | rfl <;> rfl

theorem table_none (d : Char) (hd : isPlaceholder d = false) : pathVariableTable d = none := by
  simp only [isPlaceholder, Bool.or_eq_false_iff, beq_eq_false_iff_ne, ne_eq] at hd
  simp [pathVariableTable, hd]

theorem count_percent (p : Str) (hv : eachPercentFollowed p = true) :
    p.count '%' = (extractorsOf p).length := by
  revert hv
  refine template_induction (fun p => p.count '%' = (extractorsOf p).length) rfl ?_ ?_ p
  · intro c x hc _ ih
    rw [extractorsOf_plain c x hc, List.count_cons_of_ne (Ne.symm hc), ih]
  · intro d x hd _ ih
    have hne := placeholder_ne_percent d hd
    rw [extractorsOf_placeholder d x hd, List.count_cons_self,
      List.count_cons_of_ne (Ne.symm hne), ih]
    rfl

theorem compileActions_valid (p : Str) (hv : eachPercentFollowed p = true) :
    ∀ acts, compileActions p false acts = (acts ++ extractorsOf p, true) := by
  revert hv
  refine template_induction
    (fun p => ∀ acts, compileActions p false acts = (acts ++ extractorsOf p, true)) ?_ ?_ ?_ p
  · intro acts
    simp [compileActions, extractorsOf]
  · intro c x hc _ ih acts
    have : (c == '%') = false := by simpa using hc
    rw [compileActions, this, ih, extractorsOf_plain c x hc]
  · intro d x hd _ ih acts
    rw [compileActions]
    simp only [beq_self_eq_true]
    rw [compileActions, table_placeholder d hd]
    simp only []
    rw [ih, extractorsOf_placeholder d x hd]
    simp

/-! ### `fmt.Sprintf` on a converted template -/

theorem doPrintf_plain (c : Char) (x : Str) (args : List Arg) (hc : c ≠ '%') :
    doPrintf (c :: x) .text args = (doPrintf x .text args).map (c :: ·) := by
  simp [doPrintf, hc]

theorem doPrintf_d (x : Str) (v : Int) (args : List Arg) :
    doPrintf ('%' :: 'd' :: x) .text (.int v :: args)
      = (doPrintf x .text args).map (fmtInteger v false none ++ ·) := by
  simp [doPrintf, verbStep, unmodelled, printArg, Char.isDigit]

theorem doPrintf_02d (x : Str) (v : Int) (args : List Arg) :
    doPrintf ('%' :: '0' :: '2' :: 'd' :: x) .text (.int v :: args)
      = (doPrintf x .text args).map (fmtInteger v true (some 2) ++ ·) := by
  simp [doPrintf, verbStep, unmodelled, printArg, Char.isDigit]

theorem placeholder_rendering (t : Time) (d : Char) (x : Str) (args : List Arg)
    (hd : isPlaceholder d = true) :
    doPrintf (placeholderVerb d ++ x) .text (.int (extractor d t) :: args)
      = (doPrintf x .text args).map (placeholderText t d ++ ·) := by
  simp only [isPlaceholder, Bool.or_eq_true, beq_iff_eq] at hd
  rcases hd with (((rfl | rfl) | rfl) | rfl) | rfl
  · simp only [placeholderVerb, extractor, placeholderText, if_true, String.toList,
      List.cons_append, List.nil_append]
    rw [doPrintf_d, fmtInteger_plain]
    rfl
  · have e1 : placeholderVerb 'M' = ['%', '0', '2', 'd'] := by decide
    have e2 : extractor 'M' = getMonth := by simp [extractor]
    have e3 : placeholderText t 'M' = twoDigits t.Month.toNat := by simp [placeholderText]
    rw [e1, e2, e3]
    simp only [List.cons_append, List.nil_append]
    rw [doPrintf_02d, getMonth, fmtInteger_two _ (by have := month_range t; omega)]
  · have e1 : placeholderVerb 'D' = ['%', '0', '2', 'd'] := by decide
    have e2 : extractor 'D' = getDay := by simp [extractor]
    have e3 : placeholderText t 'D' = twoDigits t.Day.toNat := by simp [placeholderText]
    rw [e1, e2, e3]
    simp only [List.cons_append, List.nil_append]
    rw [doPrintf_02d, getDay, fmtInteger_two _ (by have := day_range t; omega)]
  · have e1 : placeholderVerb 'H' = ['%', '0', '2', 'd'] := by decide
    have e2 : extractor 'H' = getHour := by simp [extractor]
    have e3 : placeholderText t 'H' = twoDigits t.Hour.toNat := by simp [placeholderText]
    rw [e1, e2, e3]
    simp only [List.cons_append, List.nil_append]
    rw [doPrintf_02d, getHour, fmtInteger_two _ (hour_range t).1]
  · have e1 : placeholderVerb 'm' = ['%', '0', '2', 'd'] := by decide
    have e2 : extractor 'm' = getMin := by simp [extractor]
    have e3 : placeholderText t 'm' = twoDigits t.Minute.toNat := by simp [placeholderText]
    rw [e1, e2, e3]
    simp only [List.cons_append, List.nil_append]
    rw [doPrintf_02d, getMin, fmtInteger_two _ (minute_range t).1]

theorem sprintf_formatOf (t : Time) (p : Str) (hv : eachPercentFollowed p = true) :
    Sprintf (formatOf p) ((extractorsOf p).map fun act => Arg.int (act t))
      = some (expandTemplate t p) := by
  unfold Sprintf
  revert hv
  refine template_induction
    (fun p => doPrintf (formatOf p) .text ((extractorsOf p).map fun act => Arg.int (act t))
      = some (expandTemplate t p)) ?_ ?_ ?_ p
  · rfl
  · intro c x hc _ ih
    rw [formatOf_plain c x hc, extractorsOf_plain c x hc, expandTemplate_plain t c x hc,
      doPrintf_plain c _ _ hc, ih]
    rfl
  · intro d x hd _ ih
    rw [formatOf_placeholder d x hd, extractorsOf_placeholder d x hd,
      expandTemplate_placeholder t d x hd, List.map_cons, placeholder_rendering t d _ _ hd, ih]
    rfl

/-! ### The first rotation -/

theorem rotateLoop_cons_first (now : Time) (a : Time → Int) (as : List (Time → Int)) (i : Nat)
    (w : FileWriter) (rot : Bool) (hinit : w.initFileOk = false)
    (hget : w.vars.get? i = some none) :
    rotateLoop now (a :: as) i w rot
      = rotateLoop now as (i + 1) { w with vars := w.vars.set i (some (a now)) } true := by
  rw [rotateLoop]
  simp only [hget]
  simp [hinit]

theorem rotateLoop_first (now : Time) (acts : List (Time → Int)) :
    ∀ (done : List (Option Int)) (w : FileWriter) (rot : Bool),
      w.initFileOk = false → w.vars = done ++ List.replicate acts.length none →
      rotateLoop now acts done.length w rot
        = .ok ({ w with vars := done ++ acts.map (fun a => some (a now)) },
               rot || !acts.isEmpty) := by
  induction acts with
  | nil =>
    intro done w rot _ hvars
    simp only [List.length_nil, List.replicate_zero, List.append_nil] at hvars
    simp only [rotateLoop, List.map_nil, List.append_nil, List.isEmpty_nil, Bool.not_true,
      Bool.or_false]
    rw [← hvars]
  | cons a as ih =>
    intro done w rot hinit hvars
    have hget : w.vars.get? done.length = some none := by
      rw [hvars, List.get?_eq_getElem?, List.getElem?_append_right (le_refl _)]
      simp [List.replicate_succ]
    have hset : w.vars.set done.length (some (a now))
        = (done ++ [some (a now)]) ++ List.replicate as.length none := by
      rw [hvars]
      simp [List.replicate_succ]
    have hlen : (done ++ [some (a now)]).length = done.length + 1 := by simp
    have key := ih (done ++ [some (a now)]) { w with vars := w.vars.set done.length (some (a now)) }
      true hinit hset
    rw [hlen] at key
    rw [rotateLoop_cons_first now a as done.length w rot hinit hget, key]
    simp

theorem initNames_core (w : FileWriter) : w.initNames.sameCore w := by
  unfold FileWriter.initNames FileWriter.sameCore
  split <;> exact ⟨rfl, rfl, rfl, rfl, rfl, rfl, rfl, rfl, rfl⟩

theorem initDefaults_core (w : FileWriter) : w.initDefaults.sameCore w := by
  unfold FileWriter.initDefaults FileWriter.sameCore
  simp only []
  split_ifs <;> exact ⟨rfl, rfl, rfl, rfl, rfl, rfl, rfl, rfl, rfl⟩

/-- The writer `Init` hands to `Rotate`, and what `Init` leaves alone, when the
permission string is empty. -/
theorem init_default_perm (env : FileEnv) (now : Time) (w : FileWriter) (hperm : w.perm = []) :
    ∃ wx : FileWriter, w.Init env now = wx.Rotate env now ∧
      wx.actions = w.actions ∧ wx.vars = w.vars ∧ wx.pathFmt = w.pathFmt ∧
      wx.initFileOk = w.initFileOk ∧ wx.initFileOnce = w.initFileOnce ∧
      wx.file = w.file ∧ wx.fileBufWriter = w.fileBufWriter ∧ wx.rotatePerm = 493 := by
  have hparse : ParseInt8 "0755".toList = .ok 493 := by rfl
  obtain ⟨n1, n2, n3, n4, n5, n6, n7, n8, _⟩ := initNames_core w
  obtain ⟨d1, d2, d3, d4, d5, d6, d7, _, d9⟩ := initDefaults_core
    { w.initNames with perm := "0755".toList, rotatePerm := 493 }
  refine ⟨({ w.initNames with perm := "0755".toList, rotatePerm := 493 } : FileWriter).initDefaults,
    ?_, d1.trans n1, d2.trans n2, d3.trans n3, d4.trans n4, d5.trans n5, d6.trans n6,
    d7.trans n7, d9⟩
  unfold FileWriter.Init
  simp only [n8.trans hperm, if_true, hparse]
  rfl

theorem rotate_first (env : FileEnv) (now : Time) (w : FileWriter) (path : Str)
    (hinit : w.initFileOk = false) (honce : w.initFileOnce = false) (hfile : w.file = none)
    (hbuf : w.fileBufWriter = none) (hne : w.actions ≠ [])
    (hvars : w.vars = List.replicate w.actions.length none)
    (hpath : Sprintf w.pathFmt (w.actions.map fun a => Arg.int (a now)) = some path) :
    resolvedPath (w.Rotate env now) = some path := by
  have hloop := rotateLoop_first now w.actions [] w false hinit (by simpa using hvars)
  have hrot : (false || !w.actions.isEmpty) = true := by
    cases h : w.actions with
    | nil => exact absurd h hne
    | cons a as => rfl
  simp only [List.length_nil, List.nil_append, hrot] at hloop
  unfold FileWriter.Rotate
  rw [hloop]
  simp only [Bool.true_eq_false, if_false]
  unfold cutOver
  simp only [honce, hbuf, hfile, Bool.false_eq_true, if_false, List.map_map]
  have hargs : (toArg ∘ fun a => some (a now)) = fun a : Time → Int => Arg.int (a now) := rfl
  rw [hargs, hpath]
  simp only []
  split <;> first | rfl | (split <;> rfl)

theorem setPathPattern_valid (w : FileWriter) (p : Str) (hv : eachPercentFollowed p = true)
    (hpc : '%' ∈ p) :
    w.SetPathPattern p
      = ({ w with actions := extractorsOf p,
                  vars := List.replicate (extractorsOf p).length none,
                  pathFmt := formatOf p }, none) := by
  have hn : p.count '%' ≠ 0 := by
    have := List.count_pos_iff.mpr hpc
    omega
  have hn1 : (extractorsOf p).length ≠ 0 := by
    rw [← count_percent p hv]
    exact hn
  unfold FileWriter.SetPathPattern
  simp only [compileActions_valid p hv, List.nil_append, if_true,
    convert_eq_formatOf p hv, count_percent p hv, hn1, if_false]

theorem setPathPattern_plain (w : FileWriter) (p : Str) (hpc : '%' ∉ p) :
    w.SetPathPattern p = ({ w with pathFmt := p }, none) := by
  have hn : p.count '%' = 0 := List.count_eq_zero.mpr hpc
  unfold FileWriter.SetPathPattern
  simp only [hn, if_true]

theorem extractorsOf_ne_nil (p : Str) (hv : eachPercentFollowed p = true) (hpc : '%' ∈ p) :
    extractorsOf p ≠ [] := by
  intro h
  have h1 := count_percent p hv
  rw [h] at h1
  have := List.count_pos_iff.mpr hpc
  simp at h1
  omega

theorem rotate_nothing_compiled (env : FileEnv) (now : Time) (w : FileWriter)
    (hacts : w.actions = []) : resolvedPath (w.Rotate env now) = none := by
  unfold FileWriter.Rotate
  rw [hacts]
  rfl

theorem init_resolves_placeholders (w0 : FileWriter) (p : Str) (t : Time) (env : FileEnv)
    (hfresh : w0.Fresh) (hv : eachPercentFollowed p = true) (hpc : '%' ∈ p) :
    resolvedPath ((w0.SetPathPattern p).1.Init env t) = some (expandTemplate t p) := by
  obtain ⟨_, _, f3, f4, f5, f6, f7⟩ := hfresh
  rw [setPathPattern_valid w0 p hv hpc]
  obtain ⟨wx, e, a1, a2, a3, a4, a5, a6, a7, _⟩ := init_default_perm env t
    { w0 with actions := extractorsOf p,
              vars := List.replicate (extractorsOf p).length none,
              pathFmt := formatOf p } f7
  rw [e]
  apply rotate_first env t wx _ (a4.trans f3) (a5.trans f4) (a6.trans f5) (a7.trans f6)
  · rw [a1]
    exact extractorsOf_ne_nil p hv hpc
  · rw [a2, a1]
  · rw [a3, a1]
    exact sprintf_formatOf t p hv

theorem init_resolves_nothing (w0 : FileWriter) (p : Str) (t : Time) (env : FileEnv)
    (hfresh : w0.Fresh) (hpc : '%' ∉ p) :
    resolvedPath ((w0.SetPathPattern p).1.Init env t) = none := by
  obtain ⟨f1, _, _, _, _, _, f7⟩ := hfresh
  rw [setPathPattern_plain w0 p hpc]
  obtain ⟨wx, e, a1, _⟩ := init_default_perm env t { w0 with pathFmt := p } f7
  rw [e]
  exact rotate_nothing_compiled env t wx (a1.trans f1)


/-! ### When `SetPathPattern` fails -/

theorem hasUnknownToken_plain (c : Char) (x : Str) (hc : c ≠ '%') :
    hasUnknownToken (c :: x) ↔ hasUnknownToken x := by
  constructor
  · rintro ⟨pre, d, post, e, hd⟩
    cases pre with
    | nil =>
      simp only [List.nil_append, List.cons.injEq] at e
      exact absurd e.1 hc
    | cons a pre' =>
      simp only [List.cons_append, List.cons.injEq] at e
      exact ⟨pre', d, post, e.2, hd⟩
  · rintro ⟨pre, d, post, e, hd⟩
    exact ⟨c :: pre, d, post, by rw [e]; rfl, hd⟩

theorem hasUnknownToken_placeholder (d : Char) (x : Str) (hd : isPlaceholder d = true) :
    hasUnknownToken ('%' :: d :: x) ↔ hasUnknownToken x := by
  have hne := placeholder_ne_percent d hd
  constructor
  · rintro ⟨pre, c, post, e, hc⟩
    cases pre with
    | nil =>
      simp only [List.nil_append, List.cons.injEq, true_and] at e
      rw [← e.1, hd] at hc
      exact absurd hc (by simp)
    | cons a pre' =>
      simp only [List.cons_append, List.cons.injEq] at e
      exact (hasUnknownToken_plain d x hne).mp ⟨pre', c, post, e.2, hc⟩
  · rintro ⟨pre, c, post, e, hc⟩
    exact ⟨'%' :: d :: pre, c, post, by rw [e]; rfl, hc⟩

theorem compileActions_fails_iff (p : Str) :
    ∀ acts, ((compileActions p false acts).2 = false ↔ hasUnknownToken p) ∧
      ((compileActions p true acts).2 = false ↔ hasUnknownToken ('%' :: p)) := by
  induction p with
  | nil =>
    intro acts
    constructor
    · simp only [compileActions, Bool.true_eq_false, false_iff]
      rintro ⟨pre, c, post, e, _⟩
      cases pre <;> simp at e
    · simp only [compileActions, Bool.true_eq_false, false_iff]
      rintro ⟨pre, c, post, e, _⟩
      cases pre with
      | nil => simp at e
      | cons a pre' =>
        cases pre' <;> simp at e
  | cons c cs ih =>
    intro acts
    constructor
    · by_cases hc : c = '%'
      · subst hc
        rw [compileActions]
        simpa using (ih acts).2
      · have hb : (c == '%') = false := by simpa using hc
        rw [compileActions, hb, hasUnknownToken_plain c cs hc]
        exact (ih acts).1
    · rw [compileActions]
      cases hp : isPlaceholder c with
      | true =>
        rw [table_placeholder c hp, hasUnknownToken_placeholder c cs hp]
        exact (ih _).1
      | false =>
        rw [table_none c hp]
        simp only [true_iff]
        exact ⟨[], c, cs, rfl, hp⟩

theorem hasUnknownToken_mem (p : Str) (h : hasUnknownToken p) : '%' ∈ p := by
  obtain ⟨pre, c, post, e, _⟩ := h
  rw [e]
  simp

theorem valid_no_unknown (p : Str) (hv : eachPercentFollowed p = true) : ¬ hasUnknownToken p := by
  revert hv
  refine template_induction (fun p => ¬ hasUnknownToken p) ?_ ?_ ?_ p
  · rintro ⟨pre, c, post, e, _⟩
    cases pre <;> simp at e
  · intro c x hc _ ih
    rw [hasUnknownToken_plain c x hc]
    exact ih
  · intro d x hd _ ih
    rw [hasUnknownToken_placeholder d x hd]
    exact ih


/-- A `%` that ends the template is not looked up: the template compiles, and
the first rotation then formats the path with a directive that has no verb. -/
theorem trailing_percent_compiles :
    (NewFileWriter.SetPathPattern "app-%Y%".toList).2 = none ∧
    resolvedPath ((NewFileWriter.SetPathPattern "app-%Y%".toList).1.Init okEnv
        (Date 2024 3 7 9 5 0 0 0))
      = some "app-2024%!(NOVERB)%!(EXTRA <nil>)".toList := by
  constructor <;> decide

/-! ### The loop of `Rotate` after initialisation -/

theorem rotateLoop_core (now : Time) (acts : List (Time → Int)) :
    ∀ (i : Nat) (w : FileWriter) (rot : Bool) (w' : FileWriter) (rot' : Bool),
      rotateLoop now acts i w rot = .ok (w', rot') →
        w'.core = w.core ∧ w'.vars.length = w.vars.length := by
  induction acts with
  | nil =>
    intro i w rot w' rot' h
    simp only [rotateLoop, Except.ok.injEq, Prod.mk.injEq] at h
    rw [← h.1]
    exact ⟨rfl, rfl⟩
  | cons a as ih =>
    intro i w rot w' rot' h
    rw [rotateLoop] at h
    simp only [] at h
    split at h
    · exact absurd h (by simp)
    · split_ifs at h <;>
        first
        | exact ih _ _ _ _ _ h
        | (obtain ⟨h1, h2⟩ := ih _ _ _ _ _ h
           exact ⟨h1, by simpa using h2⟩)

theorem fires_congr (now : Time) (w1 w : FileWriter) (i : Nat) (act : Time → Int)
    (hc : w1.core = w.core) (hv : w1.vars.get? i = w.vars.get? i) :
    fires now w1 i act = fires now w i act := by
  have h1 : w1.daily = w.daily :=
    (congrArg FileWriter.daily hc : w1.core.daily = w.core.daily)
  have h2 : w1.hourly = w.hourly :=
    (congrArg FileWriter.hourly hc : w1.core.hourly = w.core.hourly)
  have h3 : w1.minutely = w.minutely :=
    (congrArg FileWriter.minutely hc : w1.core.minutely = w.core.minutely)
  have h4 : w1.lastWriteTime = w.lastWriteTime :=
    (congrArg FileWriter.lastWriteTime hc : w1.core.lastWriteTime = w.core.lastWriteTime)
  have h5 : w1.maxDays = w.maxDays :=
    (congrArg FileWriter.maxDays hc : w1.core.maxDays = w.core.maxDays)
  have h6 : w1.maxHours = w.maxHours :=
    (congrArg FileWriter.maxHours hc : w1.core.maxHours = w.core.maxHours)
  have h7 : w1.maxMinutes = w.maxMinutes :=
    (congrArg FileWriter.maxMinutes hc : w1.core.maxMinutes = w.core.maxMinutes)
  unfold fires dayBoundary hourBoundary minuteBoundary
  rw [hv, h1, h2, h3, h4, h5, h6, h7]

theorem anyFires_congr (now : Time) (w1 w : FileWriter) (acts : List (Time → Int)) :
    ∀ i : Nat, w1.core = w.core → (∀ j, i ≤ j → w1.vars.get? j = w.vars.get? j) →
      anyFires now w1 acts i = anyFires now w acts i := by
  induction acts with
  | nil => intro i _ _; rfl
  | cons a as ih =>
    intro i hc hv
    simp only [anyFires]
    rw [fires_congr now w1 w i a hc (hv i (le_refl i)),
      ih (i + 1) hc (fun j hj => hv j (by omega))]

theorem get?_set_later (vars : List (Option Int)) (i j : Nat) (x : Option Int) (h : i + 1 ≤ j) :
    (vars.set i x).get? j = vars.get? j := by
  rw [List.get?_eq_getElem?, List.get?_eq_getElem?, List.getElem?_set_ne (by omega)]

/-- One round of the loop of `Rotate` on an initialised writer: the local
`rotate` is raised exactly when the extractor fires, and the writer changes in
the cached value of this position and the open date and time at most. -/
theorem rotateLoop_cons_initialised (now : Time) (a : Time → Int) (as : List (Time → Int))
    (i : Nat) (w : FileWriter) (rot : Bool) (hinit : w.initFileOk = true)
    (hi : i < w.vars.length) :
    ∃ w1 : FileWriter, rotateLoop now (a :: as) i w rot
        = rotateLoop now as (i + 1) w1 (rot || fires now w i a) ∧
      w1.core = w.core ∧ w1.vars.length = w.vars.length ∧
      (∀ j, i + 1 ≤ j → w1.vars.get? j = w.vars.get? j) := by
  obtain ⟨old, hold⟩ : ∃ old, w.vars.get? i = some old := by
    rw [List.get?_eq_getElem?, List.getElem?_eq_getElem hi]
    exact ⟨_, rfl⟩
  rw [rotateLoop]
  simp only [hold, hinit, not_true_eq_false, if_false]
  unfold fires dayBoundary hourBoundary minuteBoundary
  simp only [hold]
  by_cases hne : old = some (a now)
  · exact ⟨w, by simp [hne], rfl, rfl, fun _ _ => rfl⟩
  · simp only [ne_eq, hne, not_false_eq_true, if_true, decide_True, Bool.true_and]
    by_cases h2 : i = 2
    · cases hd : w.daily
      · exact ⟨w, by simp [h2], rfl, rfl, fun _ _ => rfl⟩
      · by_cases hv : a now = (w.lastWriteTime.AddDate 0 0 w.maxDays).Day
        · exact ⟨{ w with dailyOpenDate := a now, dailyOpenTime := now,
                          vars := w.vars.set i (some (a now)) },
            by simp [h2, hv, hinit, hd], rfl, by simp,
            fun j hj => get?_set_later w.vars i j (some (a now)) hj⟩
        · exact ⟨{ w with dailyOpenDate := a now, dailyOpenTime := now },
            by simp [h2, hv, hinit, hd], rfl, rfl, fun _ _ => rfl⟩
    · by_cases h3 : i = 3
      · cases hd : w.hourly
        · exact ⟨w, by simp [h3], rfl, rfl, fun _ _ => rfl⟩
        · by_cases hv : a now = (w.lastWriteTime.Add (wrapInt64 (durHour * w.maxHours))).Hour
          · exact ⟨{ w with hourlyOpenDate := a now, hourlyOpenTime := now,
                            vars := w.vars.set i (some (a now)) },
              by simp [h3, hv, hinit, hd], rfl, by simp,
              fun j hj => get?_set_later w.vars i j (some (a now)) hj⟩
          · exact ⟨{ w with hourlyOpenDate := a now, hourlyOpenTime := now },
              by simp [h3, hv, hinit, hd], rfl, rfl, fun _ _ => rfl⟩
      · by_cases h4 : i = 4
        · cases hd : w.minutely
          · exact ⟨w, by simp [h4], rfl, rfl, fun _ _ => rfl⟩
          · by_cases hv : a now
                = (w.lastWriteTime.Add (wrapInt64 (durMinute * w.maxMinutes))).Minute
            · exact ⟨{ w with minutelyOpenDate := a now, minutelyOpenTime := now,
                              vars := w.vars.set i (some (a now)) },
                by simp [h4, hv, hinit, hd], rfl, by simp,
                fun j hj => get?_set_later w.vars i j (some (a now)) hj⟩
            · exact ⟨{ w with minutelyOpenDate := a now, minutelyOpenTime := now },
                by simp [h4, hv, hinit, hd], rfl, rfl, fun _ _ => rfl⟩
        · have b2 : (i == 2) = false := by simpa using h2
          have b3 : (i == 3) = false := by simpa using h3
          have b4 : (i == 4) = false := by simpa using h4
          exact ⟨w, by simp [h2, h3, h4, b2, b3, b4], rfl, rfl, fun _ _ => rfl⟩

/-- The loop of `Rotate` on an initialised writer whose cached values cover the
extractors: it ends without a panic, and the local `rotate` is raised exactly
when some extractor fires on the writer the loop started from. -/
theorem rotateLoop_initialised (now : Time) (acts : List (Time → Int)) :
    ∀ (i : Nat) (w : FileWriter) (rot : Bool), w.initFileOk = true →
      i + acts.length ≤ w.vars.length →
      ∃ w' : FileWriter, rotateLoop now acts i w rot = .ok (w', rot || anyFires now w acts i) := by
  induction acts with
  | nil =>
    intro i w rot _ _
    exact ⟨w, by simp [rotateLoop, anyFires]⟩
  | cons a as ih =>
    intro i w rot hinit hlen
    simp only [List.length_cons] at hlen
    obtain ⟨w1, e, hc, hl, hv⟩ :=
      rotateLoop_cons_initialised now a as i w rot hinit (by omega)
    have hinit1 : w1.initFileOk = true := (congrArg FileWriter.initFileOk hc : w1.core.initFileOk = w.core.initFileOk).trans hinit
    obtain ⟨w', e'⟩ := ih (i + 1) w1 (rot || fires now w i a) hinit1 (by omega)
    refine ⟨w', ?_⟩
    rw [e, e', anyFires_congr now w1 w as (i + 1) hc hv]
    simp [anyFires, Bool.or_assoc]

theorem rotationTriggered_initialised (now : Time) (w : FileWriter)
    (hinit : w.initFileOk = true) (hlen : w.actions.length ≤ w.vars.length) :
    rotationTriggered now w = some (anyFires now w w.actions 0) := by
  obtain ⟨w', e⟩ := rotateLoop_initialised now w.actions 0 w false hinit (by omega)
  unfold rotationTriggered
  rw [e]
  simp

theorem fires_other (now : Time) (w : FileWriter) (i : Nat) (a : Time → Int)
    (h2 : i ≠ 2) (h3 : i ≠ 3) (h4 : i ≠ 4) : fires now w i a = false := by
  unfold fires
  cases w.vars.get? i <;> simp [h2, h3, h4]

theorem fires_day (now : Time) (w : FileWriter) (a : Time → Int) (c : Option Int)
    (h : w.vars.get? 2 = some c) :
    fires now w 2 a = true ↔ w.daily = true ∧ c ≠ some (a now) ∧ a now = dayBoundary w := by
  unfold fires
  simp only [h, ne_eq, decide_not, beq_self_eq_true, Bool.true_and, Nat.reduceBEq,
    Bool.false_and, Bool.or_false, Bool.and_eq_true, Bool.not_eq_true', decide_eq_false_iff_not,
    decide_eq_true_eq]
  exact ⟨fun ⟨x, y, z⟩ => ⟨y, x, z⟩, fun ⟨x, y, z⟩ => ⟨y, x, z⟩⟩

theorem fires_hour (now : Time) (w : FileWriter) (a : Time → Int) (c : Option Int)
    (h : w.vars.get? 3 = some c) :
    fires now w 3 a = true ↔ w.hourly = true ∧ c ≠ some (a now) ∧ a now = hourBoundary w := by
  unfold fires
  simp only [h, ne_eq, decide_not, beq_self_eq_true, Bool.true_and, Nat.reduceBEq,
    Bool.false_and, Bool.or_false, Bool.false_or, Bool.and_eq_true, Bool.not_eq_true',
    decide_eq_false_iff_not, decide_eq_true_eq]
  exact ⟨fun ⟨x, y, z⟩ => ⟨y, x, z⟩, fun ⟨x, y, z⟩ => ⟨y, x, z⟩⟩

theorem fires_minute (now : Time) (w : FileWriter) (a : Time → Int) (c : Option Int)
    (h : w.vars.get? 4 = some c) :
    fires now w 4 a = true ↔
      w.minutely = true ∧ c ≠ some (a now) ∧ a now = minuteBoundary w := by
  unfold fires
  simp only [h, ne_eq, decide_not, beq_self_eq_true, Bool.true_and, Nat.reduceBEq,
    Bool.false_and, Bool.or_false, Bool.false_or, Bool.and_eq_true, Bool.not_eq_true',
    decide_eq_false_iff_not, decide_eq_true_eq]
  exact ⟨fun ⟨x, y, z⟩ => ⟨y, x, z⟩, fun ⟨x, y, z⟩ => ⟨y, x, z⟩⟩

/-! ### `Init` and the cut-over on a writer without a file -/

/-- The first round of the loop of `Rotate` when the slice of cached values is
longer than the list of extractors. -/
theorem rotateLoop_first_pad (now : Time) (acts : List (Time → Int)) (extra : List (Option Int)) :
    ∀ (done : List (Option Int)) (w : FileWriter) (rot : Bool),
      w.initFileOk = false → w.vars = done ++ (List.replicate acts.length none ++ extra) →
      rotateLoop now acts done.length w rot
        = .ok ({ w with vars := done ++ (acts.map (fun a => some (a now)) ++ extra) },
               rot || !acts.isEmpty) := by
  induction acts with
  | nil =>
    intro done w rot _ hvars
    simp only [List.length_nil, List.replicate_zero, List.nil_append] at hvars
    simp only [rotateLoop, List.map_nil, List.nil_append, List.isEmpty_nil, Bool.not_true,
      Bool.or_false]
    rw [← hvars]
  | cons a as ih =>
    intro done w rot hinit hvars
    have hget : w.vars.get? done.length = some none := by
      rw [hvars, List.get?_eq_getElem?, List.getElem?_append_right (le_refl _)]
      simp [List.replicate_succ]
    have hset : w.vars.set done.length (some (a now))
        = (done ++ [some (a now)]) ++ (List.replicate as.length none ++ extra) := by
      rw [hvars]
      simp [List.replicate_succ]
    have hlen : (done ++ [some (a now)]).length = done.length + 1 := by simp
    have key := ih (done ++ [some (a now)]) { w with vars := w.vars.set done.length (some (a now)) }
      true hinit hset
    rw [hlen] at key
    rw [rotateLoop_cons_first now a as done.length w rot hinit hget, key]
    simp

/-- The cut-over on a writer that holds no file and no buffered writer, when
the path formats and the directory and the file can be created. -/
theorem cutOver_fresh (env : FileEnv) (now : Time) (w : FileWriter) (path : Str)
    (hfile : w.file = none) (hbuf : w.fileBufWriter = none)
    (hpath : Sprintf w.pathFmt (w.vars.map toArg) = some path)
    (hmk : env.mkdirAll path w.rotatePerm = none)
    (hop : env.openFile path w.rotatePerm = none) :
    ∃ r : RotateResult, cutOver env now w = .ok r ∧ r.err = none ∧ r.filePath = some path ∧
      r.ops = [.mkdirAll path w.rotatePerm, .openFile path w.rotatePerm] ∧
      r.w.file = some { name := path } ∧
      r.w.fileBufWriter = some (NewWriterSize { name := path }) ∧
      r.w.initFileOk = (w.initFileOk || !w.initFileOnce) ∧ r.w.lastWriteTime = now ∧
      r.w.vars = w.vars ∧ r.w.core.actions = w.actions := by
  unfold cutOver
  cases honce : w.initFileOnce
  · simp only [Bool.false_eq_true, if_false, hbuf, hfile, hpath, hmk, hop, List.nil_append]
    exact ⟨_, rfl, rfl, rfl, rfl, rfl, rfl, by simp, rfl, rfl, rfl⟩
  · simp only [if_true, hbuf, hfile, hpath, hmk, hop, List.nil_append]
    exact ⟨_, rfl, rfl, rfl, rfl, rfl, rfl, by simp, rfl, rfl, rfl⟩

/-! ### The cut-over, stage by stage -/

theorem cutOver_no_buffer (env : FileEnv) (now : Time) (w : FileWriter)
    (hb : w.fileBufWriter = none) :
    cutOver env now w = closeNext env (w.stamped now) [] := by
  rcases w with ⟨lv, once, rp, pm, fn, file, buf, fo, sf, pf, acts, vars, lwt, iok, rot, dl, hl,
    ml, md, dod, dot, mh, hod, hot, mm, mod, mot⟩
  simp only at hb
  subst hb
  cases once <;> cases file <;> simp [cutOver, closeNext, openNext, FileWriter.stamped]

theorem cutOver_flush_fails (env : FileEnv) (now : Time) (w : FileWriter) (b : BufWriter)
    (e : Error) (hb : w.fileBufWriter = some b) (hf : (b.Flush env).2.1 = some e) :
    cutOver env now w
      = .ok { w := { w.stamped now with fileBufWriter := some (b.Flush env).1 },
              err := some e, filePath := none, ops := (b.Flush env).2.2 } := by
  rcases w with ⟨lv, once, rp, pm, fn, file, buf, fo, sf, pf, acts, vars, lwt, iok, rot, dl, hl,
    ml, md, dod, dot, mh, hod, hot, mm, mod, mot⟩
  simp only at hb
  subst hb
  cases once <;> simp [cutOver, FileWriter.stamped, hf]

theorem cutOver_flushed (env : FileEnv) (now : Time) (w : FileWriter) (b : BufWriter)
    (hb : w.fileBufWriter = some b) (hf : (b.Flush env).2.1 = none) :
    cutOver env now w
      = closeNext env { w.stamped now with fileBufWriter := some (b.Flush env).1 }
          (b.Flush env).2.2 := by
  rcases w with ⟨lv, once, rp, pm, fn, file, buf, fo, sf, pf, acts, vars, lwt, iok, rot, dl, hl,
    ml, md, dod, dot, mh, hod, hot, mm, mod, mot⟩
  simp only at hb
  subst hb
  cases once <;> cases file <;> simp [cutOver, closeNext, openNext, FileWriter.stamped, hf]

theorem permsOf_append (a b : List FileOp) : permsOf (a ++ b) = permsOf a ++ permsOf b := by
  induction a with
  | nil => rfl
  | cons x xs ih => cases x <;> simp [permsOf, ih]

/-- The outcomes of the last part of the cut-over: an error of the directory
or file creation with the writer untouched, or the new file installed. -/
theorem openNext_cases (env : FileEnv) (w : FileWriter) (ops : List FileOp) (r : RotateResult)
    (h : openNext env w ops = .ok r) :
    ∃ path : Str, r.filePath = some path ∧
      Sprintf w.pathFmt (w.vars.map toArg) = some path ∧
      ((r.err ≠ none ∧ r.w = w ∧
          (r.ops = ops ++ [.mkdirAll path w.rotatePerm] ∨
           r.ops = ops ++ [.mkdirAll path w.rotatePerm, .openFile path w.rotatePerm])) ∨
       (r.err = none ∧
          r.w = { w with file := some { name := path },
                         fileBufWriter := some (NewWriterSize { name := path }),
                         suffix := Ext path, filenameOnly := TrimSuffix path (Ext path) } ∧
          r.ops = ops ++ [.mkdirAll path w.rotatePerm, .openFile path w.rotatePerm])) := by
  unfold openNext at h
  cases hp : Sprintf w.pathFmt (w.vars.map toArg) with
  | none => simp [hp] at h
  | some path =>
    simp only [hp] at h
    refine ⟨path, ?_, rfl, ?_⟩
    · (repeat' split at h) <;> simp only [Except.ok.injEq] at h <;> rw [← h]
    · (repeat' split at h) <;> simp only [Except.ok.injEq] at h <;> rw [← h] <;> simp

/-- The outcomes of the middle part of the cut-over: an error of `Close` with
the writer untouched, or the outcome of the last part. -/
theorem closeNext_cases (env : FileEnv) (w : FileWriter) (ops0 : List FileOp) (r : RotateResult)
    (h : closeNext env w ops0 = .ok r) :
    (∃ f, w.file = some f ∧ r.err ≠ none ∧ r.w = w ∧ r.filePath = none ∧
        r.ops = ops0 ++ [.close f]) ∨
    (∃ ops1, openNext env w ops1 = .ok r ∧ permsOf ops1 = permsOf ops0) := by
  unfold closeNext at h
  cases hf : w.file with
  | none =>
    simp only [hf] at h
    exact Or.inr ⟨ops0, h, rfl⟩
  | some f =>
    simp only [hf] at h
    cases hc : env.close f with
    | some e =>
      simp only [hc, Except.ok.injEq] at h
      refine Or.inl ⟨f, rfl, ?_⟩
      rw [← h]
      simp
    | none =>
      simp only [hc] at h
      exact Or.inr ⟨ops0 ++ [.close f], h, by simp [permsOf_append, permsOf]⟩

theorem flush_perms (env : FileEnv) (b : BufWriter) : permsOf (b.Flush env).2.2 = [] := by
  unfold BufWriter.Flush
  split
  · rfl
  · split
    · rfl
    · split <;> rfl

theorem flush_wr (env : FileEnv) (b : BufWriter) : (b.Flush env).1.wr = b.wr := by
  unfold BufWriter.Flush
  split
  · rfl
  · split
    · rfl
    · split <;> rfl

/-- The outcomes of the cut-over: the flush failed; or the flush went through
and the outcome is that of the middle part, started on the writer `w3`, which
is the writer with `initFile` run, the time of the last write set and the
buffered writer flushed. -/
theorem cutOver_cases (env : FileEnv) (now : Time) (w : FileWriter) (r : RotateResult)
    (h : cutOver env now w = .ok r) :
    ∃ w3 : FileWriter, w3.timing = w.timing ∧ w3.lastWriteTime = now ∧
      w3.initFileOk = (w.initFileOk || !w.initFileOnce) ∧ w3.rotatePerm = w.rotatePerm ∧
      w3.pathFmt = w.pathFmt ∧ w3.file = w.file ∧
      w3.fileBufWriter.map (fun b => b.wr) = w.fileBufWriter.map (fun b => b.wr) ∧
      ((r.err ≠ none ∧ r.w = w3 ∧ r.filePath = none ∧ permsOf r.ops = []) ∨
       (∃ ops0, closeNext env w3 ops0 = .ok r ∧ permsOf ops0 = [])) := by
  cases hb : w.fileBufWriter with
  | none =>
    rw [cutOver_no_buffer env now w hb] at h
    exact ⟨w.stamped now, rfl, rfl, rfl, rfl, rfl, rfl, by simp [FileWriter.stamped, hb],
      Or.inr ⟨[], h, rfl⟩⟩
  | some b =>
    cases hf : (b.Flush env).2.1 with
    | some e =>
      rw [cutOver_flush_fails env now w b e hb hf, Except.ok.injEq] at h
      refine ⟨{ w.stamped now with fileBufWriter := some (b.Flush env).1 }, rfl, rfl, rfl, rfl,
        rfl, rfl, ?_, Or.inl ?_⟩
      · simp [flush_wr, FileWriter.stamped, hb]
      · rw [← h]
        simp [flush_perms]
    | none =>
      rw [cutOver_flushed env now w b hb hf] at h
      refine ⟨{ w.stamped now with fileBufWriter := some (b.Flush env).1 }, rfl, rfl, rfl, rfl,
        rfl, rfl, ?_, Or.inr ⟨_, h, flush_perms env b⟩⟩
      simp [flush_wr, FileWriter.stamped, hb]

/-- What the cut-over assigns whatever the operating system answers: the time
of the last write, and the flag of `initFile` on its first run. Extractors,
cached values, flags, multipliers, the format and the permission stay, and the
directory and the file are created with the permission of the writer. -/
theorem cutOver_frame (env : FileEnv) (now : Time) (w : FileWriter) (r : RotateResult)
    (h : cutOver env now w = .ok r) :
    r.w.timing = w.timing ∧ r.w.lastWriteTime = now ∧
      r.w.initFileOk = (w.initFileOk || !w.initFileOnce) ∧
      r.w.rotatePerm = w.rotatePerm ∧ r.w.pathFmt = w.pathFmt ∧
      (∀ m ∈ permsOf r.ops, m = w.rotatePerm) := by
  obtain ⟨w3, t1, t2, t3, t4, t5, _, _, hcase⟩ := cutOver_cases env now w r h
  rcases hcase with ⟨_, hw, _, hops⟩ | ⟨ops0, hclose, hops0⟩
  · rw [hw, hops]
    exact ⟨t1, t2, t3, t4, t5, by simp⟩
  · rcases closeNext_cases env w3 ops0 r hclose with ⟨f, _, _, hw, _, hops⟩ | ⟨ops1, hopen, hops1⟩
    · rw [hw, hops]
      refine ⟨t1, t2, t3, t4, t5, ?_⟩
      simp [permsOf_append, hops0, permsOf]
    · obtain ⟨path, _, _, hres⟩ := openNext_cases env w3 ops1 r hopen
      rcases hres with ⟨_, hw, hops | hops⟩ | ⟨_, hw, hops⟩
      · rw [hw, hops]
        refine ⟨t1, t2, t3, t4, t5, ?_⟩
        simp [permsOf_append, hops1, hops0, permsOf, t4]
      · rw [hw, hops]
        refine ⟨t1, t2, t3, t4, t5, ?_⟩
        simp [permsOf_append, hops1, hops0, permsOf, t4]
      · rw [hw, hops]
        refine ⟨t1, t2, t3, t4, t5, ?_⟩
        simp [permsOf_append, hops1, hops0, permsOf, t4]

/-! ### `Init` up to the call of `Rotate` -/

theorem initNames_perm (w : FileWriter) : w.initNames.perm = w.perm := by
  unfold FileWriter.initNames
  split <;> rfl

theorem named_perm (w : FileWriter) :
    w.named.perm = if w.perm = [] then "0755".toList else w.perm := by
  unfold FileWriter.named
  simp only [initNames_perm]
  split <;> first | rfl | exact initNames_perm w

theorem init_parse_fails (env : FileEnv) (now : Time) (w : FileWriter) (e : Error)
    (h : ParseInt8 w.named.perm = .error e) :
    w.Init env now = .ok { w := w.named, err := some e, filePath := none, ops := [] } := by
  show (match ParseInt8 w.named.perm with
    | .error e =>
      (.ok { w := w.named, err := some e, filePath := none, ops := [] } :
        Except Fault RotateResult)
    | .ok perm =>
      ({ w.named with rotatePerm := (perm % 4294967296).toNat } : FileWriter).initDefaults.Rotate
        env now) = _
  rw [h]

theorem init_parsed (env : FileEnv) (now : Time) (w : FileWriter) (v : Int)
    (h : ParseInt8 w.named.perm = .ok v) :
    w.Init env now = (w.prepared v).Rotate env now := by
  show (match ParseInt8 w.named.perm with
    | .error e =>
      (.ok { w := w.named, err := some e, filePath := none, ops := [] } :
        Except Fault RotateResult)
    | .ok perm =>
      ({ w.named with rotatePerm := (perm % 4294967296).toNat } : FileWriter).initDefaults.Rotate
        env now) = _
  rw [h]
  rfl

/-- The fields `Init` leaves alone up to the call of `Rotate`. -/
theorem named_frame (w : FileWriter) :
    w.named.actions = w.actions ∧ w.named.vars = w.vars ∧
    w.named.initFileOk = w.initFileOk ∧ w.named.initFileOnce = w.initFileOnce ∧
    w.named.file = w.file ∧ w.named.fileBufWriter = w.fileBufWriter ∧
    w.named.pathFmt = w.pathFmt ∧ w.named.lastWriteTime = w.lastWriteTime ∧
    w.named.daily = w.daily ∧ w.named.hourly = w.hourly ∧ w.named.minutely = w.minutely ∧
    w.named.maxDays = w.maxDays ∧ w.named.rotatePerm = w.rotatePerm := by
  unfold FileWriter.named FileWriter.initNames
  simp only []
  split_ifs <;> exact ⟨rfl, rfl, rfl, rfl, rfl, rfl, rfl, rfl, rfl, rfl, rfl, rfl, rfl⟩

theorem initDefaults_frame (w : FileWriter) :
    w.initDefaults.actions = w.actions ∧ w.initDefaults.vars = w.vars ∧
    w.initDefaults.initFileOk = w.initFileOk ∧ w.initDefaults.initFileOnce = w.initFileOnce ∧
    w.initDefaults.file = w.file ∧ w.initDefaults.fileBufWriter = w.fileBufWriter ∧
    w.initDefaults.pathFmt = w.pathFmt ∧ w.initDefaults.lastWriteTime = w.lastWriteTime ∧
    w.initDefaults.rotatePerm = w.rotatePerm ∧ w.initDefaults.perm = w.perm ∧
    w.initDefaults.daily = w.daily ∧ w.initDefaults.hourly = w.hourly ∧
    w.initDefaults.minutely = w.minutely ∧
    (0 < w.maxDays → w.initDefaults.maxDays = w.maxDays) ∧
    (0 < w.maxHours → w.initDefaults.maxHours = w.maxHours) ∧
    (0 < w.maxMinutes → w.initDefaults.maxMinutes = w.maxMinutes) := by
  unfold FileWriter.initDefaults
  simp only []
  split_ifs <;>
    refine ⟨rfl, rfl, rfl, rfl, rfl, rfl, rfl, rfl, rfl, rfl, rfl, rfl, rfl, ?_, ?_, ?_⟩ <;>
    intro h <;> first | rfl | (exfalso; simp only [] at *; omega)

/-- The writer `Init` hands to `Rotate`: the permission is the parsed value as
a 32-bit `os.FileMode`; extractors, cached values, format, flags, file and
buffered writer are those of the receiver, and so is a positive `maxDays`. -/
theorem prepared_frame (w : FileWriter) (v : Int) :
    (w.prepared v).rotatePerm = (v % 4294967296).toNat ∧
    (w.prepared v).perm = (if w.perm = [] then "0755".toList else w.perm) ∧
    (w.prepared v).actions = w.actions ∧ (w.prepared v).vars = w.vars ∧
    (w.prepared v).pathFmt = w.pathFmt ∧
    (w.prepared v).initFileOk = w.initFileOk ∧ (w.prepared v).initFileOnce = w.initFileOnce ∧
    (w.prepared v).file = w.file ∧ (w.prepared v).fileBufWriter = w.fileBufWriter ∧
    (w.prepared v).lastWriteTime = w.lastWriteTime ∧
    (w.prepared v).daily = w.daily ∧ (w.prepared v).hourly = w.hourly ∧
    (w.prepared v).minutely = w.minutely ∧
    (0 < w.maxDays → (w.prepared v).maxDays = w.maxDays) := by
  obtain ⟨m1, n2, n3, n4, n5, n6, n7, n8, m2, m3, m4, m5, _⟩ := named_frame w
  obtain ⟨d1, d2, d3, d4, d5, d6, d7, d8, d9, d10, d11, d12, d13, d14, _, _⟩ :=
    initDefaults_frame ({ w.named with rotatePerm := (v % 4294967296).toNat } : FileWriter)
  unfold FileWriter.prepared
  refine ⟨d9, d10.trans (named_perm w), d1.trans m1, d2.trans n2, d7.trans n7, d3.trans n3,
    d4.trans n4, d5.trans n5, d6.trans n6, d8.trans n8, d11.trans m2, d12.trans m3,
    d13.trans m4, ?_⟩
  intro h
  exact (d14 (by rw [← m5] at h; exact h)).trans m5

/-- The outcomes of `Rotate`: the loop leaves `rotate` false and nothing else
happens, or the cut-over runs on the writer the loop left. -/
theorem rotate_cases (env : FileEnv) (now : Time) (w : FileWriter) (r : RotateResult)
    (h : w.Rotate env now = .ok r) :
    ∃ w1 : FileWriter, w1.core = w.core ∧ w1.vars.length = w.vars.length ∧
      ((rotateLoop now w.actions 0 w false = .ok (w1, false) ∧ r.w = w1 ∧ r.err = none ∧
          r.filePath = none ∧ r.ops = []) ∨
       (rotateLoop now w.actions 0 w false = .ok (w1, true) ∧ cutOver env now w1 = .ok r)) := by
  unfold FileWriter.Rotate at h
  cases hl : rotateLoop now w.actions 0 w false with
  | error f => simp [hl] at h
  | ok p =>
    obtain ⟨w1, rot⟩ := p
    obtain ⟨hc, hv⟩ := rotateLoop_core now w.actions 0 w false w1 rot hl
    simp only [hl] at h
    refine ⟨w1, hc, hv, ?_⟩
    cases rot
    · simp only [if_true, Except.ok.injEq] at h
      refine Or.inl ⟨rfl, ?_⟩
      rw [← h]
      exact ⟨rfl, rfl, rfl, rfl⟩
    · simp only [Bool.true_eq_false, if_false] at h
      exact Or.inr ⟨rfl, h⟩

/-- Every directory and file `Rotate` creates gets the permission held in
`rotatePerm`. -/
theorem rotate_perms (env : FileEnv) (now : Time) (w : FileWriter) (r : RotateResult)
    (h : w.Rotate env now = .ok r) : ∀ m ∈ permsOf r.ops, m = w.rotatePerm := by
  obtain ⟨w1, hc, _, hcase⟩ := rotate_cases env now w r h
  have hp : w1.rotatePerm = w.rotatePerm :=
    (congrArg FileWriter.rotatePerm hc : w1.core.rotatePerm = w.core.rotatePerm)
  rcases hcase with ⟨_, _, _, _, hops⟩ | ⟨_, hcut⟩
  · rw [hops]
    simp [permsOf]
  · obtain ⟨_, _, _, _, _, hperm⟩ := cutOver_frame env now w1 r hcut
    intro m hm
    rw [hperm m hm, hp]

theorem octalValue_rejects (c : Char) (hc : ¬ ('0' ≤ c ∧ c ≤ '7')) :
    ∀ (s : Str) (acc : Nat), c ∈ s → octalValue s acc = none := by
  intro s
  induction s with
  | nil => intro acc h; simp at h
  | cons d ds ih =>
    intro acc h
    rw [octalValue]
    by_cases hd : '0' ≤ d ∧ d ≤ '7'
    · simp only [hd, and_self, if_true]
      rcases List.mem_cons.mp h with e | e
      · rw [e] at hc
        exact absurd hd hc
      · exact ih _ e
    · simp only [hd, if_false]

/-- A string with a character that is neither an octal digit nor a sign is
rejected by `strconv.ParseInt(s, 8, 64)`. -/
theorem parseInt8_rejects (s : Str) (c : Char) (hmem : c ∈ s) (hc : ¬ ('0' ≤ c ∧ c ≤ '7'))
    (hplus : c ≠ '+') (hminus : c ≠ '-') : ∃ e, ParseInt8 s = .error e := by
  unfold ParseInt8
  simp only []
  have hdig : c ∈ (if s.head? = some '-' ∨ s.head? = some '+' then s.tail else s) := by
    split
    · rename_i hh
      cases s with
      | nil => simp at hmem
      | cons d ds =>
        simp only [List.head?_cons, Option.some.injEq] at hh
        simp only [List.tail_cons]
        rcases List.mem_cons.mp hmem with e | e
        · rcases hh with hh | hh
          · exact absurd (e.trans hh) hminus
          · exact absurd (e.trans hh) hplus
        · exact e
    · exact hmem
  generalize (if s.head? = some '-' ∨ s.head? = some '+' then s.tail else s) = digits at hdig ⊢
  have hne : digits ≠ [] := List.ne_nil_of_mem hdig
  simp only [hne, if_false, octalValue_rejects c hc digits 0 hdig]
  exact ⟨_, rfl⟩

/-! ### `Rotate` returns when the path formats -/

theorem timing_fields (a b : FileWriter) (h : a.timing = b.timing) :
    a.actions = b.actions ∧ a.vars = b.vars ∧ a.daily = b.daily ∧ a.hourly = b.hourly ∧
    a.minutely = b.minutely ∧ a.maxDays = b.maxDays ∧ a.maxHours = b.maxHours ∧
    a.maxMinutes = b.maxMinutes :=
  ⟨(congrArg FileWriter.actions h : a.timing.actions = b.timing.actions),
   (congrArg FileWriter.vars h : a.timing.vars = b.timing.vars),
   (congrArg FileWriter.daily h : a.timing.daily = b.timing.daily),
   (congrArg FileWriter.hourly h : a.timing.hourly = b.timing.hourly),
   (congrArg FileWriter.minutely h : a.timing.minutely = b.timing.minutely),
   (congrArg FileWriter.maxDays h : a.timing.maxDays = b.timing.maxDays),
   (congrArg FileWriter.maxHours h : a.timing.maxHours = b.timing.maxHours),
   (congrArg FileWriter.maxMinutes h : a.timing.maxMinutes = b.timing.maxMinutes)⟩

theorem openNext_returns (env : FileEnv) (w : FileWriter) (ops : List FileOp) (path : Str)
    (hpath : Sprintf w.pathFmt (w.vars.map toArg) = some path) :
    ∃ r, openNext env w ops = .ok r := by
  unfold openNext
  simp only [hpath]
  (repeat' split) <;> exact ⟨_, rfl⟩

theorem closeNext_returns (env : FileEnv) (w : FileWriter) (ops : List FileOp) (path : Str)
    (hpath : Sprintf w.pathFmt (w.vars.map toArg) = some path) :
    ∃ r, closeNext env w ops = .ok r := by
  unfold closeNext
  split
  · exact openNext_returns env w ops path hpath
  · split
    · exact ⟨_, rfl⟩
    · exact openNext_returns env w _ path hpath

theorem cutOver_returns (env : FileEnv) (now : Time) (w : FileWriter) (path : Str)
    (hpath : Sprintf w.pathFmt (w.vars.map toArg) = some path) :
    ∃ r, cutOver env now w = .ok r := by
  cases hb : w.fileBufWriter with
  | none =>
    rw [cutOver_no_buffer env now w hb]
    exact closeNext_returns env _ _ path hpath
  | some b =>
    cases hf : (b.Flush env).2.1 with
    | some e =>
      rw [cutOver_flush_fails env now w b e hb hf]
      exact ⟨_, rfl⟩
    | none =>
      rw [cutOver_flushed env now w b hb hf]
      exact closeNext_returns env _ _ path hpath

/-- The first call of `Rotate` on a writer with extractors: every extractor is
evaluated, the cut-over runs and the writer comes back initialised, with the
values of `now` cached and `now` as the time of the last write, whatever the
operating system answers. `extra` are the slots beyond the extractors. -/
theorem rotate_first_state (env : FileEnv) (now : Time) (w : FileWriter) (path : Str)
    (extra : List (Option Int))
    (hinit : w.initFileOk = false) (honce : w.initFileOnce = false) (hne : w.actions ≠ [])
    (hvars : w.vars = List.replicate w.actions.length none ++ extra)
    (hpath : Sprintf w.pathFmt
      ((w.actions.map (fun a => some (a now)) ++ extra).map toArg) = some path) :
    ∃ r, w.Rotate env now = .ok r ∧
      cutOver env now { w with vars := w.actions.map (fun a => some (a now)) ++ extra } = .ok r ∧
      r.w.actions = w.actions ∧ r.w.vars = w.actions.map (fun a => some (a now)) ++ extra ∧
      r.w.initFileOk = true ∧ r.w.lastWriteTime = now ∧
      r.w.daily = w.daily ∧ r.w.hourly = w.hourly ∧ r.w.minutely = w.minutely ∧
      r.w.maxDays = w.maxDays ∧ r.w.maxHours = w.maxHours ∧ r.w.maxMinutes = w.maxMinutes := by
  have hloop := rotateLoop_first_pad now w.actions extra [] w false hinit (by simpa using hvars)
  have hrot : (false || !w.actions.isEmpty) = true := by
    cases h : w.actions with
    | nil => exact absurd h hne
    | cons a as => rfl
  simp only [List.length_nil, List.nil_append, hrot] at hloop
  obtain ⟨r, hr⟩ := cutOver_returns env now
    { w with vars := w.actions.map (fun a => some (a now)) ++ extra } path hpath
  obtain ⟨f1, f2, f3, _, _, _⟩ := cutOver_frame env now _ r hr
  obtain ⟨g1, g2, g3, g4, g5, g6, g7, g8⟩ := timing_fields _ _ f1
  refine ⟨r, ?_, hr, g1, g2, ?_, f2, g3, g4, g5, g6, g7, g8⟩
  · unfold FileWriter.Rotate
    rw [hloop]
    simp only [Bool.true_eq_false, if_false]
    exact hr
  · rw [f3]
    simp [honce]

/-! ### The first `Init` -/

/-- The first `Init` of a sink whose template has placeholders, each after its
`%`: it returns, and the writer comes back initialised with the components of
`t` cached; when directory and file can be created, the file named by the
expanded template is open and wrapped in a new buffered writer. -/
theorem init_first_valid (w0 : FileWriter) (p : Str) (t : Time) (env : FileEnv)
    (hfresh : w0.Fresh) (hv : eachPercentFollowed p = true) (hpc : '%' ∈ p) :
    ∃ r, (w0.SetPathPattern p).1.Init env t = .ok r ∧
      r.w.actions = extractorsOf p ∧
      r.w.vars = (extractorsOf p).map (fun a => some (a t)) ∧
      r.w.initFileOk = true ∧ r.w.lastWriteTime = t ∧
      r.w.daily = w0.daily ∧ r.w.hourly = w0.hourly ∧ r.w.minutely = w0.minutely ∧
      (0 < w0.maxDays → r.w.maxDays = w0.maxDays) ∧
      (env.mkdirAll (expandTemplate t p) 493 = none →
        env.openFile (expandTemplate t p) 493 = none →
        r.err = none ∧
        r.ops = [.mkdirAll (expandTemplate t p) 493, .openFile (expandTemplate t p) 493] ∧
        r.w.file = some { name := expandTemplate t p } ∧
        r.w.fileBufWriter = some (NewWriterSize { name := expandTemplate t p })) := by
  obtain ⟨_, _, f3, f4, f5, f6, f7⟩ := hfresh
  rw [setPathPattern_valid w0 p hv hpc]
  generalize hw : ({ w0 with actions := extractorsOf p,
                             vars := List.replicate (extractorsOf p).length none,
                             pathFmt := formatOf p } : FileWriter) = w
  have e1 : w.actions = extractorsOf p := by rw [← hw]
  have e2 : w.vars = List.replicate (extractorsOf p).length none := by rw [← hw]
  have e3 : w.pathFmt = formatOf p := by rw [← hw]
  have e4 : w.perm = [] := by rw [← hw]; exact f7
  have e5 : w.initFileOk = false := by rw [← hw]; exact f3
  have e6 : w.initFileOnce = false := by rw [← hw]; exact f4
  have e7 : w.file = none := by rw [← hw]; exact f5
  have e8 : w.fileBufWriter = none := by rw [← hw]; exact f6
  have e9 : w.daily = w0.daily := by rw [← hw]
  have e10 : w.hourly = w0.hourly := by rw [← hw]
  have e11 : w.minutely = w0.minutely := by rw [← hw]
  have e12 : w.maxDays = w0.maxDays := by rw [← hw]
  have hparse : ParseInt8 w.named.perm = .ok 493 := by
    rw [named_perm, e4]
    rfl
  obtain ⟨p1, _, p3, p4, p5, p6, p7, p8, p9, _, p11, p12, p13, p14⟩ := prepared_frame w 493
  rw [init_parsed env t w 493 hparse]
  have hmap : ((w.prepared 493).actions.map (fun a : Time → Int => some (a t)) ++ []).map toArg
      = (extractorsOf p).map fun act => Arg.int (act t) := by
    rw [p3, e1]
    simp only [List.append_nil, List.map_map]
    rfl
  obtain ⟨r, hr, hcut, s1, s2, s3, s4, s5, s6, s7, s8, _, _⟩ :=
    rotate_first_state env t (w.prepared 493) (expandTemplate t p) []
      (p6.trans e5) (p7.trans e6) (by rw [p3, e1]; exact extractorsOf_ne_nil p hv hpc)
      (by rw [p4, e2, p3, e1]; simp)
      (by rw [hmap, p5, e3]; exact sprintf_formatOf t p hv)
  refine ⟨r, hr, by rw [s1, p3, e1], by rw [s2, p3, e1]; simp, s3, s4,
    by rw [s5, p11, e9], by rw [s6, p12, e10], by rw [s7, p13, e11], ?_, ?_⟩
  · intro h
    rw [s8, p14 (by rw [e12]; exact h), e12]
  · intro hmk hop
    have hp1 : (493 % 4294967296 : Int).toNat = 493 := by decide
    obtain ⟨r', hr', c1, _, c3, c4, c5, _⟩ := cutOver_fresh env t
      { w.prepared 493 with vars := (w.prepared 493).actions.map (fun a : Time → Int => some (a t)) ++ [] }
      (expandTemplate t p) (p8.trans e7) (p9.trans e8)
      (by
        show Sprintf (w.prepared 493).pathFmt
          (((w.prepared 493).actions.map (fun a : Time → Int => some (a t)) ++ []).map toArg) = _
        rw [hmap, p5, e3]
        exact sprintf_formatOf t p hv)
      (by
        show env.mkdirAll _ (w.prepared 493).rotatePerm = none
        rw [p1, hp1]
        exact hmk)
      (by
        show env.openFile _ (w.prepared 493).rotatePerm = none
        rw [p1, hp1]
        exact hop)
    rw [hcut, Except.ok.injEq] at hr'
    subst hr'
    refine ⟨c1, ?_, c4, c5⟩
    rw [c3]
    show [FileOp.mkdirAll _ (w.prepared 493).rotatePerm,
      FileOp.openFile _ (w.prepared 493).rotatePerm] = _
    rw [p1, hp1]

/-- The first `Init` of a sink whose template has no `%`: nothing is opened. -/
theorem init_first_plain (w0 : FileWriter) (p : Str) (t : Time) (env : FileEnv)
    (hfresh : w0.Fresh) (hpc : '%' ∉ p) :
    ∃ r, (w0.SetPathPattern p).1.Init env t = .ok r ∧ r.err = none ∧ r.filePath = none ∧
      r.ops = [] ∧ r.w.file = none ∧ r.w.fileBufWriter = none ∧ r.w.initFileOk = false ∧
      r.w.actions = [] := by
  obtain ⟨f1, f2, f3, f4, f5, f6, f7⟩ := hfresh
  rw [setPathPattern_plain w0 p hpc]
  generalize hw : ({ w0 with pathFmt := p } : FileWriter) = w
  have e1 : w.actions = [] := by rw [← hw]; exact f1
  have e4 : w.perm = [] := by rw [← hw]; exact f7
  have e5 : w.initFileOk = false := by rw [← hw]; exact f3
  have e7 : w.file = none := by rw [← hw]; exact f5
  have e8 : w.fileBufWriter = none := by rw [← hw]; exact f6
  have hparse : ParseInt8 w.named.perm = .ok 493 := by
    rw [named_perm, e4]
    rfl
  obtain ⟨_, _, p3, _, _, p6, _, p8, p9, _⟩ := prepared_frame w 493
  rw [init_parsed env t w 493 hparse]
  unfold FileWriter.Rotate
  rw [p3.trans e1]
  simp only [rotateLoop, if_true]
  exact ⟨_, rfl, rfl, rfl, rfl, p8.trans e7, p9.trans e8, p6.trans e5, p3.trans e1⟩

/-! ### A template that `SetPathPattern` rejects -/

theorem compileActions_length (p : Str) :
    ∀ (v : Bool) (acts : List (Time → Int)),
      (compileActions p v acts).1.length ≤ acts.length + p.count '%' + (if v then 1 else 0) := by
  induction p with
  | nil =>
    intro v acts
    cases v <;> simp [compileActions]
  | cons c cs ih =>
    intro v acts
    have hcount : cs.count '%' ≤ (c :: cs).count '%' := by
      rw [List.count_cons]
      omega
    cases v with
    | true =>
      rw [compileActions]
      cases ht : pathVariableTable c with
      | none =>
        simp only [if_true]
        omega
      | some act =>
        have h := ih false (acts ++ [act])
        simp only [List.length_append, List.length_singleton, Bool.false_eq_true, if_false,
          if_true] at h ⊢
        omega
    | false =>
      rw [compileActions]
      have h := ih (c == '%') acts
      rw [List.count_cons]
      by_cases hc : c = '%'
      · subst hc
        simp only [beq_self_eq_true, if_true] at h ⊢
        simp only [Bool.false_eq_true, if_false]
        omega
      · have hb : (c == '%') = false := by simpa using hc
        rw [hb] at h ⊢
        simp only [Bool.false_eq_true, if_false] at h ⊢
        omega

/-- The writer `NewFileWriterWithOptions` returns for a template with an
unknown token: `SetPathPattern` has stored the extractors found before the
token and a slot for every `%`, and no format. -/
theorem newFileWriter_unknown_token (o : FileWriterOptions) (h : hasUnknownToken o.Filename) :
    ∃ extra : List (Option Int),
      (NewFileWriterWithOptions o).vars
        = List.replicate (NewFileWriterWithOptions o).actions.length none ++ extra ∧
      (NewFileWriterWithOptions o).pathFmt = [] ∧ (NewFileWriterWithOptions o).perm = [] ∧
      (NewFileWriterWithOptions o).initFileOk = false ∧
      (NewFileWriterWithOptions o).initFileOnce = false ∧
      (NewFileWriterWithOptions o).file = none ∧
      (NewFileWriterWithOptions o).fileBufWriter = none := by
  have hn : o.Filename.count '%' ≠ 0 := by
    have := List.count_pos_iff.mpr (hasUnknownToken_mem _ h)
    omega
  have hfail : (compileActions o.Filename false []).2 = false :=
    ((compileActions_fails_iff o.Filename []).1).mpr h
  have hlen := compileActions_length o.Filename false []
  simp only [List.length_nil, zero_add, Bool.false_eq_true, if_false, add_zero] at hlen
  unfold NewFileWriterWithOptions FileWriter.SetPathPattern
  simp only [hn, if_false, hfail, Bool.false_eq_true]
  refine ⟨List.replicate
    (o.Filename.count '%' - (compileActions o.Filename false []).1.length) none,
    ?_, trivial, trivial, trivial, trivial, trivial, trivial⟩
  rw [← List.replicate_add]
  congr 1
  omega

/-! ### Which position fires -/

theorem extractorsOf_eq_map (p : Str) : extractorsOf p = (placeholdersOf p).map extractor := by
  induction p using extractorsOf.induct with
  | case1 => rfl
  | case2 c => rfl
  | case3 c d rest h ih =>
    rw [extractorsOf, placeholdersOf]
    simp only [h, and_self, if_true, List.map_cons, ih]
  | case4 c d rest h ih =>
    rw [extractorsOf, placeholdersOf]
    simp only [h, if_false, ih]

theorem anyFires_false (now : Time) (w : FileWriter) (acts : List (Time → Int)) :
    ∀ i : Nat, (∀ k a, acts.get? k = some a → fires now w (i + k) a = false) →
      anyFires now w acts i = false := by
  induction acts with
  | nil => intro i _; rfl
  | cons b bs ih =>
    intro i h
    simp only [anyFires, Bool.or_eq_false_iff]
    refine ⟨h 0 b rfl, ih (i + 1) ?_⟩
    intro k a hk
    have := h (k + 1) a hk
    rwa [show i + (k + 1) = i + 1 + k by omega] at this

theorem anyFires_true (now : Time) (w : FileWriter) (acts : List (Time → Int)) :
    ∀ (i k : Nat) (a : Time → Int), acts.get? k = some a → fires now w (i + k) a = true →
      anyFires now w acts i = true := by
  induction acts with
  | nil => intro i k a h; simp at h
  | cons b bs ih =>
    intro i k a hk hf
    simp only [anyFires, Bool.or_eq_true]
    cases k with
    | zero =>
      simp only [List.get?, Option.some.injEq] at hk
      subst hk
      exact Or.inl hf
    | succ k =>
      refine Or.inr (ih (i + 1) k a hk ?_)
      rwa [show i + (k + 1) = i + 1 + k by omega] at hf

theorem fires_unchanged (now : Time) (w : FileWriter) (i : Nat) (a : Time → Int)
    (h : w.vars.get? i = some (some (a now))) : fires now w i a = false := by
  unfold fires
  simp only [h, ne_eq, not_true_eq_false, decide_False, Bool.false_and]

theorem fires_hour_off (now : Time) (w : FileWriter) (a : Time → Int) (h : w.hourly = false) :
    fires now w 3 a = false := by
  unfold fires
  cases w.vars.get? 3 <;> simp [h]

theorem fires_minute_off (now : Time) (w : FileWriter) (a : Time → Int)
    (h : w.minutely = false) : fires now w 4 a = false := by
  unfold fires
  cases w.vars.get? 4 <;> simp [h]

theorem anyFires_short (now : Time) (w : FileWriter) (acts : List (Time → Int))
    (h : acts.length ≤ 2) : anyFires now w acts 0 = false := by
  apply anyFires_false
  intro k a hk
  have hlt : k < acts.length := by
    rw [List.get?_eq_getElem?] at hk
    exact (List.getElem?_eq_some_iff.mp hk).1
  exact fires_other now w (0 + k) a (by omega) (by omega) (by omega)

theorem placeholdersOf_mem (p : Str) (h : placeholdersOf p ≠ []) : '%' ∈ p := by
  induction p using placeholdersOf.induct with
  | case1 => exact absurd rfl h
  | case2 c => exact absurd rfl h
  | case3 c d rest hc _ =>
    rw [hc.1]
    simp
  | case4 c d rest hc ih =>
    rw [placeholdersOf] at h
    simp only [hc, if_false] at h
    exact List.mem_cons_of_mem c (ih h)

/-- An hour after an instant before 23 o'clock, read with the same offset, it
is the same calendar day. -/
theorem hour_later_same_day (t t2 : Time) (hlater : t2.unixNano = t.unixNano + durHour)
    (hzone : t2.offset = t.offset) (h : t.Hour < 23) : t2.Day = t.Day := by
  have e : t2.abs / 86400 = t.abs / 86400 := by
    unfold Time.Hour at h
    unfold Time.abs durHour at *
    rw [hlater, hzone]
    omega
  unfold Time.Day
  rw [e]

/-! ### The state the first `Init` leaves, for options -/

/-- The first `Init` of the sink `NewFileWriterWithOptions` builds from options
with a valid template that has placeholders: it returns, whatever the
operating system answers, and leaves the sink initialised with the components
of `t` cached, `t` as the time of the last write and the flags of the
options. -/
theorem init_options_state (o : FileWriterOptions) (env : FileEnv) (t : Time)
    (hv : eachPercentFollowed o.Filename = true) (hne : placeholdersOf o.Filename ≠ []) :
    ∃ r, (NewFileWriterWithOptions o).Init env t = .ok r ∧
      r.w.actions = (placeholdersOf o.Filename).map extractor ∧
      r.w.vars = (placeholdersOf o.Filename).map (fun c => some (extractor c t)) ∧
      r.w.initFileOk = true ∧ r.w.lastWriteTime = t ∧
      r.w.daily = o.Daily ∧ r.w.hourly = o.Hourly ∧ r.w.minutely = o.Minutely ∧
      (0 < o.MaxDays → r.w.maxDays = o.MaxDays) := by
  have hpc := placeholdersOf_mem o.Filename hne
  obtain ⟨r, hr, a1, a2, a3, a4, a5, a6, a7, a8, _⟩ := init_first_valid
    { level := if o.Level.length > 0 then getLevelDefault o.Level DEBUG [] else DEBUG,
      filename := o.Filename, rotate := o.Rotate, daily := o.Daily, maxDays := o.MaxDays,
      hourly := o.Hourly, maxHours := o.MaxHours, minutely := o.Minutely,
      maxMinutes := o.MaxMinutes }
    o.Filename t env ⟨rfl, rfl, rfl, rfl, rfl, rfl, rfl⟩ hv hpc
  refine ⟨r, hr, ?_, ?_, a3, a4, a5, a6, a7, a8⟩
  · rw [a1, extractorsOf_eq_map]
  · rw [a2, extractorsOf_eq_map, List.map_map]
    rfl

/-! ### `bufio.Writer.WriteString` -/

theorem bytesWritten_append (a b : List FileOp) :
    bytesWritten (a ++ b) = bytesWritten a ++ bytesWritten b := by
  induction a with
  | nil => rfl
  | cons x xs ih => cases x <;> simp [bytesWritten, ih]

theorem writeString_wr (env : FileEnv) (b : BufWriter) (s : Str) :
    (b.WriteString env s).1.wr = b.wr := by
  unfold BufWriter.WriteString
  simp only []
  (repeat' split) <;> rfl

/-- A `WriteString` that returns no error has accepted the whole string: the
bytes it wrote to the file followed by the bytes it left in the buffer are the
bytes the buffer held before followed by the string. -/
theorem writeString_stream (env : FileEnv) (b : BufWriter) (s : Str) (hb : b.err = none)
    (hok : (b.WriteString env s).2.1 = none) :
    bytesWritten (b.WriteString env s).2.2 ++ (b.WriteString env s).1.buf = b.buf ++ s := by
  unfold BufWriter.WriteString at hok ⊢
  simp only [hb] at hok ⊢
  split
  · simp [bytesWritten]
  · rename_i hfit
    simp only [hfit, if_false] at hok
    split
    · rename_i hempty
      simp only [hempty, if_true] at hok
      split
      · rename_i e he
        simp [he] at hok
      · simp [bytesWritten, hempty]
    · rename_i hne
      simp only [hne, if_false] at hok
      split
      · rename_i e he
        simp [he] at hok
      · rename_i he
        simp only [he] at hok
        split
        · simp [bytesWritten, List.append_assoc]
        · rename_i hlarge
          simp only [hlarge, if_false] at hok
          split
          · rename_i e he2
            simp [he2] at hok
          · simp [bytesWritten, List.append_assoc]

/-- A `WriteString` on a buffered writer with a sticky error accepts nothing
and returns that error. -/
theorem writeString_sticky (env : FileEnv) (b : BufWriter) (s : Str) (e : Error)
    (hb : b.err = some e) : b.WriteString env s = (b, some e, []) := by
  unfold BufWriter.WriteString
  simp only [hb]

theorem record_string_some (r : Record) (h0 : 0 ≤ r.level) (h5 : r.level ≤ 5) :
    ∃ s, r.String = some s := by
  obtain ⟨lv, tm, fl, msg⟩ := r
  simp only at h0 h5
  interval_cases lv <;> exact ⟨_, rfl⟩

/-! ### What a later cut-over formats -/

theorem get?_set_other (vars : List (Option Int)) (i j : Nat) (x : Option Int) (h : i ≠ j) :
    (vars.set i x).get? j = vars.get? j := by
  rw [List.get?_eq_getElem?, List.get?_eq_getElem?, List.getElem?_set_ne h]

/-- After initialisation the loop of `Rotate` assigns the cached values of the
third, fourth and fifth position only. -/
theorem rotateLoop_keeps (now : Time) (acts : List (Time → Int)) :
    ∀ (i : Nat) (w : FileWriter) (rot : Bool) (w' : FileWriter) (rot' : Bool),
      w.initFileOk = true → rotateLoop now acts i w rot = .ok (w', rot') →
      ∀ j, j ≠ 2 → j ≠ 3 → j ≠ 4 → w'.vars.get? j = w.vars.get? j := by
  induction acts with
  | nil =>
    intro i w rot w' rot' _ h j _ _ _
    simp only [rotateLoop, Except.ok.injEq, Prod.mk.injEq] at h
    rw [← h.1]
  | cons a as ih =>
    intro i w rot w' rot' hinit h j j2 j3 j4
    rw [rotateLoop] at h
    simp only [] at h
    split at h
    · exact absurd h (by simp)
    · simp only [hinit, not_true_eq_false, if_false] at h
      split_ifs at h with c1 c2 c3 c4 c5 c6 c7 c8 c9 c10
      all_goals
        first
        | exact ih _ _ _ _ _ hinit h j j2 j3 j4
        | exact ih _ _ _ _ _ rfl h j j2 j3 j4
        | (have key := ih _ _ _ _ _ rfl h j j2 j3 j4
           rw [key]
           exact get?_set_other w.vars i j _ (by omega))

/-- The path a cut-over reports is the format of the writer filled with its
cached values. -/
theorem cutOver_path (env : FileEnv) (now : Time) (w : FileWriter) (r : RotateResult)
    (path : Str) (h : cutOver env now w = .ok r) (hp : r.filePath = some path) :
    Sprintf w.pathFmt (w.vars.map toArg) = some path := by
  obtain ⟨w3, t1, _, _, _, t5, _, _, hcase⟩ := cutOver_cases env now w r h
  obtain ⟨_, g2, _⟩ := timing_fields _ _ t1
  rcases hcase with ⟨_, _, hnone, _⟩ | ⟨ops0, hclose, _⟩
  · rw [hnone] at hp
    exact absurd hp (by simp)
  · rcases closeNext_cases env w3 ops0 r hclose with ⟨f, _, _, _, hnone, _⟩ | ⟨ops1, hopen, _⟩
    · rw [hnone] at hp
      exact absurd hp (by simp)
    · obtain ⟨path', hp', hs, _⟩ := openNext_cases env w3 ops1 r hopen
      rw [hp', Option.some.injEq] at hp
      rw [← hp, ← hs, t5, g2]

/-! ### The calendar: a day and the next -/

theorem yoe_step (x : Int) (h0 : 0 ≤ x) (hb : x < 146096) :
    yearOfEra x ≤ yearOfEra (x + 1) := by
  unfold yearOfEra
  omega

theorem yoe_mono_nat (a : Int) (h0 : 0 ≤ a) :
    ∀ n : Nat, a + n ≤ 146096 → yearOfEra a ≤ yearOfEra (a + n) := by
  intro n
  induction n with
  | zero => intro _; simp
  | succ n ih =>
    intro h
    have h1 : a + (n : Int) ≤ 146096 := by push_cast at h; omega
    have h2 := yoe_step (a + n) (by omega) (by push_cast at h; omega)
    have h3 : a + ((n + 1 : Nat) : Int) = a + n + 1 := by push_cast; ring
    rw [h3]
    exact le_trans (ih h1) h2

theorem yoe_mono (a b : Int) (h0 : 0 ≤ a) (hab : a ≤ b) (hb : b ≤ 146096) :
    yearOfEra a ≤ yearOfEra b := by
  have h := yoe_mono_nat a h0 (b - a).toNat (by omega)
  have e : a + ((b - a).toNat : Int) = b := by omega
  rwa [e] at h

theorem yoe_table :
    ∀ k : Fin 400, yearOfEra (yearStart (k.val : Int)) = (k.val : Int) ∧
      yearOfEra (yearStart ((k.val : Int) + 1) - 1) = (k.val : Int) := by
  decide!

theorem yoe_bounds (doe : Int) (h0 : 0 ≤ doe) (h1 : doe ≤ 146096) :
    0 ≤ yearOfEra doe ∧ yearOfEra doe ≤ 399 ∧
    yearStart (yearOfEra doe) ≤ doe ∧ doe < yearStart (yearOfEra doe + 1) := by
  have hr : 0 ≤ yearOfEra doe ∧ yearOfEra doe ≤ 399 := by
    unfold yearOfEra
    omega
  obtain ⟨r0, r1⟩ := hr
  refine ⟨r0, r1, ?_, ?_⟩
  · by_contra hlt
    push_neg at hlt
    have hk : 1 ≤ yearOfEra doe := by
      by_contra hk
      have : yearOfEra doe = 0 := by omega
      rw [this] at hlt
      unfold yearStart at hlt
      omega
    have ht := (yoe_table ⟨(yearOfEra doe - 1).toNat, by omega⟩).2
    have e : (((yearOfEra doe - 1).toNat : Nat) : Int) = yearOfEra doe - 1 := by omega
    simp only [e, sub_add_cancel] at ht
    have hs : 0 ≤ yearStart (yearOfEra doe) - 1 := by omega
    have hm := yoe_mono doe (yearStart (yearOfEra doe) - 1) h0 (by omega) (by
      generalize yearOfEra doe = k at *
      unfold yearStart
      omega)
    omega
  · by_contra hge
    push_neg at hge
    have hk : yearOfEra doe + 1 ≤ 399 := by
      by_contra hk
      have : yearOfEra doe = 399 := by omega
      rw [this] at hge
      unfold yearStart at hge
      omega
    have ht := (yoe_table ⟨(yearOfEra doe + 1).toNat, by omega⟩).1
    have e : (((yearOfEra doe + 1).toNat : Nat) : Int) = yearOfEra doe + 1 := by omega
    simp only [e] at ht
    have hm := yoe_mono (yearStart (yearOfEra doe + 1)) doe (by
      generalize yearOfEra doe = k at *
      unfold yearStart
      omega) hge h1
    omega

theorem doy_bounds (doe : Int) (h0 : 0 ≤ doe) (h1 : doe ≤ 146096) :
    0 ≤ dayOfYear doe ∧ dayOfYear doe ≤ 365 := by
  obtain ⟨r0, r1, r2, r3⟩ := yoe_bounds doe h0 h1
  unfold dayOfYear
  generalize yearOfEra doe = k at *
  unfold yearStart at r2 r3
  have e1 : (k + 1) / 4 ≤ k / 4 + 1 := by omega
  have e2 : k / 100 ≤ (k + 1) / 100 := by omega
  have e3 : k / 400 = 0 := by omega
  by_cases hk : k = 399
  · subst hk
    omega
  · have e4 : (k + 1) / 400 = 0 := by omega
    omega

theorem civil_eq (z : Int) :
    civilFromDays z =
      (yearOfEra ((z + 719468) % 146097) + (z + 719468) / 146097 * 400 +
        (if (if (5 * dayOfYear ((z + 719468) % 146097) + 2) / 153 < 10
              then (5 * dayOfYear ((z + 719468) % 146097) + 2) / 153 + 3
              else (5 * dayOfYear ((z + 719468) % 146097) + 2) / 153 - 9) ≤ 2 then 1 else 0),
       (if (5 * dayOfYear ((z + 719468) % 146097) + 2) / 153 < 10
          then (5 * dayOfYear ((z + 719468) % 146097) + 2) / 153 + 3
          else (5 * dayOfYear ((z + 719468) % 146097) + 2) / 153 - 9),
       dayOfYear ((z + 719468) % 146097)
         - (153 * ((5 * dayOfYear ((z + 719468) % 146097) + 2) / 153) + 2) / 5 + 1) := rfl

/-- Month and day of `civilFromDays` from the day of the year, and back. -/
theorem month_day_roundtrip (doy : Int) (h0 : 0 ≤ doy) (h1 : doy ≤ 365) :
    (153 * (if (if (5 * doy + 2) / 153 < 10 then (5 * doy + 2) / 153 + 3
                else (5 * doy + 2) / 153 - 9) > 2
            then (if (5 * doy + 2) / 153 < 10 then (5 * doy + 2) / 153 + 3
                  else (5 * doy + 2) / 153 - 9) - 3
            else (if (5 * doy + 2) / 153 < 10 then (5 * doy + 2) / 153 + 3
                  else (5 * doy + 2) / 153 - 9) + 9) + 2) / 5
      = (153 * ((5 * doy + 2) / 153) + 2) / 5 := by
  have hmp0 : 0 ≤ (5 * doy + 2) / 153 := by omega
  have hmp1 : (5 * doy + 2) / 153 ≤ 11 := by omega
  generalize (5 * doy + 2) / 153 = mp at *
  split_ifs <;> first | rfl | (congr 2; omega)

theorem year_roundtrip (yoe era mp : Int) :
    (if (if mp < 10 then mp + 3 else mp - 9) ≤ 2
      then yoe + era * 400 + (if (if mp < 10 then mp + 3 else mp - 9) ≤ 2 then 1 else 0) - 1
      else yoe + era * 400 + (if (if mp < 10 then mp + 3 else mp - 9) ≤ 2 then 1 else 0))
      = yoe + era * 400 := by
  split_ifs <;> omega

theorem days_roundtrip (z : Int) :
    daysFromCivil (civilFromDays z).1 (civilFromDays z).2.1 1 + ((civilFromDays z).2.2 - 1)
      = z := by
  have hd0 : 0 ≤ (z + 719468) % 146097 := by omega
  have hd1 : (z + 719468) % 146097 ≤ 146096 := by omega
  obtain ⟨r0, r1, _, _⟩ := yoe_bounds _ hd0 hd1
  obtain ⟨y0, y1⟩ := doy_bounds _ hd0 hd1
  have hdoy : dayOfYear ((z + 719468) % 146097)
      = (z + 719468) % 146097 - (365 * yearOfEra ((z + 719468) % 146097)
          + yearOfEra ((z + 719468) % 146097) / 4 - yearOfEra ((z + 719468) % 146097) / 100) :=
    rfl
  rw [civil_eq]
  simp only [daysFromCivil]
  rw [year_roundtrip, month_day_roundtrip _ y0 y1]
  generalize dayOfYear ((z + 719468) % 146097) = doy at *
  generalize yearOfEra ((z + 719468) % 146097) = yoe at *
  have q1 : (yoe + (z + 719468) / 146097 * 400) / 400 = (z + 719468) / 146097 := by omega
  have q2 : (yoe + (z + 719468) / 146097 * 400) % 400 = yoe := by omega
  rw [q1, q2]
  omega

theorem civil_day (z : Int) : (civilFromDays z).2.2 = dayOfMonth ((z + 719468) % 146097) := rfl

theorem yoe_next (doe : Int) (h0 : 0 ≤ doe) (h1 : doe < 146096) :
    (yearOfEra (doe + 1) = yearOfEra doe ∧ dayOfYear (doe + 1) = dayOfYear doe + 1) ∨
    (dayOfYear (doe + 1) = 0 ∧ 364 ≤ dayOfYear doe) := by
  obtain ⟨a0, a1, a2, a3⟩ := yoe_bounds doe h0 (by omega)
  obtain ⟨b0, b1, b2, b3⟩ := yoe_bounds (doe + 1) (by omega) (by omega)
  have hstep := yoe_step doe h0 h1
  unfold dayOfYear
  generalize yearOfEra doe = k at *
  generalize yearOfEra (doe + 1) = k' at *
  unfold yearStart at a2 a3 b2 b3
  have e3 : k / 400 = 0 := by omega
  have e4 : k' / 400 = 0 := by omega
  by_cases hk : k' = k
  · left
    subst hk
    exact ⟨rfl, by omega⟩
  · right
    have hk1 : k' = k + 1 := by
      by_contra hne
      have h2 : k + 2 ≤ k' := by omega
      have e5 : (k + 1) / 4 ≤ k' / 4 := by omega
      have e6 : k' / 100 ≤ (k + 1) / 100 + (k' - k - 1) := by omega
      have e7 : (k + 1) / 400 ≤ 1 := by omega
      omega
    subst hk1
    have e5 : (k + 1) / 4 ≤ k / 4 + 1 := by omega
    have e6 : k / 100 ≤ (k + 1) / 100 := by omega
    have e7 : (k + 1) / 100 ≤ k / 100 + 1 := by omega
    have e8 : k / 4 ≤ (k + 1) / 4 := by omega
    have e9 : (k + 1) / 100 - k / 100 ≤ (k + 1) / 4 - k / 4 := by
      by_cases hr : (k + 1) % 100 = 0
      · omega
      · omega
    constructor <;> omega

theorem day_next (doe : Int) (h0 : 0 ≤ doe) (h1 : doe < 146096) :
    dayOfMonth (doe + 1) ≠ dayOfMonth doe := by
  obtain ⟨y0, y1⟩ := doy_bounds doe h0 (by omega)
  unfold dayOfMonth
  rcases yoe_next doe h0 h1 with ⟨_, h⟩ | ⟨h, h364⟩
  · rw [h]
    generalize dayOfYear doe = doy at *
    omega
  · rw [h]
    generalize dayOfYear doe = doy at *
    have hd : doy = 364 ∨ doy = 365 := by omega
    rcases hd with rfl | rfl <;> decide

theorem civil_day_next (z : Int) : (civilFromDays (z + 1)).2.2 ≠ (civilFromDays z).2.2 := by
  rw [civil_day, civil_day]
  by_cases h : (z + 719468) % 146097 < 146096
  · have e : (z + 1 + 719468) % 146097 = (z + 719468) % 146097 + 1 := by omega
    rw [e]
    exact day_next _ (by omega) h
  · have e1 : (z + 719468) % 146097 = 146096 := by omega
    have e2 : (z + 1 + 719468) % 146097 = 0 := by omega
    rw [e1, e2]
    decide

/-! ### An instant, a day later and twenty-five hours later -/

/-- Twenty-five hours after an instant before 23 o'clock, read with the same
offset, it is the next calendar day. -/
theorem day_later_next_day (t t2 : Time) (hlater : t2.unixNano = t.unixNano + 25 * durHour)
    (hzone : t2.offset = t.offset) (h : t.Hour < 23) :
    t2.Day = (civilFromDays (t.abs / 86400 + 1)).2.2 := by
  have e : t2.abs / 86400 = t.abs / 86400 + 1 := by
    unfold Time.Hour at h
    unfold Time.abs durHour at *
    rw [hlater, hzone]
    omega
  unfold Time.Day
  rw [e]

/-- Go `AddDate(0, 0, 1)` lands on the next calendar day. -/
theorem addDate_next_day (t : Time) :
    (t.AddDate 0 0 1).Day = (civilFromDays (t.abs / 86400 + 1)).2.2 := by
  obtain ⟨m1, m12⟩ := month_range t
  have hy : t.Year + 0 + (t.Month + 0 - 1) / 12 = t.Year := by omega
  have hm : (t.Month + 0 - 1) % 12 + 1 = t.Month := by omega
  have hr := days_roundtrip (t.abs / 86400)
  have e : (t.AddDate 0 0 1).abs / 86400 = t.abs / 86400 + 1 := by
    unfold Time.AddDate Date
    simp only [hy, hm]
    unfold Time.Year Time.Month Time.Day
    unfold Time.abs at hr ⊢
    simp only []
    generalize daysFromCivil (civilFromDays ((t.unixNano / 1000000000 + t.offset) / 86400)).1
      (civilFromDays ((t.unixNano / 1000000000 + t.offset) / 86400)).2.1 1 = d0 at hr ⊢
    generalize (civilFromDays ((t.unixNano / 1000000000 + t.offset) / 86400)).2.2 = dd at hr ⊢
    unfold Time.Hour Time.Minute Time.Second Time.Nanosecond Time.abs
    omega
  unfold Time.Day
  rw [e]

/-! ### `SetupLog` -/

theorem findLevel_range (flag : Str) (fs : List Str) :
    ∀ (i j : Int), findLevel flag fs i = some j → i ≤ j ∧ j < i + fs.length := by
  induction fs with
  | nil => intro i j h; simp [findLevel] at h
  | cons f fs ih =>
    intro i j h
    rw [findLevel] at h
    split_ifs at h
    · simp only [Option.some.injEq] at h
      simp only [List.length_cons, Nat.cast_add, Nat.cast_one]
      omega
    · have := ih (i + 1) j h
      simp only [List.length_cons, Nat.cast_add, Nat.cast_one]
      omega

theorem getLevelDefault_range (flag : Str) (d : Int) (w : Str) (h0 : 0 ≤ d) (h5 : d ≤ 5) :
    0 ≤ getLevelDefault flag d w ∧ getLevelDefault flag d w ≤ 5 := by
  unfold getLevelDefault
  cases h : findLevel flag LevelFlags 0 with
  | none => exact ⟨h0, h5⟩
  | some j =>
    have := findLevel_range flag LevelFlags 0 j h
    simp only [LevelFlags, List.length_cons, List.length_nil] at this
    simp only []
    omega

theorem getLevel_range (flag : Str) : 0 ≤ getLevel flag ∧ getLevel flag ≤ 5 :=
  getLevelDefault_range flag DEBUG [] (by decide) (by decide)

theorem levelFlags_index (i : Int) (h0 : 0 ≤ i) (h5 : i ≤ 5) :
    ∃ s, index LevelFlags i = some s := by
  interval_cases i <;> exact ⟨_, rfl⟩

theorem maxInt_eq_max (a b : Int) : maxInt a b = max a b := by
  unfold maxInt
  split_ifs with h
  · exact (max_eq_right (le_of_lt h)).symm
  · exact (max_eq_left (not_lt.mp h)).symm

theorem sinkLevel_eq (own global name : Str) :
    getLevelDefault own (getLevel global) name = sinkLevel own global := rfl

theorem register_frame (l : Logger Sink) (w : Writer Sink) :
    (l.Register w).logger.level = l.level ∧ (l.Register w).logger.fullPath = l.fullPath ∧
    ((l.Register w).panic = none →
      (l.Register w).logger.writers = l.writers ++ [{ w with self := (w.impl.Init w.self).1 }]) ∧
    ((w.impl.Init w.self).2 = none → (l.Register w).panic = none) := by
  unfold Logger.Register
  cases h : (w.impl.Init w.self).2 with
  | none => simp [h]
  | some e => simp [h]

theorem setupConsole_frame (cm : WriterImpl Sink) (lc : LogConfig) (lv : Int)
    (l : Logger Sink) :
    (setupConsole cm lc lv l).logger.level = l.level ∧
    (setupConsole cm lc lv l).logger.fullPath = l.fullPath := by
  unfold setupConsole
  split
  · simp only []
    split
    · exact ⟨rfl, rfl⟩
    · exact ⟨(register_frame l _).1, (register_frame l _).2.1⟩
  · exact ⟨rfl, rfl⟩

theorem setupFile_frame (fm : WriterImpl Sink) (lc : LogConfig) (lv : Int)
    (l : Logger Sink) :
    (setupFile fm lc lv l).logger.level = l.level ∧
    (setupFile fm lc lv l).logger.fullPath = l.fullPath := by
  unfold setupFile
  split
  · simp only []
    split
    · exact ⟨rfl, rfl⟩
    · exact ⟨(register_frame l _).1, (register_frame l _).2.1⟩
  · exact ⟨rfl, rfl⟩

/-- The level and the full-path flag `SetupLog` leaves in the default logger,
whether it returns or a `Register` panics. -/
theorem setupLog_level (cm fm : WriterImpl Sink) (lc : LogConfig) (l : Logger Sink) :
    (SetupLog cm fm lc l).logger.level
      = (if lc.FileWriter.Enable then
          maxInt (sinkLevel lc.FileWriter.Level lc.Level)
            (if lc.ConsoleWriter.Enable then
              maxInt (sinkLevel lc.ConsoleWriter.Level lc.Level) ACCESS else ACCESS)
         else (if lc.ConsoleWriter.Enable then
              maxInt (sinkLevel lc.ConsoleWriter.Level lc.Level) ACCESS else ACCESS)) ∧
    (SetupLog cm fm lc l).logger.fullPath = lc.FullPath ∧
    (SetupLog cm fm lc l).GlobalLevel = getLevel lc.Level := by
  unfold SetupLog
  cases hc : lc.ConsoleWriter.Enable <;> cases hf : lc.FileWriter.Enable <;>
    simp only [sinkLevel_eq, Bool.false_eq_true, if_false, if_true] <;>
    (repeat' split) <;>
    first
    | exact ⟨(setupConsole_frame _ _ _ _).1, (setupConsole_frame _ _ _ _).2, rfl⟩
    | exact ⟨((setupFile_frame _ _ _ _).1).trans (setupConsole_frame _ _ _ _).1,
        ((setupFile_frame _ _ _ _).2).trans (setupConsole_frame _ _ _ _).2, rfl⟩

theorem sinkLevel_range (own global : Str) :
    0 ≤ sinkLevel own global ∧ sinkLevel own global ≤ 5 := by
  rw [← sinkLevel_eq own global []]
  exact getLevelDefault_range own _ [] (getLevel_range global).1 (getLevel_range global).2

theorem setupConsole_eq (cm : WriterImpl Sink) (lc : LogConfig) (lv : Int) (l : Logger Sink)
    (h0 : 0 ≤ lv) (h5 : lv ≤ 5) :
    setupConsole cm lc lv l
      = if lc.ConsoleWriter.Enable then
          l.Register { impl := cm,
                       self := .console { NewConsoleWriterWithOptions lc.ConsoleWriter with
                                          level := lv } }
        else { logger := l, panic := none } := by
  obtain ⟨s, hs⟩ := levelFlags_index lv h0 h5
  unfold setupConsole
  simp only [hs]

theorem setupFile_eq (fm : WriterImpl Sink) (lc : LogConfig) (lv : Int) (l : Logger Sink)
    (h0 : 0 ≤ lv) (h5 : lv ≤ 5) :
    setupFile fm lc lv l
      = if lc.FileWriter.Enable then
          l.Register { impl := fm,
                       self := .file { NewFileWriterWithOptions lc.FileWriter with level := lv } }
        else { logger := l, panic := none } := by
  obtain ⟨s, hs⟩ := levelFlags_index lv h0 h5
  unfold setupFile
  simp only [hs]

theorem maxInt_range (a b : Int) (ha : 0 ≤ a ∧ a ≤ 5) (hb : 0 ≤ b ∧ b ≤ 5) :
    0 ≤ maxInt a b ∧ maxInt a b ≤ 5 := by
  unfold maxInt
  split_ifs <;> omega

/-- The sinks in the default logger when `SetupLog` returns, and that it
returns when the `Init` of the sinks it registers return nil. -/
theorem setupLog_writers (cm fm : WriterImpl Sink) (lc : LogConfig) (l : Logger Sink) :
    ((SetupLog cm fm lc l).panic = none →
      (SetupLog cm fm lc l).logger.writers
        = l.writers ++
          (enabledSinks lc).map (fun s =>
            match s with
            | .console w => { impl := cm, self := (cm.Init (.console w)).1 }
            | .file w => { impl := fm, self := (fm.Init (.file w)).1 })) ∧
    ((∀ s, (cm.Init s).2 = none) → (∀ s, (fm.Init s).2 = none) →
      (SetupLog cm fm lc l).panic = none) := by
  have hg := getLevel_range lc.Level
  have hc := sinkLevel_range lc.ConsoleWriter.Level lc.Level
  have hf := sinkLevel_range lc.FileWriter.Level lc.Level
  have hA : (0 : Int) ≤ ACCESS ∧ ACCESS ≤ 5 := by decide
  obtain ⟨sg, hsg⟩ := levelFlags_index _ hg.1 hg.2
  obtain ⟨sa, hsa⟩ := levelFlags_index ACCESS hA.1 hA.2
  obtain ⟨s1, hs1⟩ := levelFlags_index _ (maxInt_range _ _ hc hA).1 (maxInt_range _ _ hc hA).2
  obtain ⟨s2, hs2⟩ := levelFlags_index _ (maxInt_range _ _ hf hA).1 (maxInt_range _ _ hf hA).2
  obtain ⟨s3, hs3⟩ := levelFlags_index _
    (maxInt_range _ _ hf (maxInt_range _ _ hc hA)).1 (maxInt_range _ _ hf (maxInt_range _ _ hc hA)).2
  obtain ⟨cw, hcw⟩ : ∃ cw : ConsoleWriter, cw
      = { NewConsoleWriterWithOptions lc.ConsoleWriter with
          level := sinkLevel lc.ConsoleWriter.Level lc.Level } := ⟨_, rfl⟩
  obtain ⟨fw, hfw⟩ : ∃ fw : FileWriter, fw
      = { NewFileWriterWithOptions lc.FileWriter with
          level := sinkLevel lc.FileWriter.Level lc.Level } := ⟨_, rfl⟩
  unfold SetupLog enabledSinks
  cases hce : lc.ConsoleWriter.Enable <;> cases hfe : lc.FileWriter.Enable <;>
    simp only [sinkLevel_eq, Bool.false_eq_true, if_false, if_true,
      setupConsole_eq _ _ _ _ hg.1 hg.2, setupConsole_eq _ _ _ _ hc.1 hc.2,
      setupFile_eq _ _ _ _ hg.1 hg.2, setupFile_eq _ _ _ _ hf.1 hf.2, hce, hfe, hsg, hsa, hs1,
      hs2, hs3, List.append_nil, List.map_nil, List.nil_append, List.map_cons, ← hcw, ← hfw]
  · exact ⟨fun _ => trivial, fun _ _ => trivial⟩
  · unfold Logger.Register
    cases h : (fm.Init (.file fw)).2 with
    | none => simp [h, hs2, hsg]
    | some e =>
      simp only [h, hs2, hsg]
      exact ⟨fun hp => absurd hp (by simp), fun _ hfm => absurd (hfm (.file fw)) (by simp [h])⟩
  · unfold Logger.Register
    cases h : (cm.Init (.console cw)).2 with
    | none => simp [h, hs1, hsg]
    | some e =>
      simp only [h, hs1, hsg]
      exact ⟨fun hp => absurd hp (by simp),
        fun hcm _ => absurd (hcm (.console cw)) (by simp [h])⟩
  · unfold Logger.Register
    cases h : (cm.Init (.console cw)).2 with
    | none =>
      cases h' : (fm.Init (.file fw)).2 with
      | none => simp [h, h', hs3, hsg]
      | some e =>
        simp only [h, h', hs3, hsg]
        exact ⟨fun hp => absurd hp (by simp),
          fun _ hfm => absurd (hfm (.file fw)) (by simp [h'])⟩
    | some e =>
      simp only [h, hs3, hsg]
      exact ⟨fun hp => absurd hp (by simp),
        fun hcm _ => absurd (hcm (.console cw)) (by simp [h])⟩

/-! ### The multipliers after `Init` -/

theorem initDefaults_multipliers (w : FileWriter) :
    w.initDefaults.maxDays
      = (if w.rotate = true ∧ w.daily = true ∧ w.maxDays ≤ 0 then 60 else w.maxDays) ∧
    w.initDefaults.maxHours
      = (if w.rotate = true ∧ w.hourly = true ∧ w.maxHours ≤ 0 then 12 else w.maxHours) ∧
    w.initDefaults.maxMinutes
      = (if w.rotate = true ∧ w.minutely = true ∧ w.maxMinutes ≤ 0 then 1 else w.maxMinutes) := by
  unfold FileWriter.initDefaults
  cases hr : w.rotate
  · simp
  · simp only [if_true, true_and]
    by_cases h1 : w.daily = true ∧ w.maxDays ≤ 0 <;>
      by_cases h2 : w.hourly = true ∧ w.maxHours ≤ 0 <;>
      by_cases h3 : w.minutely = true ∧ w.maxMinutes ≤ 0 <;>
      simp [h1, h2, h3]

theorem named_multipliers (w : FileWriter) :
    w.named.rotate = w.rotate ∧ w.named.daily = w.daily ∧ w.named.hourly = w.hourly ∧
    w.named.minutely = w.minutely ∧ w.named.maxDays = w.maxDays ∧
    w.named.maxHours = w.maxHours ∧ w.named.maxMinutes = w.maxMinutes := by
  unfold FileWriter.named FileWriter.initNames
  simp only []
  split_ifs <;> exact ⟨rfl, rfl, rfl, rfl, rfl, rfl, rfl⟩

theorem prepared_multipliers (w : FileWriter) (v : Int) :
    (w.prepared v).maxDays
      = (if w.rotate = true ∧ w.daily = true ∧ w.maxDays ≤ 0 then 60 else w.maxDays) ∧
    (w.prepared v).maxHours
      = (if w.rotate = true ∧ w.hourly = true ∧ w.maxHours ≤ 0 then 12 else w.maxHours) ∧
    (w.prepared v).maxMinutes
      = (if w.rotate = true ∧ w.minutely = true ∧ w.maxMinutes ≤ 0 then 1 else w.maxMinutes) := by
  obtain ⟨n1, n2, n3, n4, n5, n6, n7⟩ := named_multipliers w
  obtain ⟨d1, d2, d3⟩ :=
    initDefaults_multipliers ({ w.named with rotatePerm := (v % 4294967296).toNat } : FileWriter)
  unfold FileWriter.prepared
  rw [d1, d2, d3]
  simp only [n1, n2, n3, n4, n5, n6, n7]
  exact ⟨trivial, trivial, trivial⟩

/-- A call of `Rotate` that returns leaves the three multipliers alone. -/
theorem rotate_multipliers (env : FileEnv) (now : Time) (w : FileWriter) (r : RotateResult)
    (h : w.Rotate env now = .ok r) :
    r.w.maxDays = w.maxDays ∧ r.w.maxHours = w.maxHours ∧ r.w.maxMinutes = w.maxMinutes := by
  obtain ⟨w1, hc, _, hcase⟩ := rotate_cases env now w r h
  have c1 : w1.maxDays = w.maxDays :=
    (congrArg FileWriter.maxDays hc : w1.core.maxDays = w.core.maxDays)
  have c2 : w1.maxHours = w.maxHours :=
    (congrArg FileWriter.maxHours hc : w1.core.maxHours = w.core.maxHours)
  have c3 : w1.maxMinutes = w.maxMinutes :=
    (congrArg FileWriter.maxMinutes hc : w1.core.maxMinutes = w.core.maxMinutes)
  rcases hcase with ⟨_, hw, _⟩ | ⟨_, hcut⟩
  · rw [hw]
    exact ⟨c1, c2, c3⟩
  · obtain ⟨f1, _⟩ := cutOver_frame env now w1 r hcut
    obtain ⟨_, _, _, _, _, g6, g7, g8⟩ := timing_fields _ _ f1
    exact ⟨g6.trans c1, g7.trans c2, g8.trans c3⟩

/-! ### `Rotate` when nothing triggers -/

theorem rotateLoop_stays_true (now : Time) (acts : List (Time → Int)) :
    ∀ (i : Nat) (w : FileWriter) (w' : FileWriter) (rot' : Bool),
      rotateLoop now acts i w true = .ok (w', rot') → rot' = true := by
  induction acts with
  | nil =>
    intro i w w' rot' h
    simp only [rotateLoop, Except.ok.injEq, Prod.mk.injEq] at h
    exact h.2.symm
  | cons a as ih =>
    intro i w w' rot' h
    rw [rotateLoop] at h
    simp only [] at h
    split at h
    · exact absurd h (by simp)
    · split_ifs at h <;> exact ih _ _ _ _ h

/-- A loop of `Rotate` that ends with `rotate` false has stored no cached
value. -/
theorem rotateLoop_false_vars (now : Time) (acts : List (Time → Int)) :
    ∀ (i : Nat) (w : FileWriter) (rot : Bool) (w' : FileWriter),
      rotateLoop now acts i w rot = .ok (w', false) → w'.vars = w.vars := by
  induction acts with
  | nil =>
    intro i w rot w' h
    simp only [rotateLoop, Except.ok.injEq, Prod.mk.injEq] at h
    rw [← h.1]
  | cons a as ih =>
    intro i w rot w' h
    rw [rotateLoop] at h
    simp only [] at h
    split at h
    · exact absurd h (by simp)
    · split_ifs at h <;>
        first
        | exact absurd (rotateLoop_stays_true now as _ _ _ _ h) (by simp)
        | (have key := ih _ _ _ _ h
           exact key)

/-! ### `SetPathPattern` on a writer that holds a compiled template -/

theorem sprintf_plain (p : Str) (args : List Arg) (hp : '%' ∉ p) :
    Sprintf p args = some (p ++ extraArgs args) := by
  unfold Sprintf
  induction p with
  | nil => rfl
  | cons c x ih =>
    have hc : c ≠ '%' := fun h => hp (by rw [h]; exact List.mem_cons_self _ _)
    have hx : '%' ∉ x := fun h => hp (List.mem_cons_of_mem _ h)
    rw [doPrintf_plain c x args hc, ih hx]
    rfl

theorem extraArgs_ne_nil (a : Arg) (as : List Arg) : extraArgs (a :: as) ≠ [] := by
  simp [extraArgs]

theorem placeholdersOf_plain (p : Str) (hp : '%' ∉ p) : placeholdersOf p = [] := by
  by_contra h
  exact hp (placeholdersOf_mem p h)

/-- Go `SetPathPattern` called a second time with the same template changes
nothing more. -/
theorem setPathPattern_twice (w : FileWriter) (p : Str) :
    (w.SetPathPattern p).1.SetPathPattern p = w.SetPathPattern p := by
  unfold FileWriter.SetPathPattern
  by_cases hn : p.count '%' = 0
  · simp only [hn, if_true]
  · simp only [hn, if_false]
    cases (compileActions p false []).2 <;> simp

/-- The first `Init` of a writer that holds the extractors of a template `q`
and the text of a template `p` without `%` as its format. -/
theorem init_stale_extractors (w0 : FileWriter) (q p : Str) (t : Time) (env : FileEnv)
    (hfresh : w0.Fresh) (hq : eachPercentFollowed q = true) (hqc : '%' ∈ q) (hp : '%' ∉ p) :
    resolvedPath (((w0.SetPathPattern q).1.SetPathPattern p).1.Init env t)
      = some (p ++ extraArgs ((extractorsOf q).map fun a => Arg.int (a t))) := by
  obtain ⟨_, _, f3, f4, f5, f6, f7⟩ := hfresh
  rw [setPathPattern_valid w0 q hq hqc, setPathPattern_plain _ p hp]
  obtain ⟨wx, e, a1, a2, a3, a4, a5, a6, a7, _⟩ := init_default_perm env t
    ({ ({ w0 with actions := extractorsOf q,
                  vars := List.replicate (extractorsOf q).length none,
                  pathFmt := formatOf q } : FileWriter) with pathFmt := p } : FileWriter) f7
  rw [e]
  apply rotate_first env t wx _ (a4.trans f3) (a5.trans f4) (a6.trans f5) (a7.trans f6)
  · rw [a1]
    exact extractorsOf_ne_nil q hq hqc
  · rw [a2, a1]
  · rw [a3, a1]
    exact sprintf_plain p _ hp

/-! ### The message of a log call -/

theorem contains_percent (f : Str) : containsStr "%".toList f = true ↔ '%' ∈ f := by
  induction f with
  | nil => simp [containsStr]
  | cons c cs ih =>
    have hs : startsWith "%".toList (c :: cs) = ('%' == c) := by
      cases cs <;> simp [startsWith]
    rw [containsStr, hs, Bool.or_eq_true, ih, List.mem_cons, beq_iff_eq]

/-- The format `deliverRecordToWriter` hands to `fmt.Sprintf`, case by case. -/
theorem messageFormat_eq (f : Str) (n : Nat) :
    messageFormat f n
      = if n = 0 ∨ (containsStr "%".toList f = true ∧ containsStr "%%".toList f = false) then f
        else f ++ (List.replicate n "%v".toList).flatten := by
  unfold messageFormat
  by_cases hn : n = 0
  · simp [hn]
  · cases h1 : containsStr "%".toList f <;> cases h2 : containsStr "%%".toList f <;>
      simp [hn]

theorem buildRecord_msg {σ : Type} (env : CallEnv) (l : Logger σ) (s : Int) (f : Str)
    (args : List Arg) :
    (buildRecord env l s f args).2.msg = env.sprintf (messageFormat f args.length) args := by
  simp only [buildRecord]

theorem doPrintf_v (x : Str) (a : Arg) (args : List Arg) :
    doPrintf ('%' :: 'v' :: x) .text (a :: args)
      = (doPrintf x .text args).map (defaultText a ++ ·) := by
  cases a <;>
    simp [doPrintf, verbStep, unmodelled, printArg, Char.isDigit, defaultText, fmtInteger_plain]

theorem doPrintf_verbs (args : List Arg) :
    doPrintf (List.replicate args.length "%v".toList).flatten .text args
      = some (args.map defaultText).flatten := by
  induction args with
  | nil => rfl
  | cons a as ih =>
    simp only [List.length_cons, List.replicate_succ, List.flatten_cons, List.map_cons]
    show doPrintf ('%' :: 'v' :: (List.replicate as.length "%v".toList).flatten) .text (a :: as)
      = _
    rw [doPrintf_v, ih]
    rfl

theorem doPrintf_leading (f rest : Str) (args : List Arg) (hf : '%' ∉ f) :
    doPrintf (f ++ rest) .text args = (doPrintf rest .text args).map (f ++ ·) := by
  induction f with
  | nil => simp
  | cons c x ih =>
    have hc : c ≠ '%' := fun h => hf (by rw [h]; exact List.mem_cons_self _ _)
    have hx : '%' ∉ x := fun h => hf (List.mem_cons_of_mem _ h)
    rw [List.cons_append, doPrintf_plain c _ args hc, ih hx, Option.map_map]
    rfl

/-- A format without `%` followed by one `%v` for each operand renders as the
format followed by the default rendering of each operand, in order. -/
theorem sprintf_appended_verbs (f : Str) (args : List Arg) (hf : '%' ∉ f) :
    Sprintf (f ++ (List.replicate args.length "%v".toList).flatten) args
      = some (f ++ (args.map defaultText).flatten) := by
  unfold Sprintf
  rw [doPrintf_leading f _ args hf, doPrintf_verbs]
  rfl

/-! ### The claims -/

/-- C1: a log call with a level above the logger's minimum returns at the level
check and leaves the logger, its queue included, as it was; with a level at or
below the minimum, on an open queue, the queue afterwards is the queue before
followed by exactly one record, and that record carries the level of the
call. -/
theorem deliver_filters_by_level {σ : Type} (env : CallEnv) (l : Logger σ) (s : Int) (f : Str)
    (args : List Arg) :
    (s > l.level → l.deliverRecordToWriter env s f args = .filtered l) ∧
    (s ≤ l.level → l.records.closed = false →
      ∃ r : Record, r.level = s ∧
        (l.deliverRecordToWriter env s f args).logger.records.queue
          = l.records.queue ++ [r] ∧
        (l.deliverRecordToWriter env s f args).logger.writers = l.writers) := by
  constructor
  · intro h
    simp [Logger.deliverRecordToWriter, h]
  · intro h hopen
    have hn : ¬ s > l.level := not_lt.mpr h
    obtain ⟨hrec, hw, hl⟩ := buildRecord_frame env l s f args
    refine ⟨(buildRecord env l s f args).2, hl, ?_⟩
    simp only [Logger.deliverRecordToWriter, hn, if_false, Chan.send, hrec, hopen]
    by_cases hc : l.records.queue.length < l.records.cap <;>
      simp [hc, Delivery.logger, hw]

theorem deliver_filters_by_level_witness :
    (DEBUG > sampleLogger.level ∧
      sampleLogger.deliverRecordToWriter sampleEnv DEBUG "x %d".toList [.int 1]
        = .filtered sampleLogger) ∧
    (ERROR ≤ sampleLogger.level ∧ sampleLogger.records.closed = false ∧
      ∃ r : Record, r.level = ERROR ∧
        (sampleLogger.deliverRecordToWriter sampleEnv ERROR "x %d".toList [.int 1]).logger.records.queue
          = sampleLogger.records.queue ++ [r] ∧
        (sampleLogger.deliverRecordToWriter sampleEnv ERROR "x %d".toList [.int 1]).logger.writers
          = sampleLogger.writers) :=
  ⟨⟨by decide,
    (deliver_filters_by_level sampleEnv sampleLogger DEBUG "x %d".toList [.int 1]).1 (by decide)⟩,
   ⟨by decide, by decide,
    (deliver_filters_by_level sampleEnv sampleLogger ERROR "x %d".toList [.int 1]).2
      (by decide) (by decide)⟩⟩

/-- C2 (code check): the name table holds TRANSACTION at position ERROR and
ERROR at position TRANSACTION, so a record of level ERROR is rendered with the
label TRANSACTION and the flag "error" parses to TRANSACTION. -/
theorem levelFlags_error_transaction_swapped :
    index LevelFlags ERROR = some LevelFlagTransaction ∧
    index LevelFlags TRANSACTION = some LevelFlagError ∧
    Record.String { level := ERROR, time := "t".toList, file := "f".toList, msg := "m".toList }
      = some "t [TRANSACTION] <f> m\n".toList ∧
    (∀ d w, getLevelDefault "error".toList d w = TRANSACTION) ∧
    index LevelFlags ACCESS = some LevelFlagAccess ∧
    index LevelFlags ABNORMAL = some LevelFlagAbnormal ∧
    index LevelFlags COMMON = some LevelFlagCommon ∧
    index LevelFlags DEBUG = some LevelFlagDebug := by
  refine ⟨by decide, by decide, by decide, ?_, by decide, by decide, by decide, by decide⟩
  intro d w
  have h : findLevel "error".toList LevelFlags 0 = some 2 := by decide
  unfold getLevelDefault
  rw [h]
  rfl

/-- C3: on an open queue, under every schedule of submits, worker receives and
timer ticks, the records written so far followed by the records still queued
are the records queued at the start followed by the submitted ones, in that
order; the `Write` calls are, record by record in queue order, one call per sink
in registration order, so every sink sees the delivered records in queue
order, whatever the ticks in between. In particular, with the worker at a
receive and nothing queued, submitting `rs` and letting the worker take as
many receives, with any ticks before each, writes exactly `rs`, in order, to
every sink. -/
theorem worker_preserves_enqueue_order {σ : Type} (s : System σ) (acts : List Action)
    (rs : List Record) (ticks : List (List Tick))
    (hopen : s.logger.records.closed = false) :
    (∃ delivered : List Record,
      delivered ++ (s.run acts).1.logger.records.queue
        = s.logger.records.queue ++ submitted acts ∧
      writesOf (s.run acts).2 = delivered.flatMap (fanOut s.logger.writers.length) ∧
      ∀ i, i < s.logger.writers.length → recordsWrittenTo i (s.run acts).2 = delivered) ∧
    (s.Live → s.logger.records.queue = [] →
      writesOf (s.run (rs.map Action.submit ++ serve ticks rs.length)).2
        = rs.flatMap (fanOut s.logger.writers.length) ∧
      ∀ i, i < s.logger.writers.length →
        recordsWrittenTo i (s.run (rs.map Action.submit ++ serve ticks rs.length)).2 = rs) := by
  constructor
  · obtain ⟨d, e, w, _, _⟩ := run_fifo acts s hopen
    refine ⟨d, e, w, ?_⟩
    intro i hi
    unfold recordsWrittenTo
    rw [w]
    exact fanOut_select _ i hi d
  · intro hlive hq
    obtain ⟨s1, s2, s3, s4⟩ := run_submits rs s hopen
    have hlive1 : ((s.run (rs.map Action.submit)).1).Live := by
      unfold System.Live at hlive ⊢
      rw [s2]
      exact hlive
    have hlen : rs.length ≤ (s.run (rs.map Action.submit)).1.logger.records.queue.length := by
      rw [s1]
      simp
    obtain ⟨_, _, _, _, _, w⟩ := run_serve rs.length ticks (s.run (rs.map Action.submit)).1 hlive1 hlen
    have hw : writesOf (s.run (rs.map Action.submit ++ serve ticks rs.length)).2
        = rs.flatMap (fanOut s.logger.writers.length) := by
      rw [run_append]
      simp only []
      rw [writesOf_append, s4, w, s1, s3]
      simp [hq, writesOf]
    refine ⟨hw, ?_⟩
    intro i hi
    unfold recordsWrittenTo
    rw [hw]
    exact fanOut_select _ i hi rs

theorem worker_preserves_enqueue_order_witness :
    sampleSystem.logger.records.closed = false ∧ sampleSystem.Live ∧
    sampleSystem.logger.records.queue = [] ∧
    writesOf (sampleSystem.run ([recordA, recordB].map Action.submit
        ++ serve [[.flush], [.rotate, .flush]] [recordA, recordB].length)).2
      = [recordA, recordB].flatMap (fanOut sampleSystem.logger.writers.length) ∧
    ∀ i, i < sampleSystem.logger.writers.length →
      recordsWrittenTo i (sampleSystem.run ([recordA, recordB].map Action.submit
        ++ serve [[.flush], [.rotate, .flush]] [recordA, recordB].length)).2
        = [recordA, recordB] :=
  ⟨by decide, by decide, by decide,
   (worker_preserves_enqueue_order sampleSystem [] [recordA, recordB]
      [[.flush], [.rotate, .flush]] (by decide)).2 (by decide) (by decide)⟩

/-- C4: `Close` on an open queue, with the worker at a receive, returns, and
before it returns every record in the queue's buffer has been passed, in queue
order, to `Write` of every registered sink (the worker's drain, whatever timer
ticks it takes meanwhile); after the last of these writes `Close` itself calls
`Flush` exactly once on each sink that is a `Flusher`, in registration order,
and makes no other call. The worker has returned and the queue is empty. -/
theorem close_delivers_queued_records {σ : Type} (ticks : List (List Tick)) (s : System σ)
    (hopen : s.logger.records.closed = false) (hlive : s.Live) (hc : s.logger.c = []) :
    ∃ (s1 : System σ) (drained flushed : List Call),
      Logger.Close ticks s = .returned s1 (drained ++ flushed) ∧
      writesOf drained
        = (s.logger.records.queue.take s.logger.records.cap).flatMap
            (fanOut s.logger.writers.length) ∧
      (∀ i, i < s.logger.writers.length →
        recordsWrittenTo i drained = s.logger.records.queue.take s.logger.records.cap) ∧
      writesOf flushed = [] ∧
      flushesOf flushed = flushers s.logger.writers 0 ∧
      flushed.length = (flushers s.logger.writers 0).length ∧
      s1.worker = .returned ∧ s1.logger.records.queue = [] := by
  have hclose : s.logger.records.close
      = some { s.logger.records with
               closed := true, queue := s.logger.records.queue.take s.logger.records.cap } := by
    simp [Chan.close, hopen]
  obtain ⟨D, hD⟩ : ∃ D, D = drain ((s.logger.records.queue.take s.logger.records.cap).length + 1)
      ticks { s with logger := { s.logger with records :=
          { s.logger.records with
            closed := true, queue := s.logger.records.queue.take s.logger.records.cap } } } :=
    ⟨_, rfl⟩
  have hfacts := drain_closed (s.logger.records.queue.take s.logger.records.cap) ticks
      { s with logger := { s.logger with records :=
          { s.logger.records with
            closed := true, queue := s.logger.records.queue.take s.logger.records.cap } } }
      rfl rfl hlive hc
  rw [← hD] at hfacts
  obtain ⟨d1, d2, d3, d4, d5, d6⟩ := hfacts
  obtain ⟨f1, f2⟩ := flush_loop_calls D.1.logger.writers 0
  have hfl := flushers_congr s.logger.writers D.1.logger.writers 0 d5
  refine ⟨{ D.1 with logger := { D.1.logger with
              c := [], writers := (rangeWriters flushBody D.1.logger.writers 0).1 } },
    D.2, (rangeWriters flushBody D.1.logger.writers 0).2,
    ?_, d6, ?_, writesOf_flush_loop _ 0, f1.trans hfl, f2.trans (by rw [hfl]), d1, d2⟩
  · unfold Logger.Close
    rw [hclose]
    simp only []
    rw [← hD, d3]
  · intro i hi
    unfold recordsWrittenTo
    rw [d6]
    exact fanOut_select _ i hi _

theorem close_delivers_queued_records_witness :
    (sampleSystem.run [.submit recordA, .submit recordB]).1.logger.records.closed = false ∧
    ((sampleSystem.run [.submit recordA, .submit recordB]).1).Live ∧
    (sampleSystem.run [.submit recordA, .submit recordB]).1.logger.c = [] ∧
    ∃ (s1 : System Nat) (drained flushed : List Call),
      Logger.Close [[.rotate], [.flush]] (sampleSystem.run [.submit recordA, .submit recordB]).1
        = .returned s1 (drained ++ flushed) ∧
      writesOf drained
        = ((sampleSystem.run [.submit recordA, .submit recordB]).1.logger.records.queue.take
            (sampleSystem.run [.submit recordA, .submit recordB]).1.logger.records.cap).flatMap
            (fanOut (sampleSystem.run [.submit recordA, .submit recordB]).1.logger.writers.length) ∧
      (∀ i, i < (sampleSystem.run [.submit recordA, .submit recordB]).1.logger.writers.length →
        recordsWrittenTo i drained
          = (sampleSystem.run [.submit recordA, .submit recordB]).1.logger.records.queue.take
              (sampleSystem.run [.submit recordA, .submit recordB]).1.logger.records.cap) ∧
      writesOf flushed = [] ∧
      flushesOf flushed
        = flushers (sampleSystem.run [.submit recordA, .submit recordB]).1.logger.writers 0 ∧
      flushed.length
        = (flushers (sampleSystem.run [.submit recordA, .submit recordB]).1.logger.writers 0).length ∧
      s1.worker = .returned ∧ s1.logger.records.queue = [] :=
  ⟨by decide, by decide, by decide,
   close_delivers_queued_records [[.rotate], [.flush]]
     (sampleSystem.run [.submit recordA, .submit recordB]).1 (by decide) (by decide) (by decide)⟩

/-- C5: with the queue open and the worker at a receive, a receive that finds
a record calls `Write` on every registered sink, in registration order, each
with the record and with whatever error that sink returns, so an error of an
earlier sink does not keep a later sink from being called; the worker is then
at its select again. Under every schedule of submits, receives and ticks the
worker is still at a receive afterwards (no error returned by `Write`, `Flush`
or `Rotate` ends the loop), and `k` receives on a queue holding at least `k`
records write the first `k` records to every sink. -/
theorem sink_errors_do_not_stop_worker {σ : Type} (s : System σ) (acts : List Action)
    (hopen : s.logger.records.closed = false) (hlive : s.Live) :
    (∀ r q, s.logger.records.queue = r :: q →
      (workerReceive s).2
        = s.logger.writers.enum.map (fun p => Call.Write p.1 r (p.2.impl.Write p.2.self r).2) ∧
      (workerReceive s).1.worker = .selectLoop) ∧
    ((s.run acts).1).Live ∧
    (∀ (ticks : List (List Tick)) (k : Nat), k ≤ s.logger.records.queue.length →
      ((s.run (serve ticks k)).1).Live ∧
      ∀ i, i < s.logger.writers.length →
        recordsWrittenTo i (s.run (serve ticks k)).2 = s.logger.records.queue.take k) := by
  refine ⟨?_, run_live acts s hopen hlive, ?_⟩
  · intro r q hq
    refine ⟨?_, (workerReceive_value s r q hlive hq).2.1⟩
    unfold workerReceive
    rcases hlive with h | h <;> simp [h, Chan.recv, hq, write_loop_calls, List.enum]
  · intro ticks k hk
    obtain ⟨_, l, _, _, _, w⟩ := run_serve k ticks s hlive hk
    refine ⟨l, ?_⟩
    intro i hi
    unfold recordsWrittenTo
    rw [w]
    exact fanOut_select _ i hi _

theorem sink_errors_do_not_stop_worker_witness :
    (sampleSystem.run [.submit recordA, .submit recordB]).1.logger.records.closed = false ∧
    ((sampleSystem.run [.submit recordA, .submit recordB]).1).Live ∧
    (workerReceive (sampleSystem.run [.submit recordA, .submit recordB]).1).2
      = [.Write 0 recordA (some "write failed".toList), .Write 1 recordA none] ∧
    (∀ i, i < 2 →
      recordsWrittenTo i
        ((sampleSystem.run [.submit recordA, .submit recordB]).1.run (serve [[], [.flush]] 2)).2
        = [recordA, recordB]) :=
  ⟨by decide, by decide,
   ((sink_errors_do_not_stop_worker (sampleSystem.run [.submit recordA, .submit recordB]).1 []
      (by decide) (by decide)).1 recordA [recordB] (by decide)).1,
   ((sink_errors_do_not_stop_worker (sampleSystem.run [.submit recordA, .submit recordB]).1 []
      (by decide) (by decide)).2.2 [[], [.flush]] 2 (by decide)).2⟩

/-- C6: on a logger whose record queue is closed, a log call that passes the
level check ends in the runtime panic "send on closed channel": it does not
park, and the queue and the sink list are left as they were. -/
theorem deliver_on_closed_queue_panics {σ : Type} (env : CallEnv) (l : Logger σ) (s : Int)
    (f : Str) (args : List Arg) (hclosed : l.records.closed = true) (hlevel : s ≤ l.level) :
    ∃ l1 : Logger σ,
      l.deliverRecordToWriter env s f args = .panicked "send on closed channel".toList l1 ∧
      l1.records = l.records ∧ l1.writers = l.writers := by
  have hn : ¬ s > l.level := not_lt.mpr hlevel
  obtain ⟨hrec, hw, _⟩ := buildRecord_frame env l s f args
  refine ⟨(buildRecord env l s f args).1, ?_, hrec, hw⟩
  simp [Logger.deliverRecordToWriter, hn, Chan.send, hrec, hclosed]

/-- The sample logger after `close(l.records)`. -/
theorem deliver_on_closed_queue_panics_witness :
    ({ sampleLogger with records := { sampleLogger.records with closed := true } }
        : Logger Nat).records.closed = true ∧
    ERROR ≤ ({ sampleLogger with records := { sampleLogger.records with closed := true } }
        : Logger Nat).level ∧
    ∃ l1 : Logger Nat,
      Logger.deliverRecordToWriter sampleEnv
          { sampleLogger with records := { sampleLogger.records with closed := true } }
          ERROR "x".toList []
        = .panicked "send on closed channel".toList l1 ∧
      l1.records = ({ sampleLogger with records := { sampleLogger.records with closed := true } }
        : Logger Nat).records ∧
      l1.writers = ({ sampleLogger with records := { sampleLogger.records with closed := true } }
        : Logger Nat).writers :=
  ⟨by decide, by decide,
   deliver_on_closed_queue_panics sampleEnv
     { sampleLogger with records := { sampleLogger.records with closed := true } }
     ERROR "x".toList [] (by decide) (by decide)⟩

/-- C7: when the sink's `Init` returns an error, `Register` panics with that
error and the logger, its sink list included, is unchanged; when `Init`
succeeds, the sink list afterwards is the previous list followed by the sink
(in the state `Init` left it in) and the call does not panic. -/
theorem register_appends_or_panics {σ : Type} (l : Logger σ) (w : Writer σ) :
    (∀ err, (w.impl.Init w.self).2 = some err →
      (l.Register w).panic = some err ∧ (l.Register w).logger = l) ∧
    ((w.impl.Init w.self).2 = none →
      (l.Register w).panic = none ∧
      (l.Register w).logger.writers
        = l.writers ++ [{ impl := w.impl, self := (w.impl.Init w.self).1 }]) := by
  constructor
  · intro err h
    simp [Logger.Register, h]
  · intro h
    simp [Logger.Register, h]

theorem register_appends_or_panics_witness :
    ((brokenSink.Init 0).2 = some "init failed".toList ∧
      (sampleLogger.Register { impl := brokenSink, self := 0 }).panic = some "init failed".toList ∧
      (sampleLogger.Register { impl := brokenSink, self := 0 }).logger = sampleLogger) ∧
    (((countingSink false true).Init 0).2 = none ∧
      (sampleLogger.Register { impl := countingSink false true, self := 0 }).panic = none ∧
      (sampleLogger.Register { impl := countingSink false true, self := 0 }).logger.writers
        = sampleLogger.writers ++ [{ impl := countingSink false true, self := 1 }]) :=
  ⟨⟨by decide,
    (register_appends_or_panics sampleLogger { impl := brokenSink, self := 0 }).1
      "init failed".toList (by decide)⟩,
   ⟨by decide,
    (register_appends_or_panics sampleLogger { impl := countingSink false true, self := 0 }).2
      (by decide)⟩⟩

/-- C8 (as stated): in the template `app.log` every `%` is followed by a
placeholder letter (it has none), and a sink that was never initialised
compiles it without error; yet `Init` resolves no path for it, although the
template with its placeholders replaced is `app.log` itself. -/
theorem plain_template_resolves_no_path :
    eachPercentFollowed "app.log".toList = true ∧
    (NewFileWriter.SetPathPattern "app.log".toList).2 = none ∧
    expandTemplate (Date 2024 3 7 9 5 0 0 0) "app.log".toList = "app.log".toList ∧
    resolvedPath ((NewFileWriter.SetPathPattern "app.log".toList).1.Init okEnv
        (Date 2024 3 7 9 5 0 0 0)) = none ∧
    resolvedPath ((NewFileWriter.SetPathPattern "app.log".toList).1.Init okEnv
        (Date 2024 3 7 9 5 0 0 0))
      ≠ some (expandTemplate (Date 2024 3 7 9 5 0 0 0) "app.log".toList) := by
  refine ⟨by decide, by decide, by decide, ?_, ?_⟩
  · decide
  · decide

/-- C8 (amended): for a file sink that was never initialised, a template that
contains at least one placeholder and in which every `%` is followed by one of
Y, M, D, H, m, and an instant `t`: `SetPathPattern` returns no error and,
whatever the operating-system calls return, the path resolved by `Init` at `t`
is the template with `%Y` replaced by the unpadded decimal year and `%M`,
`%D`, `%H`, `%m` by month, day, hour and minute zero-padded to two digits,
every other character unchanged. -/
theorem first_rotation_resolves_template (w0 : FileWriter) (p : Str) (t : Time) (env : FileEnv)
    (hfresh : w0.Fresh) (hv : eachPercentFollowed p = true) (hpc : '%' ∈ p) :
    (w0.SetPathPattern p).2 = none ∧
    resolvedPath ((w0.SetPathPattern p).1.Init env t) = some (expandTemplate t p) := by
  constructor
  · rw [setPathPattern_valid w0 p hv hpc]
  · obtain ⟨_, _, f3, f4, f5, f6, f7⟩ := hfresh
    rw [setPathPattern_valid w0 p hv hpc]
    obtain ⟨wx, e, a1, a2, a3, a4, a5, a6, a7, _⟩ := init_default_perm env t
      { w0 with actions := extractorsOf p,
                vars := List.replicate (extractorsOf p).length none,
                pathFmt := formatOf p } f7
    rw [e]
    apply rotate_first env t wx _ (a4.trans f3) (a5.trans f4) (a6.trans f5) (a7.trans f6)
    · rw [a1]
      exact extractorsOf_ne_nil p hv hpc
    · rw [a2, a1]
    · rw [a3, a1]
      exact sprintf_formatOf t p hv

theorem first_rotation_resolves_template_witness :
    NewFileWriter.Fresh ∧ eachPercentFollowed "log/app-%Y%M%D.log".toList = true ∧
    '%' ∈ "log/app-%Y%M%D.log".toList ∧
    (NewFileWriter.SetPathPattern "log/app-%Y%M%D.log".toList).2 = none ∧
    resolvedPath ((NewFileWriter.SetPathPattern "log/app-%Y%M%D.log".toList).1.Init okEnv
        (Date 2024 3 7 9 5 0 0 0))
      = some (expandTemplate (Date 2024 3 7 9 5 0 0 0) "log/app-%Y%M%D.log".toList) :=
  ⟨⟨rfl, rfl, rfl, rfl, rfl, rfl, rfl⟩, by decide, by decide,
   first_rotation_resolves_template NewFileWriter "log/app-%Y%M%D.log".toList
     (Date 2024 3 7 9 5 0 0 0) okEnv ⟨rfl, rfl, rfl, rfl, rfl, rfl, rfl⟩ (by decide) (by decide)⟩

/-- C9 (as stated): compiled and evaluated at 2024-03-07 09:05, the template
`test-%Y%M%D%H%m.log` does not resolve to `test-20240307-0905.log`. -/
theorem template_example_not_hyphenated :
    resolvedPath ((NewFileWriter.SetPathPattern "test-%Y%M%D%H%m.log".toList).1.Init okEnv
        (Date 2024 3 7 9 5 0 0 0))
      ≠ some "test-20240307-0905.log".toList := by
  decide

/-- C9 (amended): for a file sink that was never initialised and every instant
whose calendar reading is 2024-03-07 09:05, whatever the operating-system
calls return, the template `test-%Y%M%D%H%m.log` resolves to
`test-202403070905.log`: the placeholders are replaced in place and nothing is
inserted between them. -/
theorem template_example_resolves (w0 : FileWriter) (t : Time) (env : FileEnv)
    (hfresh : w0.Fresh) (hY : t.Year = 2024) (hM : t.Month = 3) (hD : t.Day = 7)
    (hH : t.Hour = 9) (hm : t.Minute = 5) :
    resolvedPath ((w0.SetPathPattern "test-%Y%M%D%H%m.log".toList).1.Init env t)
      = some "test-202403070905.log".toList := by
  have h := init_resolves_placeholders w0 "test-%Y%M%D%H%m.log".toList t env hfresh
    (by decide) (by decide)
  rw [h]
  simp only [String.toList, expandTemplate, placeholderText, hY, hM, hD, hH, hm]
  decide

theorem template_example_resolves_witness :
    NewFileWriter.Fresh ∧ (Date 2024 3 7 9 5 30 0 28800).Year = 2024 ∧
    (Date 2024 3 7 9 5 30 0 28800).Month = 3 ∧ (Date 2024 3 7 9 5 30 0 28800).Day = 7 ∧
    (Date 2024 3 7 9 5 30 0 28800).Hour = 9 ∧ (Date 2024 3 7 9 5 30 0 28800).Minute = 5 ∧
    resolvedPath ((NewFileWriter.SetPathPattern "test-%Y%M%D%H%m.log".toList).1.Init okEnv
        (Date 2024 3 7 9 5 30 0 28800))
      = some "test-202403070905.log".toList :=
  ⟨⟨rfl, rfl, rfl, rfl, rfl, rfl, rfl⟩, by decide, by decide, by decide, by decide, by decide,
   template_example_resolves NewFileWriter (Date 2024 3 7 9 5 30 0 28800) okEnv
     ⟨rfl, rfl, rfl, rfl, rfl, rfl, rfl⟩ (by decide) (by decide) (by decide) (by decide)
     (by decide)⟩

/-- C10: `SetPathPattern` returns an error exactly when somewhere in the
template a `%` is followed by a character other than Y, M, D, H, m (a `%` that
ends the template has no following character and raises no error); the error
is "invalid rotate pattern (" followed by the template and ")". In
particular a template without `%`, and a template in which every `%` is
followed by one of the five letters, compiles without error. -/
theorem setPathPattern_error_iff (w : FileWriter) (p : Str) :
    ((w.SetPathPattern p).2 ≠ none ↔
      ∃ (pre : Str) (c : Char) (post : Str),
        p = pre ++ '%' :: c :: post ∧ isPlaceholder c = false) ∧
    (∀ e, (w.SetPathPattern p).2 = some e →
      e = "invalid rotate pattern (".toList ++ p ++ ")".toList) ∧
    ('%' ∉ p → (w.SetPathPattern p).2 = none) ∧
    (eachPercentFollowed p = true → (w.SetPathPattern p).2 = none) := by
  have key : (w.SetPathPattern p).2 ≠ none ↔ hasUnknownToken p := by
    unfold FileWriter.SetPathPattern
    by_cases hn : p.count '%' = 0
    · simp only [hn, if_true, ne_eq, not_true_eq_false, false_iff]
      intro h
      exact (List.count_eq_zero.mp hn) (hasUnknownToken_mem p h)
    · simp only [hn, if_false]
      rw [← (compileActions_fails_iff p []).1]
      cases (compileActions p false []).2 <;> simp
  refine ⟨key, ?_, ?_, ?_⟩
  · intro e he
    unfold FileWriter.SetPathPattern at he
    by_cases hn : p.count '%' = 0
    · simp [hn] at he
    · simp only [hn, if_false] at he
      cases h2 : (compileActions p false []).2
      · simp only [h2, Bool.false_eq_true, if_false, Option.some.injEq] at he
        exact he.symm
      · simp [h2] at he
  · intro hpc
    by_contra h
    exact hpc (hasUnknownToken_mem p (key.mp h))
  · intro hv
    by_contra h
    exact valid_no_unknown p hv (key.mp h)

theorem setPathPattern_error_iff_witness :
    '%' ∉ "app.log".toList ∧ (NewFileWriter.SetPathPattern "app.log".toList).2 = none ∧
    eachPercentFollowed "app-%Y%M.log".toList = true ∧
    (NewFileWriter.SetPathPattern "app-%Y%M.log".toList).2 = none ∧
    (NewFileWriter.SetPathPattern "app-%Y%d.log".toList).2
      = some "invalid rotate pattern (app-%Y%d.log)".toList ∧
    "invalid rotate pattern (app-%Y%d.log)".toList
      = "invalid rotate pattern (".toList ++ "app-%Y%d.log".toList ++ ")".toList :=
  ⟨by decide,
   (setPathPattern_error_iff NewFileWriter "app.log".toList).2.2.1 (by decide),
   by decide,
   (setPathPattern_error_iff NewFileWriter "app-%Y%M.log".toList).2.2.2 (by decide),
   by decide,
   (setPathPattern_error_iff NewFileWriter "app-%Y%d.log".toList).2.1
     "invalid rotate pattern (app-%Y%d.log)".toList (by decide)⟩

/-- C11 (code check): for options whose Filename has a `%` followed by a
character that is not a placeholder letter, `SetPathPattern` reports the
error, yet `NewFileWriterWithOptions` returns the writer and, when directories
and files can be created, `Init` of that writer returns nil instead of an
error. When no placeholder precedes the unknown token `Init` makes no
operating-system call; otherwise it opens a file, whose name is formatted from
the empty format left in `pathFmt`. -/
theorem unknown_token_init_returns_nil (o : FileWriterOptions) (env : FileEnv) (t : Time)
    (h : hasUnknownToken o.Filename)
    (hmk : ∀ path perm, env.mkdirAll path perm = none)
    (hop : ∀ path perm, env.openFile path perm = none) :
    (NewFileWriter.SetPathPattern o.Filename).2
      = some ("invalid rotate pattern (".toList ++ o.Filename ++ ")".toList) ∧
    ∃ r, (NewFileWriterWithOptions o).Init env t = .ok r ∧ r.err = none ∧
      ((NewFileWriterWithOptions o).actions = [] → r.ops = [] ∧ r.w.file = none) ∧
      ((NewFileWriterWithOptions o).actions ≠ [] →
        ∃ path, r.ops = [.mkdirAll path 493, .openFile path 493] ∧
          r.w.file = some { name := path } ∧
          r.w.fileBufWriter = some (NewWriterSize { name := path })) := by
  constructor
  · have hn : o.Filename.count '%' ≠ 0 := by
      have := List.count_pos_iff.mpr (hasUnknownToken_mem _ h)
      omega
    have hfail : (compileActions o.Filename false []).2 = false :=
      ((compileActions_fails_iff o.Filename []).1).mpr h
    unfold FileWriter.SetPathPattern
    simp only [hn, if_false, hfail, Bool.false_eq_true]
  · obtain ⟨extra, e2, e3, e4, e5, e6, e7, e8⟩ := newFileWriter_unknown_token o h
    generalize NewFileWriterWithOptions o = w at e2 e3 e4 e5 e6 e7 e8 ⊢
    have hparse : ParseInt8 w.named.perm = .ok 493 := by
      rw [named_perm, e4]
      rfl
    obtain ⟨p1, _, p3, p4, p5, p6, p7, p8, p9, _⟩ := prepared_frame w 493
    have hp1 : (493 % 4294967296 : Int).toNat = 493 := by decide
    rw [init_parsed env t w 493 hparse]
    by_cases hacts : w.actions = []
    · refine ⟨{ w := w.prepared 493, err := none, filePath := none, ops := [] }, ?_, rfl,
        fun _ => ⟨rfl, p8.trans e7⟩, fun hne => absurd hacts hne⟩
      unfold FileWriter.Rotate
      rw [p3.trans hacts]
      simp [rotateLoop]
    · have hpath : Sprintf (w.prepared 493).pathFmt
          (((w.prepared 493).actions.map (fun a : Time → Int => some (a t)) ++ extra).map toArg)
            = some (extraArgs
              (((w.prepared 493).actions.map (fun a : Time → Int => some (a t)) ++ extra).map
                toArg)) := by
        rw [p5, e3]
        rfl
      obtain ⟨r, hr, hcut, _⟩ := rotate_first_state env t (w.prepared 493) _ extra
        (p6.trans e5) (p7.trans e6) (by rw [p3]; exact hacts) (by rw [p4, e2, p3]) hpath
      obtain ⟨r', hr', c1, _, c3, c4, c5, _⟩ := cutOver_fresh env t
        { w.prepared 493 with
            vars := (w.prepared 493).actions.map (fun a : Time → Int => some (a t)) ++ extra }
        _ (p8.trans e7) (p9.trans e8) hpath (hmk _ _) (hop _ _)
      rw [hcut, Except.ok.injEq] at hr'
      subst hr'
      refine ⟨r, hr, c1, fun hnil => absurd hnil hacts, fun _ => ⟨_, ?_, c4, c5⟩⟩
      rw [c3]
      show [FileOp.mkdirAll _ (w.prepared 493).rotatePerm,
        FileOp.openFile _ (w.prepared 493).rotatePerm] = _
      rw [p1, hp1]

theorem unknown_token_init_returns_nil_witness :
    hasUnknownToken ({ Filename := "app-%Y%d.log".toList } : FileWriterOptions).Filename ∧
    (NewFileWriter.SetPathPattern
        ({ Filename := "app-%Y%d.log".toList } : FileWriterOptions).Filename).2
      = some ("invalid rotate pattern (".toList
          ++ ({ Filename := "app-%Y%d.log".toList } : FileWriterOptions).Filename
          ++ ")".toList) ∧
    resolvedPath ((NewFileWriterWithOptions { Filename := "app-%Y%d.log".toList }).Init okEnv
        (Date 2024 3 7 9 5 0 0 0)) = some "%!(EXTRA int=2024, <nil>)".toList ∧
    ∃ r, (NewFileWriterWithOptions { Filename := "app-%Y%d.log".toList }).Init okEnv
        (Date 2024 3 7 9 5 0 0 0) = .ok r ∧ r.err = none ∧
      ((NewFileWriterWithOptions { Filename := "app-%Y%d.log".toList }).actions = [] →
        r.ops = [] ∧ r.w.file = none) ∧
      ((NewFileWriterWithOptions { Filename := "app-%Y%d.log".toList }).actions ≠ [] →
        ∃ path, r.ops = [.mkdirAll path 493, .openFile path 493] ∧
          r.w.file = some { name := path } ∧
          r.w.fileBufWriter = some (NewWriterSize { name := path })) :=
  ⟨⟨"app-%Y".toList, 'd', ".log".toList, rfl, by decide⟩,
   (unknown_token_init_returns_nil { Filename := "app-%Y%d.log".toList } okEnv
      (Date 2024 3 7 9 5 0 0 0) ⟨"app-%Y".toList, 'd', ".log".toList, rfl, by decide⟩
      (fun _ _ => rfl) (fun _ _ => rfl)).1,
   by decide,
   (unknown_token_init_returns_nil { Filename := "app-%Y%d.log".toList } okEnv
      (Date 2024 3 7 9 5 0 0 0) ⟨"app-%Y".toList, 'd', ".log".toList, rfl, by decide⟩
      (fun _ _ => rfl) (fun _ _ => rfl)).2⟩

/-- C12: `Init` with an empty permission string goes on with the string `0755`
and the permission 0755 (493). With a non-empty permission string that
`strconv.ParseInt(perm, 8, 64)` rejects, as it does every string holding a
character other than an octal digit or a sign, `Init` returns that error
before `Rotate` is called: no operating-system call is made and file, buffered
writer, cached values, the initialised flag and the time of the last write are
as before. With a string that parses to `v`, `Init` calls `Rotate` on a writer
whose permission is `v` as a 32-bit `os.FileMode` (`v` itself when it fits),
and every directory and file that call creates gets this permission. -/
theorem init_uses_permission (env : FileEnv) (now : Time) (w : FileWriter) :
    (w.perm = [] →
      ∃ wx : FileWriter, w.Init env now = wx.Rotate env now ∧ wx.perm = "0755".toList ∧
        wx.rotatePerm = 493 ∧
        ∀ r, w.Init env now = .ok r → ∀ m ∈ permsOf r.ops, m = 493) ∧
    (∀ c ∈ w.perm, ¬ ('0' ≤ c ∧ c ≤ '7') → c ≠ '+' → c ≠ '-' →
      ∃ e, ParseInt8 w.perm = .error e) ∧
    (∀ e, w.perm ≠ [] → ParseInt8 w.perm = .error e →
      ∃ r, w.Init env now = .ok r ∧ r.err = some e ∧ r.ops = [] ∧ r.filePath = none ∧
        r.w.file = w.file ∧ r.w.fileBufWriter = w.fileBufWriter ∧ r.w.vars = w.vars ∧
        r.w.initFileOk = w.initFileOk ∧ r.w.lastWriteTime = w.lastWriteTime) ∧
    (∀ v, w.perm ≠ [] → ParseInt8 w.perm = .ok v →
      ∃ wx : FileWriter, w.Init env now = wx.Rotate env now ∧ wx.perm = w.perm ∧
        wx.rotatePerm = (v % 4294967296).toNat ∧
        (0 ≤ v → v < 4294967296 → (wx.rotatePerm : Int) = v) ∧
        ∀ r, w.Init env now = .ok r → ∀ m ∈ permsOf r.ops, m = (v % 4294967296).toNat) := by
  refine ⟨?_, ?_, ?_, ?_⟩
  · intro hp
    have hparse : ParseInt8 w.named.perm = .ok 493 := by
      rw [named_perm, hp]
      rfl
    obtain ⟨p1, p2, _⟩ := prepared_frame w 493
    have hi := init_parsed env now w 493 hparse
    refine ⟨w.prepared 493, hi, ?_, p1, ?_⟩
    · rw [p2, hp]
      rfl
    · intro r hr m hm
      rw [hi] at hr
      rw [rotate_perms env now _ r hr m hm, p1]
      rfl
  · intro c hmem hc hplus hminus
    exact parseInt8_rejects w.perm c hmem hc hplus hminus
  · intro e hne hparse
    have hparse1 : ParseInt8 w.named.perm = .error e := by
      rw [named_perm, if_neg hne]
      exact hparse
    obtain ⟨_, n2, n3, _, n5, n6, _, n8, _⟩ := named_frame w
    exact ⟨_, init_parse_fails env now w e hparse1, rfl, rfl, rfl, n5, n6, n2, n3, n8⟩
  · intro v hne hparse
    have hparse1 : ParseInt8 w.named.perm = .ok v := by
      rw [named_perm, if_neg hne]
      exact hparse
    obtain ⟨p1, p2, _⟩ := prepared_frame w v
    have hi := init_parsed env now w v hparse1
    refine ⟨w.prepared v, hi, ?_, p1, ?_, ?_⟩
    · rw [p2, if_neg hne]
    · intro h0 h1
      rw [p1]
      omega
    · intro r hr m hm
      rw [hi] at hr
      rw [rotate_perms env now _ r hr m hm, p1]

theorem init_uses_permission_witness :
    (NewFileWriter.perm = [] ∧
      ∃ wx : FileWriter, NewFileWriter.Init okEnv (Date 2024 3 7 9 5 0 0 0)
          = wx.Rotate okEnv (Date 2024 3 7 9 5 0 0 0) ∧ wx.perm = "0755".toList ∧
        wx.rotatePerm = 493 ∧
        ∀ r, NewFileWriter.Init okEnv (Date 2024 3 7 9 5 0 0 0) = .ok r →
          ∀ m ∈ permsOf r.ops, m = 493) ∧
    ('9' ∈ "0999".toList ∧ ¬ ('0' ≤ '9' ∧ '9' ≤ '7') ∧
      ∃ e, ParseInt8 ({ dailySink with perm := "0999".toList } : FileWriter).perm = .error e) ∧
    (ParseInt8 "0999".toList
        = .error "strconv.ParseInt: parsing \"0999\": invalid syntax".toList ∧
      ∃ r, ({ dailySink with perm := "0999".toList } : FileWriter).Init okEnv
          (Date 2024 3 8 9 5 0 0 0) = .ok r ∧
        r.err = some "strconv.ParseInt: parsing \"0999\": invalid syntax".toList ∧
        r.ops = [] ∧ r.filePath = none ∧ r.w.file = dailySink.file ∧
        r.w.fileBufWriter = dailySink.fileBufWriter ∧ r.w.vars = dailySink.vars ∧
        r.w.initFileOk = dailySink.initFileOk ∧
        r.w.lastWriteTime = dailySink.lastWriteTime) ∧
    (ParseInt8 "0644".toList = .ok 420 ∧
      ∃ wx : FileWriter,
        ({ NewFileWriter with perm := "0644".toList } : FileWriter).Init okEnv
            (Date 2024 3 7 9 5 0 0 0) = wx.Rotate okEnv (Date 2024 3 7 9 5 0 0 0) ∧
        wx.perm = "0644".toList ∧ wx.rotatePerm = ((420 : Int) % 4294967296).toNat ∧
        ((0 : Int) ≤ 420 → (420 : Int) < 4294967296 → (wx.rotatePerm : Int) = 420) ∧
        ∀ r, ({ NewFileWriter with perm := "0644".toList } : FileWriter).Init okEnv
            (Date 2024 3 7 9 5 0 0 0) = .ok r →
          ∀ m ∈ permsOf r.ops, m = ((420 : Int) % 4294967296).toNat) :=
  ⟨⟨rfl, (init_uses_permission okEnv (Date 2024 3 7 9 5 0 0 0) NewFileWriter).1 rfl⟩,
   ⟨by decide, by decide,
    (init_uses_permission okEnv (Date 2024 3 8 9 5 0 0 0)
      { dailySink with perm := "0999".toList }).2.1 '9' (by decide) (by decide) (by decide)
      (by decide)⟩,
   ⟨rfl,
    (init_uses_permission okEnv (Date 2024 3 8 9 5 0 0 0)
      { dailySink with perm := "0999".toList }).2.2.1 _ (by decide) rfl⟩,
   ⟨rfl,
    (init_uses_permission okEnv (Date 2024 3 7 9 5 0 0 0)
      { NewFileWriter with perm := "0644".toList }).2.2.2 420 (by decide) rfl⟩⟩

/-- C13 (code check): for a file sink that was never initialised, whatever its
rotate, daily, hourly and minutely flags. When the template has no `%` (the
empty template included) it compiles without error and the first `Init`
returns nil without a single operating-system call: no file is open, no
buffered writer is installed and the writer is still not initialised. When the
template has placeholders, each after its `%`, and the directory and the file
can be created, the first `Init` opens the file named by the expanded template
and installs a new buffered writer around it. -/
theorem first_init_opens_only_with_placeholders (w0 : FileWriter) (p : Str) (t : Time)
    (env : FileEnv) (hfresh : w0.Fresh) :
    ('%' ∉ p →
      (w0.SetPathPattern p).2 = none ∧
      ∃ r, (w0.SetPathPattern p).1.Init env t = .ok r ∧ r.err = none ∧ r.ops = [] ∧
        r.w.file = none ∧ r.w.fileBufWriter = none ∧ r.w.initFileOk = false) ∧
    (eachPercentFollowed p = true → '%' ∈ p →
      env.mkdirAll (expandTemplate t p) 493 = none →
      env.openFile (expandTemplate t p) 493 = none →
      (w0.SetPathPattern p).2 = none ∧
      ∃ r, (w0.SetPathPattern p).1.Init env t = .ok r ∧ r.err = none ∧
        r.ops = [.mkdirAll (expandTemplate t p) 493, .openFile (expandTemplate t p) 493] ∧
        r.w.file = some { name := expandTemplate t p } ∧
        r.w.fileBufWriter = some (NewWriterSize { name := expandTemplate t p }) ∧
        r.w.initFileOk = true) := by
  constructor
  · intro hpc
    refine ⟨by rw [setPathPattern_plain w0 p hpc], ?_⟩
    obtain ⟨r, hr, a1, _, a3, a4, a5, a6, _⟩ := init_first_plain w0 p t env hfresh hpc
    exact ⟨r, hr, a1, a3, a4, a5, a6⟩
  · intro hv hpc hmk hop
    refine ⟨by rw [setPathPattern_valid w0 p hv hpc], ?_⟩
    obtain ⟨r, hr, _, _, a3, _, _, _, _, _, hopen⟩ := init_first_valid w0 p t env hfresh hv hpc
    obtain ⟨b1, b2, b3, b4⟩ := hopen hmk hop
    exact ⟨r, hr, b1, b2, b3, b4, a3⟩

theorem first_init_opens_only_with_placeholders_witness :
    ({ rotate := true, daily := true } : FileWriter).Fresh ∧
    ('%' ∉ "app.log".toList ∧
      ((({ rotate := true, daily := true } : FileWriter).SetPathPattern "app.log".toList).2 = none ∧
      ∃ r, (({ rotate := true, daily := true } : FileWriter).SetPathPattern
            "app.log".toList).1.Init okEnv (Date 2024 3 7 9 5 0 0 0) = .ok r ∧
        r.err = none ∧ r.ops = [] ∧ r.w.file = none ∧ r.w.fileBufWriter = none ∧
        r.w.initFileOk = false)) ∧
    ('%' ∉ ([] : Str) ∧
      ((({ rotate := true, daily := true } : FileWriter).SetPathPattern []).2 = none ∧
      ∃ r, (({ rotate := true, daily := true } : FileWriter).SetPathPattern []).1.Init okEnv
            (Date 2024 3 7 9 5 0 0 0) = .ok r ∧
        r.err = none ∧ r.ops = [] ∧ r.w.file = none ∧ r.w.fileBufWriter = none ∧
        r.w.initFileOk = false)) ∧
    (eachPercentFollowed "app-%D.log".toList = true ∧ '%' ∈ "app-%D.log".toList ∧
      expandTemplate (Date 2024 3 7 9 5 0 0 0) "app-%D.log".toList = "app-07.log".toList ∧
      ((({ rotate := true, daily := true } : FileWriter).SetPathPattern
          "app-%D.log".toList).2 = none ∧
      ∃ r, (({ rotate := true, daily := true } : FileWriter).SetPathPattern
            "app-%D.log".toList).1.Init okEnv (Date 2024 3 7 9 5 0 0 0) = .ok r ∧
        r.err = none ∧
        r.ops = [.mkdirAll (expandTemplate (Date 2024 3 7 9 5 0 0 0) "app-%D.log".toList) 493,
                 .openFile (expandTemplate (Date 2024 3 7 9 5 0 0 0) "app-%D.log".toList) 493] ∧
        r.w.file
          = some { name := expandTemplate (Date 2024 3 7 9 5 0 0 0) "app-%D.log".toList } ∧
        r.w.fileBufWriter = some (NewWriterSize
          { name := expandTemplate (Date 2024 3 7 9 5 0 0 0) "app-%D.log".toList }) ∧
        r.w.initFileOk = true)) :=
  ⟨⟨rfl, rfl, rfl, rfl, rfl, rfl, rfl⟩,
   ⟨by decide,
    (first_init_opens_only_with_placeholders { rotate := true, daily := true } "app.log".toList
      (Date 2024 3 7 9 5 0 0 0) okEnv ⟨rfl, rfl, rfl, rfl, rfl, rfl, rfl⟩).1 (by decide)⟩,
   ⟨by decide,
    (first_init_opens_only_with_placeholders { rotate := true, daily := true } []
      (Date 2024 3 7 9 5 0 0 0) okEnv ⟨rfl, rfl, rfl, rfl, rfl, rfl, rfl⟩).1 (by decide)⟩,
   ⟨by decide, by decide, by decide,
    (first_init_opens_only_with_placeholders { rotate := true, daily := true }
      "app-%D.log".toList (Date 2024 3 7 9 5 0 0 0) okEnv
      ⟨rfl, rfl, rfl, rfl, rfl, rfl, rfl⟩).2 (by decide) (by decide) rfl rfl⟩⟩

/-- C14: on an initialised writer whose extractors are, in order, year, month,
day, hour and minute, with cached values `c0 .. c4`, the loop of `Rotate` at
instant `now` ends and raises `rotate` if and only if the day flag is set, the
day of `now` differs from the cached day and equals the day of the month of
`lastWriteTime` advanced by `maxDays` days, or the same holds of the hour with
the hourly flag and `maxHours` hours, or of the minute with the minutely flag
and `maxMinutes` minutes. The year and the month do not occur in the condition,
and a component whose flag is off contributes nothing. The advance by hours and
minutes is a `time.Duration`; it is the exact product whenever that fits 64
bits. -/
theorem rotate_triggers_iff (now : Time) (w : FileWriter) (c0 c1 c2 c3 c4 : Option Int)
    (hinit : w.initFileOk = true)
    (hacts : w.actions = [getYear, getMonth, getDay, getHour, getMin])
    (hvars : w.vars = [c0, c1, c2, c3, c4]) :
    (∃ b : Bool, rotationTriggered now w = some b ∧
      (b = true ↔
        (w.daily = true ∧ c2 ≠ some now.Day ∧
          now.Day = (w.lastWriteTime.AddDate 0 0 w.maxDays).Day) ∨
        (w.hourly = true ∧ c3 ≠ some now.Hour ∧
          now.Hour = (w.lastWriteTime.Add (wrapInt64 (durHour * w.maxHours))).Hour) ∨
        (w.minutely = true ∧ c4 ≠ some now.Minute ∧
          now.Minute = (w.lastWriteTime.Add (wrapInt64 (durMinute * w.maxMinutes))).Minute))) ∧
    (-2562047 ≤ w.maxHours → w.maxHours ≤ 2562047 →
      wrapInt64 (durHour * w.maxHours) = 3600000000000 * w.maxHours) ∧
    (-153722867 ≤ w.maxMinutes → w.maxMinutes ≤ 153722867 →
      wrapInt64 (durMinute * w.maxMinutes) = 60000000000 * w.maxMinutes) := by
  refine ⟨⟨anyFires now w w.actions 0, ?_, ?_⟩, ?_, ?_⟩
  · exact rotationTriggered_initialised now w hinit (by rw [hacts, hvars]; simp)
  · have g2 : w.vars.get? 2 = some c2 := by rw [hvars]; rfl
    have g3 : w.vars.get? 3 = some c3 := by rw [hvars]; rfl
    have g4 : w.vars.get? 4 = some c4 := by rw [hvars]; rfl
    rw [hacts]
    simp only [anyFires, Nat.reduceAdd, zero_add, Bool.or_false, Bool.or_eq_true,
      fires_other now w 0 getYear (by decide) (by decide) (by decide),
      fires_other now w 1 getMonth (by decide) (by decide) (by decide),
      fires_day now w getDay c2 g2, fires_hour now w getHour c3 g3,
      fires_minute now w getMin c4 g4, Bool.false_eq_true, false_or]
    rfl
  · intro h1 h2
    simp only [durHour, wrapInt64]
    omega
  · intro h1 h2
    simp only [durMinute, wrapInt64]
    omega

theorem rotate_triggers_iff_witness :
    dailySink.initFileOk = true ∧
    dailySink.actions = [getYear, getMonth, getDay, getHour, getMin] ∧
    dailySink.vars = [some 2024, some 3, some 7, some 9, some 5] ∧
    rotationTriggered (Date 2024 3 8 0 0 0 0 0) dailySink = some true ∧
    rotationTriggered (Date 2024 4 7 9 5 0 0 0) dailySink = some false ∧
    ∃ b : Bool, rotationTriggered (Date 2024 3 8 0 0 0 0 0) dailySink = some b ∧
      (b = true ↔
        (dailySink.daily = true ∧ some 7 ≠ some (Date 2024 3 8 0 0 0 0 0).Day ∧
          (Date 2024 3 8 0 0 0 0 0).Day
            = (dailySink.lastWriteTime.AddDate 0 0 dailySink.maxDays).Day) ∨
        (dailySink.hourly = true ∧ some 9 ≠ some (Date 2024 3 8 0 0 0 0 0).Hour ∧
          (Date 2024 3 8 0 0 0 0 0).Hour
            = (dailySink.lastWriteTime.Add (wrapInt64 (durHour * dailySink.maxHours))).Hour) ∨
        (dailySink.minutely = true ∧ some 5 ≠ some (Date 2024 3 8 0 0 0 0 0).Minute ∧
          (Date 2024 3 8 0 0 0 0 0).Minute
            = (dailySink.lastWriteTime.Add
                (wrapInt64 (durMinute * dailySink.maxMinutes))).Minute)) :=
  ⟨rfl, rfl, rfl, by decide, by decide,
   (rotate_triggers_iff (Date 2024 3 8 0 0 0 0 0) dailySink (some 2024) (some 3) (some 7)
      (some 9) (some 5) rfl rfl rfl).1⟩

/-- C15 (as stated): a sink with the template `log-%Y%M%D.log`, daily rotation
on and `maxDays` 1, evaluated again 25 hours after its initialisation, does
not trigger a rotation in two situations. Initialised at 2024-03-07 23:30 with
a fixed offset: 25 hours later it is 00:30 on 2024-03-09, the day of the month
is 9 and the day after the last write is the 8th. Initialised at 2024-03-09
22:30 at five hours west of UTC, with the clock of the location put forward by
an hour in the following night: 25 hours later it is 00:30 on 2024-03-11 at
four hours west, the day of the month is 11 and the day after the last write
is the 10th. -/
theorem twenty_five_hours_apart_no_rotation :
    dailyOptions.Daily = true ∧ dailyOptions.MaxDays = 1 ∧
    ((initialisedSink dailyOptions (Date 2024 3 7 23 30 0 0 0)).fileBufWriter
        = some (NewWriterSize { name := "log-20240307.log".toList }) ∧
      (Date 2024 3 9 0 30 0 0 0).unixNano
        = (Date 2024 3 7 23 30 0 0 0).unixNano + 25 * durHour ∧
      dayBoundary (initialisedSink dailyOptions (Date 2024 3 7 23 30 0 0 0)) = 8 ∧
      rotationTriggered (Date 2024 3 9 0 30 0 0 0)
        (initialisedSink dailyOptions (Date 2024 3 7 23 30 0 0 0)) = some false ∧
      resolvedPath ((initialisedSink dailyOptions (Date 2024 3 7 23 30 0 0 0)).Rotate okEnv
        (Date 2024 3 9 0 30 0 0 0)) = none) ∧
    ((initialisedSink dailyOptions (Date 2024 3 9 22 30 0 0 (-18000))).fileBufWriter
        = some (NewWriterSize { name := "log-20240309.log".toList }) ∧
      (Date 2024 3 9 22 30 0 0 (-18000)).Hour < 23 ∧
      (Date 2024 3 11 0 30 0 0 (-14400)).unixNano
        = (Date 2024 3 9 22 30 0 0 (-18000)).unixNano + 25 * durHour ∧
      dayBoundary (initialisedSink dailyOptions (Date 2024 3 9 22 30 0 0 (-18000))) = 10 ∧
      rotationTriggered (Date 2024 3 11 0 30 0 0 (-14400))
        (initialisedSink dailyOptions (Date 2024 3 9 22 30 0 0 (-18000))) = some false ∧
      resolvedPath ((initialisedSink dailyOptions (Date 2024 3 9 22 30 0 0 (-18000))).Rotate
        okEnv (Date 2024 3 11 0 30 0 0 (-14400))) = none) := by
  refine ⟨rfl, rfl, ⟨?_, ?_, ?_, ?_, ?_⟩, ⟨?_, ?_, ?_, ?_, ?_, ?_⟩⟩ <;> decide

/-- C15 (amended): for options with a valid template whose third placeholder
is the day, daily rotation on and `maxDays` 1, an instant `t` before 23
o'clock and the instant `t2` that is 25 hours after `t` and at which the
location has the same offset as at `t`, so that `t2` is on the calendar day
after `t`: `Init` at `t` returns, whatever the operating system answers, and
`Rotate` evaluated at `t2` triggers a rotation. -/
theorem twenty_five_hours_apart_rotates (o : FileWriterOptions) (env : FileEnv) (t t2 : Time)
    (hv : eachPercentFollowed o.Filename = true)
    (hthird : (placeholdersOf o.Filename).get? 2 = some 'D')
    (hd : o.Daily = true) (hmax : o.MaxDays = 1) (hhour : t.Hour < 23)
    (hlater : t2.unixNano = t.unixNano + 25 * durHour) (hzone : t2.offset = t.offset) :
    ∃ r, (NewFileWriterWithOptions o).Init env t = .ok r ∧
      rotationTriggered t2 r.w = some true := by
  have hne : placeholdersOf o.Filename ≠ [] := by
    intro h
    rw [h] at hthird
    simp at hthird
  obtain ⟨r, hr, a1, a2, a3, a4, a5, _, _, a8⟩ := init_options_state o env t hv hne
  have hmaxr : r.w.maxDays = 1 := (a8 (by rw [hmax]; decide)).trans hmax
  refine ⟨r, hr, ?_⟩
  rw [rotationTriggered_initialised _ r.w a3 (by rw [a1, a2]; simp)]
  congr 1
  have hact : r.w.actions.get? 2 = some getDay := by
    rw [a1, List.get?_eq_getElem?, List.getElem?_map, ← List.get?_eq_getElem?, hthird]
    rfl
  have hvar : r.w.vars.get? 2 = some (some t.Day) := by
    rw [a2, List.get?_eq_getElem?, List.getElem?_map, ← List.get?_eq_getElem?, hthird]
    rfl
  have hnext : t2.Day = (civilFromDays (t.abs / 86400 + 1)).2.2 :=
    day_later_next_day t t2 hlater hzone hhour
  apply anyFires_true _ _ _ 0 2 getDay hact
  rw [fires_day _ r.w getDay (some t.Day) hvar]
  refine ⟨a5.trans hd, ?_, ?_⟩
  · intro h
    rw [Option.some.injEq] at h
    have h2 : getDay t2 = t2.Day := rfl
    rw [h2, hnext] at h
    exact civil_day_next (t.abs / 86400) h.symm
  · show t2.Day = (r.w.lastWriteTime.AddDate 0 0 r.w.maxDays).Day
    rw [a4, hmaxr, hnext, addDate_next_day]

theorem twenty_five_hours_apart_rotates_witness :
    eachPercentFollowed dailyOptions.Filename = true ∧
    (placeholdersOf dailyOptions.Filename).get? 2 = some 'D' ∧
    dailyOptions.Daily = true ∧ dailyOptions.MaxDays = 1 ∧
    (Date 2024 3 7 9 5 0 0 3600).Hour < 23 ∧
    (Date 2024 3 8 10 5 0 0 3600).unixNano
      = (Date 2024 3 7 9 5 0 0 3600).unixNano + 25 * durHour ∧
    (Date 2024 3 8 10 5 0 0 3600).offset = (Date 2024 3 7 9 5 0 0 3600).offset ∧
    ∃ r, (NewFileWriterWithOptions dailyOptions).Init okEnv (Date 2024 3 7 9 5 0 0 3600)
        = .ok r ∧
      rotationTriggered (Date 2024 3 8 10 5 0 0 3600) r.w = some true :=
  ⟨by decide, by decide, rfl, rfl, by decide, by decide, rfl,
   twenty_five_hours_apart_rotates dailyOptions okEnv (Date 2024 3 7 9 5 0 0 3600)
     (Date 2024 3 8 10 5 0 0 3600) (by decide) (by decide) rfl rfl (by decide) (by decide) rfl⟩

/-- C16 (as stated): a sink with the template `log-%Y%M%D.log`, daily rotation
on, hourly and minutely off and `maxDays` 1, evaluated again one hour after
its initialisation, triggers a second rotation in two situations. Initialised
at 2024-03-07 23:30 with a fixed offset: one hour later it is 00:30 of the
next day. Initialised at 2024-03-30 22:30 at two hours west of UTC, with the
clock of the location put forward by an hour at 23:00: one hour later it is
00:30 on 2024-03-31 at one hour west. Both times the next day's file is
opened. -/
theorem one_hour_apart_rotates_over_midnight :
    dailyOptions.Daily = true ∧ dailyOptions.Hourly = false ∧
    dailyOptions.Minutely = false ∧ dailyOptions.MaxDays = 1 ∧
    ((initialisedSink dailyOptions (Date 2024 3 7 23 30 0 0 0)).fileBufWriter
        = some (NewWriterSize { name := "log-20240307.log".toList }) ∧
      (Date 2024 3 8 0 30 0 0 0).unixNano = (Date 2024 3 7 23 30 0 0 0).unixNano + durHour ∧
      rotationTriggered (Date 2024 3 8 0 30 0 0 0)
        (initialisedSink dailyOptions (Date 2024 3 7 23 30 0 0 0)) = some true ∧
      resolvedPath ((initialisedSink dailyOptions (Date 2024 3 7 23 30 0 0 0)).Rotate okEnv
        (Date 2024 3 8 0 30 0 0 0)) = some "log-20240308.log".toList) ∧
    ((initialisedSink dailyOptions (Date 2024 3 30 22 30 0 0 (-7200))).fileBufWriter
        = some (NewWriterSize { name := "log-20240330.log".toList }) ∧
      (Date 2024 3 30 22 30 0 0 (-7200)).Hour < 23 ∧
      (Date 2024 3 31 0 30 0 0 (-3600)).unixNano
        = (Date 2024 3 30 22 30 0 0 (-7200)).unixNano + durHour ∧
      rotationTriggered (Date 2024 3 31 0 30 0 0 (-3600))
        (initialisedSink dailyOptions (Date 2024 3 30 22 30 0 0 (-7200))) = some true ∧
      resolvedPath ((initialisedSink dailyOptions (Date 2024 3 30 22 30 0 0 (-7200))).Rotate
        okEnv (Date 2024 3 31 0 30 0 0 (-3600))) = some "log-20240331.log".toList) := by
  refine ⟨rfl, rfl, rfl, rfl, ⟨?_, ?_, ?_, ?_⟩, ⟨?_, ?_, ?_, ?_, ?_⟩⟩ <;> decide

/-- C16 (amended): for options with a valid template whose third placeholder
is the day, hourly and minutely rotation off (daily rotation on and `maxDays`
1 included), an instant `t` before 23 o'clock and the instant `t2` that is one
hour after `t` and at which the location has the same offset as at `t`, so
that `t2` is on the same calendar day: `Init` at `t` returns, whatever the
operating system answers, and `Rotate` evaluated at `t2` does not trigger a
rotation. -/
theorem one_hour_apart_same_day_no_rotation (o : FileWriterOptions) (env : FileEnv)
    (t t2 : Time)
    (hv : eachPercentFollowed o.Filename = true)
    (hthird : (placeholdersOf o.Filename).get? 2 = some 'D')
    (hh : o.Hourly = false) (hm : o.Minutely = false) (hhour : t.Hour < 23)
    (hlater : t2.unixNano = t.unixNano + durHour) (hzone : t2.offset = t.offset) :
    ∃ r, (NewFileWriterWithOptions o).Init env t = .ok r ∧
      rotationTriggered t2 r.w = some false := by
  have hne : placeholdersOf o.Filename ≠ [] := by
    intro h
    rw [h] at hthird
    simp at hthird
  obtain ⟨r, hr, a1, a2, a3, _, _, a6, a7, _⟩ := init_options_state o env t hv hne
  refine ⟨r, hr, ?_⟩
  rw [rotationTriggered_initialised _ r.w a3 (by rw [a1, a2]; simp)]
  congr 1
  apply anyFires_false
  intro k a hk
  rw [zero_add]
  by_cases h2 : k = 2
  · subst h2
    have ha : a = getDay := by
      rw [a1, List.get?_eq_getElem?, List.getElem?_map, ← List.get?_eq_getElem?, hthird] at hk
      simp only [Option.map_some', Option.some.injEq] at hk
      rw [← hk]
      rfl
    apply fires_unchanged
    rw [a2, List.get?_eq_getElem?, List.getElem?_map, ← List.get?_eq_getElem?, hthird, ha]
    simp only [Option.map_some', getDay, hour_later_same_day t t2 hlater hzone hhour]
    rfl
  · by_cases h3 : k = 3
    · subst h3
      exact fires_hour_off _ _ _ (a6.trans hh)
    · by_cases h4 : k = 4
      · subst h4
        exact fires_minute_off _ _ _ (a7.trans hm)
      · exact fires_other _ _ _ _ h2 h3 h4

theorem one_hour_apart_same_day_no_rotation_witness :
    eachPercentFollowed dailyOptions.Filename = true ∧
    (placeholdersOf dailyOptions.Filename).get? 2 = some 'D' ∧
    dailyOptions.Daily = true ∧ dailyOptions.MaxDays = 1 ∧
    dailyOptions.Hourly = false ∧ dailyOptions.Minutely = false ∧
    (Date 2024 3 7 9 5 0 0 3600).Hour < 23 ∧
    (Date 2024 3 7 10 5 0 0 3600).unixNano = (Date 2024 3 7 9 5 0 0 3600).unixNano + durHour ∧
    (Date 2024 3 7 10 5 0 0 3600).offset = (Date 2024 3 7 9 5 0 0 3600).offset ∧
    ∃ r, (NewFileWriterWithOptions dailyOptions).Init okEnv (Date 2024 3 7 9 5 0 0 3600)
        = .ok r ∧
      rotationTriggered (Date 2024 3 7 10 5 0 0 3600) r.w = some false :=
  ⟨by decide, by decide, rfl, rfl, rfl, rfl, by decide, by decide, rfl,
   one_hour_apart_same_day_no_rotation dailyOptions okEnv (Date 2024 3 7 9 5 0 0 3600)
     (Date 2024 3 7 10 5 0 0 3600) (by decide) (by decide) rfl rfl (by decide) (by decide) rfl⟩

/-- C17 (code check): on an initialised writer whose cached values cover its
extractors, the loop of `Rotate` selects by position and not by placeholder.
With fewer than three placeholders (the template `app-%D.log` has one) no call
triggers, whatever the flags and however the day has moved. And whatever
extractor stands third, the hour for instance, is compared with the day of the
month of `lastWriteTime` advanced by `maxDays` days when the daily flag is
set, and triggers on a match. -/
theorem rotate_selects_by_position (now : Time) (w : FileWriter)
    (hinit : w.initFileOk = true) (hlen : w.actions.length ≤ w.vars.length) :
    (w.actions.length ≤ 2 → rotationTriggered now w = some false) ∧
    (∀ (a : Time → Int) (c : Option Int), w.actions.get? 2 = some a →
      w.vars.get? 2 = some c → w.daily = true → c ≠ some (a now) →
      a now = (w.lastWriteTime.AddDate 0 0 w.maxDays).Day →
      rotationTriggered now w = some true) := by
  rw [rotationTriggered_initialised now w hinit hlen]
  constructor
  · intro h
    rw [anyFires_short now w w.actions h]
  · intro a c ha hc hd hne hday
    rw [anyFires_true now w w.actions 0 2 a ha
      ((fires_day now w a c hc).mpr ⟨hd, hne, hday⟩)]

theorem rotate_selects_by_position_witness :
    ((initialisedSink dayOnlyOptions (Date 2024 3 7 9 5 0 0 0)).initFileOk = true ∧
      (initialisedSink dayOnlyOptions (Date 2024 3 7 9 5 0 0 0)).actions.length ≤ 2 ∧
      (initialisedSink dayOnlyOptions (Date 2024 3 7 9 5 0 0 0)).daily = true ∧
      (initialisedSink dayOnlyOptions (Date 2024 3 7 9 5 0 0 0)).vars = [some 7] ∧
      (Date 2024 3 8 9 5 0 0 0).Day = 8 ∧
      dayBoundary (initialisedSink dayOnlyOptions (Date 2024 3 7 9 5 0 0 0)) = 8 ∧
      rotationTriggered (Date 2024 3 8 9 5 0 0 0)
        (initialisedSink dayOnlyOptions (Date 2024 3 7 9 5 0 0 0)) = some false) ∧
    ((initialisedSink hourThirdOptions (Date 2024 3 10 10 0 0 0 0)).initFileOk = true ∧
      (initialisedSink hourThirdOptions (Date 2024 3 10 10 0 0 0 0)).actions.get? 2
        = some getHour ∧
      (initialisedSink hourThirdOptions (Date 2024 3 10 10 0 0 0 0)).vars.get? 2
        = some (some 10) ∧
      getHour (Date 2024 3 10 11 0 0 0 0) = 11 ∧
      (Date 2024 3 10 11 0 0 0 0).Day = 10 ∧
      dayBoundary (initialisedSink hourThirdOptions (Date 2024 3 10 10 0 0 0 0)) = 11 ∧
      rotationTriggered (Date 2024 3 10 11 0 0 0 0)
        (initialisedSink hourThirdOptions (Date 2024 3 10 10 0 0 0 0)) = some true) :=
  ⟨⟨by decide, by decide, by decide, by decide, by decide, by decide,
    (rotate_selects_by_position (Date 2024 3 8 9 5 0 0 0)
      (initialisedSink dayOnlyOptions (Date 2024 3 7 9 5 0 0 0)) (by decide) (by decide)).1
      (by decide)⟩,
   ⟨by decide, rfl, by decide, by decide, by decide, by decide,
    (rotate_selects_by_position (Date 2024 3 10 11 0 0 0 0)
      (initialisedSink hourThirdOptions (Date 2024 3 10 10 0 0 0 0)) (by decide)
      (by decide)).2 getHour (some 10) rfl (by decide) (by decide) (by decide) (by decide)⟩⟩

/-- C18 (code check): a call of `Rotate` on an initialised writer leaves the
cached values of the first and second position, year and month in the template
`log-%Y%M%D.log`, as they were, and the path it reports is the format filled
with the cached values, not with the components of `now`: a cut-over in the
month after the one of the first open names the file by the old month. -/
theorem later_cutover_formats_cached_values (env : FileEnv) (now : Time) (w : FileWriter)
    (r : RotateResult) (hinit : w.initFileOk = true) (h : w.Rotate env now = .ok r) :
    r.w.vars.get? 0 = w.vars.get? 0 ∧ r.w.vars.get? 1 = w.vars.get? 1 ∧
    (∀ path, r.filePath = some path →
      Sprintf w.pathFmt (r.w.vars.map toArg) = some path) := by
  obtain ⟨w1, hc, _, hcase⟩ := rotate_cases env now w r h
  have hfmt : w1.pathFmt = w.pathFmt :=
    (congrArg FileWriter.pathFmt hc : w1.core.pathFmt = w.core.pathFmt)
  rcases hcase with ⟨hloop, hw, _, hnone, _⟩ | ⟨hloop, hcut⟩
  · have hk := rotateLoop_keeps now w.actions 0 w false w1 false hinit hloop
    rw [hw]
    refine ⟨hk 0 (by decide) (by decide) (by decide), hk 1 (by decide) (by decide) (by decide),
      ?_⟩
    intro path hp
    rw [hnone] at hp
    exact absurd hp (by simp)
  · have hk := rotateLoop_keeps now w.actions 0 w false w1 true hinit hloop
    obtain ⟨f1, _⟩ := cutOver_frame env now w1 r hcut
    obtain ⟨_, g2, _⟩ := timing_fields _ _ f1
    rw [g2]
    refine ⟨hk 0 (by decide) (by decide) (by decide), hk 1 (by decide) (by decide) (by decide),
      ?_⟩
    intro path hp
    rw [← hfmt]
    exact cutOver_path env now w1 r path hcut hp

theorem later_cutover_formats_cached_values_witness :
    (initialisedSink dailyOptions (Date 2024 1 31 10 0 0 0 0)).initFileOk = true ∧
    (initialisedSink dailyOptions (Date 2024 1 31 10 0 0 0 0)).vars
      = [some 2024, some 1, some 31] ∧
    rotationTriggered (Date 2024 2 1 10 0 0 0 0)
      (initialisedSink dailyOptions (Date 2024 1 31 10 0 0 0 0)) = some true ∧
    expandTemplate (Date 2024 2 1 10 0 0 0 0) dailyOptions.Filename
      = "log-20240201.log".toList ∧
    resolvedPath ((initialisedSink dailyOptions (Date 2024 1 31 10 0 0 0 0)).Rotate okEnv
      (Date 2024 2 1 10 0 0 0 0)) = some "log-20240101.log".toList ∧
    ∃ r, (initialisedSink dailyOptions (Date 2024 1 31 10 0 0 0 0)).Rotate okEnv
        (Date 2024 2 1 10 0 0 0 0) = .ok r ∧
      r.w.vars = [some 2024, some 1, some 1] ∧
      r.w.file = some { name := "log-20240101.log".toList } ∧
      (r.w.vars.get? 0 = (initialisedSink dailyOptions (Date 2024 1 31 10 0 0 0 0)).vars.get? 0 ∧
        r.w.vars.get? 1
          = (initialisedSink dailyOptions (Date 2024 1 31 10 0 0 0 0)).vars.get? 1 ∧
        (∀ path, r.filePath = some path →
          Sprintf (initialisedSink dailyOptions (Date 2024 1 31 10 0 0 0 0)).pathFmt
            (r.w.vars.map toArg) = some path)) :=
  ⟨by decide, by decide, by decide, by decide, by decide,
   ⟨_, rfl, by decide, by decide,
    later_cutover_formats_cached_values okEnv (Date 2024 2 1 10 0 0 0 0)
      (initialisedSink dailyOptions (Date 2024 1 31 10 0 0 0 0)) _ (by decide) rfl⟩⟩

/-- C19 (as stated): the sink holds `log-202403070905.log`, opened on
2024-03-07 at 09:05, and rotates daily; `Rotate` a day later triggers, and the
new file cannot be opened. The call returns the error, and the sink is not as
it was before: the cached day is 8 instead of 7, the time of the last write is
the instant of the call, and the file it still holds has been closed. -/
theorem failed_cutover_changes_state :
    rotationTriggered (Date 2024 3 8 9 5 0 0 0) dailySink = some true ∧
    ∃ r, dailySink.Rotate noOpenEnv (Date 2024 3 8 9 5 0 0 0) = .ok r ∧
      r.err = some "permission denied".toList ∧
      dailySink.vars = [some 2024, some 3, some 7, some 9, some 5] ∧
      r.w.vars = [some 2024, some 3, some 8, some 9, some 5] ∧
      r.w.vars ≠ dailySink.vars ∧
      dailySink.lastWriteTime = Date 2024 3 7 9 5 0 0 0 ∧
      r.w.lastWriteTime = Date 2024 3 8 9 5 0 0 0 ∧
      r.w.lastWriteTime ≠ dailySink.lastWriteTime ∧
      r.w.file = some { name := "log-202403070905.log".toList } ∧
      r.ops = [.close { name := "log-202403070905.log".toList },
               .mkdirAll "log-202403080905.log".toList 493,
               .openFile "log-202403080905.log".toList 493] :=
  ⟨by decide, _, rfl, by decide, by decide, by decide, by decide, by decide, by decide,
   by decide, by decide, by decide⟩

/-- C19 (amended): when a call of `Rotate` that triggers a rotation returns an
error (from the flush, the close, the directory creation or the open), the
sink still holds the file it held before and its buffered writer, if any, is
still the one around that file, while the time of the last write is already
the instant of the call; when the call returns no error, the file named by the
reported path and a new, empty buffered writer around it are both
installed. -/
theorem cutover_keeps_or_installs (env : FileEnv) (now : Time) (w : FileWriter)
    (r : RotateResult) (htrig : rotationTriggered now w = some true)
    (h : w.Rotate env now = .ok r) :
    r.w.lastWriteTime = now ∧
    (r.err ≠ none →
      r.w.file = w.file ∧
      r.w.fileBufWriter.map (fun b => b.wr) = w.fileBufWriter.map (fun b => b.wr)) ∧
    (r.err = none →
      ∃ path, r.filePath = some path ∧ r.w.file = some { name := path } ∧
        r.w.fileBufWriter = some (NewWriterSize { name := path })) := by
  obtain ⟨w1, hc, _, hcase⟩ := rotate_cases env now w r h
  have hfile : w1.file = w.file := (congrArg FileWriter.file hc : w1.core.file = w.core.file)
  have hbuf : w1.fileBufWriter = w.fileBufWriter :=
    (congrArg FileWriter.fileBufWriter hc : w1.core.fileBufWriter = w.core.fileBufWriter)
  rcases hcase with ⟨hloop, _⟩ | ⟨_, hcut⟩
  · unfold rotationTriggered at htrig
    rw [hloop] at htrig
    simp at htrig
  · obtain ⟨w3, _, t2, _, _, _, t6, t7, hcase⟩ := cutOver_cases env now w1 r hcut
    rw [hfile] at t6
    rw [hbuf] at t7
    rcases hcase with ⟨herr, hw, _, _⟩ | ⟨ops0, hclose, _⟩
    · rw [hw]
      exact ⟨t2, fun _ => ⟨t6, t7⟩, fun hn => absurd hn herr⟩
    · rcases closeNext_cases env w3 ops0 r hclose with ⟨f, _, herr, hw, _, _⟩ | ⟨ops1, hopen, _⟩
      · rw [hw]
        exact ⟨t2, fun _ => ⟨t6, t7⟩, fun hn => absurd hn herr⟩
      · obtain ⟨path, hp, _, hres⟩ := openNext_cases env w3 ops1 r hopen
        rcases hres with ⟨herr, hw, _⟩ | ⟨herr, hw, _⟩
        · rw [hw]
          exact ⟨t2, fun _ => ⟨t6, t7⟩, fun hn => absurd hn herr⟩
        · rw [hw]
          exact ⟨t2, fun hn => absurd herr hn, fun _ => ⟨path, hp, rfl, rfl⟩⟩

theorem cutover_keeps_or_installs_witness :
    rotationTriggered (Date 2024 3 8 9 5 0 0 0) dailySink = some true ∧
    (∃ r, dailySink.Rotate noOpenEnv (Date 2024 3 8 9 5 0 0 0) = .ok r ∧ r.err ≠ none ∧
      (r.w.lastWriteTime = Date 2024 3 8 9 5 0 0 0 ∧
        (r.err ≠ none →
          r.w.file = dailySink.file ∧
          r.w.fileBufWriter.map (fun b => b.wr)
            = dailySink.fileBufWriter.map (fun b => b.wr)) ∧
        (r.err = none →
          ∃ path, r.filePath = some path ∧ r.w.file = some { name := path } ∧
            r.w.fileBufWriter = some (NewWriterSize { name := path })))) ∧
    (∃ r, dailySink.Rotate okEnv (Date 2024 3 8 9 5 0 0 0) = .ok r ∧ r.err = none ∧
      r.filePath = some "log-202403080905.log".toList ∧
      (r.w.lastWriteTime = Date 2024 3 8 9 5 0 0 0 ∧
        (r.err ≠ none →
          r.w.file = dailySink.file ∧
          r.w.fileBufWriter.map (fun b => b.wr)
            = dailySink.fileBufWriter.map (fun b => b.wr)) ∧
        (r.err = none →
          ∃ path, r.filePath = some path ∧ r.w.file = some { name := path } ∧
            r.w.fileBufWriter = some (NewWriterSize { name := path })))) :=
  ⟨by decide,
   ⟨_, rfl, by decide,
    cutover_keeps_or_installs noOpenEnv (Date 2024 3 8 9 5 0 0 0) dailySink _ (by decide) rfl⟩,
   ⟨_, rfl, by decide, by decide,
    cutover_keeps_or_installs okEnv (Date 2024 3 8 9 5 0 0 0) dailySink _ (by decide) rfl⟩⟩

/-- C20: `Write` on a file sink. A record whose level is above the level of
the sink is dropped: nil is returned and the sink is unchanged. Otherwise,
with no buffered writer, the error `fileWriter no opened file: ` followed by
the filename is returned, no operating-system call is made and the sink is
unchanged. Otherwise, for a record with one of the six levels, `r.String()`
is handed to `WriteString` of the buffered writer and the error of that call
is returned: when the buffered writer holds no earlier error and the call
returns none, the bytes written to the file followed by the bytes left in the
buffer are the bytes buffered before followed by exactly `r.String()`; with an
earlier error, that error is returned and nothing is accepted. -/
theorem write_filters_then_appends (env : FileEnv) (w : FileWriter) (r : Record) :
    (r.level > w.level → w.Write env r = .ok { w := w, err := none, ops := [] }) ∧
    (r.level ≤ w.level → w.fileBufWriter = none →
      w.Write env r
        = .ok { w := w, err := some ("fileWriter no opened file: ".toList ++ w.filename),
                ops := [] }) ∧
    (∀ b, r.level ≤ w.level → w.fileBufWriter = some b → 0 ≤ r.level → r.level ≤ 5 →
      ∃ s, r.String = some s ∧
        w.Write env r
          = .ok { w := { w with fileBufWriter := some (b.WriteString env s).1 },
                  err := (b.WriteString env s).2.1, ops := (b.WriteString env s).2.2 } ∧
        (b.WriteString env s).1.wr = b.wr ∧
        (b.err = none → (b.WriteString env s).2.1 = none →
          bytesWritten (b.WriteString env s).2.2 ++ (b.WriteString env s).1.buf
            = b.buf ++ s) ∧
        (∀ e, b.err = some e → b.WriteString env s = (b, some e, []))) := by
  refine ⟨?_, ?_, ?_⟩
  · intro h
    unfold FileWriter.Write
    simp only [h, if_true]
  · intro h hb
    have hn : ¬ r.level > w.level := not_lt.mpr h
    unfold FileWriter.Write
    simp only [hn, if_false, hb]
  · intro b h hb h0 h5
    have hn : ¬ r.level > w.level := not_lt.mpr h
    obtain ⟨s, hs⟩ := record_string_some r h0 h5
    refine ⟨s, hs, ?_, writeString_wr env b s, writeString_stream env b s,
      writeString_sticky env b s⟩
    unfold FileWriter.Write
    simp only [hn, if_false, hb, hs]

theorem write_filters_then_appends_witness :
    (recordD.level > ({ dailySink with level := ERROR } : FileWriter).level ∧
      ({ dailySink with level := ERROR } : FileWriter).Write okEnv recordD
        = .ok { w := { dailySink with level := ERROR }, err := none, ops := [] }) ∧
    (recordE.level ≤ ({ level := DEBUG, filename := "app.log".toList } : FileWriter).level ∧
      ({ level := DEBUG, filename := "app.log".toList } : FileWriter).fileBufWriter = none ∧
      ({ level := DEBUG, filename := "app.log".toList } : FileWriter).Write okEnv recordE
        = .ok { w := { level := DEBUG, filename := "app.log".toList },
                err := some ("fileWriter no opened file: ".toList ++ "app.log".toList),
                ops := [] }) ∧
    (recordE.level ≤ ({ dailySink with level := DEBUG } : FileWriter).level ∧
      recordE.String = some "2024/03/07 09:05:00 [TRANSACTION] <main.go:10> disk full\n".toList ∧
      ∃ s, recordE.String = some s ∧
        ({ dailySink with level := DEBUG } : FileWriter).Write okEnv recordE
          = .ok { w := { dailySink with
                          level := DEBUG,
                          fileBufWriter := some ((NewWriterSize
                            { name := "log-202403070905.log".toList }).WriteString okEnv s).1 },
                  err := ((NewWriterSize
                    { name := "log-202403070905.log".toList }).WriteString okEnv s).2.1,
                  ops := ((NewWriterSize
                    { name := "log-202403070905.log".toList }).WriteString okEnv s).2.2 } ∧
        ((NewWriterSize { name := "log-202403070905.log".toList }).WriteString okEnv s).1.wr
          = (NewWriterSize { name := "log-202403070905.log".toList }).wr ∧
        ((NewWriterSize { name := "log-202403070905.log".toList }).err = none →
          ((NewWriterSize { name := "log-202403070905.log".toList }).WriteString okEnv s).2.1
            = none →
          bytesWritten
              ((NewWriterSize { name := "log-202403070905.log".toList }).WriteString okEnv s).2.2
            ++ ((NewWriterSize { name := "log-202403070905.log".toList }).WriteString okEnv
                s).1.buf
            = (NewWriterSize { name := "log-202403070905.log".toList }).buf ++ s) ∧
        (∀ e, (NewWriterSize { name := "log-202403070905.log".toList }).err = some e →
          (NewWriterSize { name := "log-202403070905.log".toList }).WriteString okEnv s
            = (NewWriterSize { name := "log-202403070905.log".toList }, some e, []))) :=
  ⟨⟨by decide,
    (write_filters_then_appends okEnv { dailySink with level := ERROR } recordD).1 (by decide)⟩,
   ⟨by decide, rfl,
    (write_filters_then_appends okEnv { level := DEBUG, filename := "app.log".toList }
      recordE).2.1 (by decide) rfl⟩,
   ⟨by decide, by decide,
    (write_filters_then_appends okEnv { dailySink with level := DEBUG } recordE).2.2
      (NewWriterSize { name := "log-202403070905.log".toList }) (by decide) rfl (by decide)
      (by decide)⟩⟩

/-- C21: for a configuration that enables the console sink, the file sink or
both, `SetupLog` leaves in the default logger a level that is the level of one
of the enabled sinks and is at least the level of each of them, where the
level of an enabled sink is its own level string parsed against the name table
or, when that string names no level, the global level string parsed the same
way (DEBUG when that names none either). This holds whether `SetupLog` returns
or a `Register` panics. The sinks handed to `Register` carry these levels in
their level field; when `SetupLog` returns they are appended, after `Init`, to
the sinks of the logger, and it returns whenever their `Init` return nil. A
log call with a level that some enabled sink accepts is not stopped by the
level check of the logger. -/
theorem setupLog_level_is_largest_enabled (cm fm : WriterImpl Sink) (lc : LogConfig)
    (l : Logger Sink)
    (h : lc.ConsoleWriter.Enable = true ∨ lc.FileWriter.Enable = true) :
    (SetupLog cm fm lc l).logger.level ∈ enabledLevels lc ∧
    (∀ x ∈ enabledLevels lc, x ≤ (SetupLog cm fm lc l).logger.level) ∧
    (enabledSinks lc).map Sink.level = enabledLevels lc ∧
    ((SetupLog cm fm lc l).panic = none →
      (SetupLog cm fm lc l).logger.writers
        = l.writers ++
          (enabledSinks lc).map (fun s =>
            match s with
            | .console w => { impl := cm, self := (cm.Init (.console w)).1 }
            | .file w => { impl := fm, self := (fm.Init (.file w)).1 })) ∧
    ((∀ s, (cm.Init s).2 = none) → (∀ s, (fm.Init s).2 = none) →
      (SetupLog cm fm lc l).panic = none) ∧
    (∀ (env : CallEnv) (s : Int) (f : Str) (args : List Arg) (l' : Logger Sink),
      (∃ x ∈ enabledLevels lc, s ≤ x) →
      (SetupLog cm fm lc l).logger.deliverRecordToWriter env s f args ≠ .filtered l') := by
  have hc := sinkLevel_range lc.ConsoleWriter.Level lc.Level
  have hf := sinkLevel_range lc.FileWriter.Level lc.Level
  have hlevel := (setupLog_level cm fm lc l).1
  have hmem : (SetupLog cm fm lc l).logger.level ∈ enabledLevels lc ∧
      ∀ x ∈ enabledLevels lc, x ≤ (SetupLog cm fm lc l).logger.level := by
    rw [hlevel]
    unfold enabledLevels
    cases hce : lc.ConsoleWriter.Enable <;> cases hfe : lc.FileWriter.Enable
    · rw [hce, hfe] at h
      simp at h
    · simp only [Bool.false_eq_true, if_false, if_true, maxInt_eq_max, List.nil_append,
        List.mem_singleton, forall_eq, ACCESS]
      rw [max_eq_left hf.1]
      exact ⟨rfl, le_refl _⟩
    · simp only [Bool.false_eq_true, if_false, if_true, maxInt_eq_max, List.append_nil,
        List.mem_singleton, forall_eq, ACCESS]
      rw [max_eq_left hc.1]
      exact ⟨rfl, le_refl _⟩
    · simp only [if_true, maxInt_eq_max, List.singleton_append, List.mem_cons,
        List.mem_singleton, forall_eq_or_imp, forall_eq, ACCESS, List.not_mem_nil, or_false]
      rw [max_eq_left hc.1]
      refine ⟨?_, le_max_right _ _, le_max_left _ _⟩
      rcases le_total (sinkLevel lc.FileWriter.Level lc.Level)
        (sinkLevel lc.ConsoleWriter.Level lc.Level) with hle | hle
      · exact Or.inl (max_eq_right hle)
      · exact Or.inr (max_eq_left hle)
  refine ⟨hmem.1, hmem.2, ?_, (setupLog_writers cm fm lc l).1, (setupLog_writers cm fm lc l).2,
    ?_⟩
  · unfold enabledSinks enabledLevels
    cases lc.ConsoleWriter.Enable <;> cases lc.FileWriter.Enable <;> rfl
  · intro env s f args l' hx
    obtain ⟨x, hxm, hsx⟩ := hx
    have hn : ¬ s > (SetupLog cm fm lc l).logger.level :=
      not_lt.mpr (le_trans hsx (hmem.2 x hxm))
    unfold Logger.deliverRecordToWriter
    simp only [hn, if_false]
    split <;> simp

theorem setupLog_level_is_largest_enabled_witness :
    (testConfig.ConsoleWriter.Enable = true ∨ testConfig.FileWriter.Enable = true) ∧
    enabledLevels testConfig = [TRANSACTION, ABNORMAL] ∧
    (SetupLog idleMethods idleMethods testConfig defaultLogger).GlobalLevel = COMMON ∧
    (SetupLog idleMethods idleMethods testConfig defaultLogger).logger.level = ABNORMAL ∧
    (SetupLog idleMethods idleMethods testConfig defaultLogger).panic = none ∧
    ((SetupLog idleMethods idleMethods testConfig defaultLogger).logger.writers.map
        fun w => w.self.level) = [TRANSACTION, ABNORMAL] ∧
    ((SetupLog idleMethods idleMethods testConfig defaultLogger).logger.level
        ∈ enabledLevels testConfig ∧
      (∀ x ∈ enabledLevels testConfig,
        x ≤ (SetupLog idleMethods idleMethods testConfig defaultLogger).logger.level) ∧
      (enabledSinks testConfig).map Sink.level = enabledLevels testConfig) :=
  ⟨Or.inl rfl, by decide, by decide, by decide, by decide, by decide,
   ⟨(setupLog_level_is_largest_enabled idleMethods idleMethods testConfig defaultLogger
      (Or.inl rfl)).1,
    (setupLog_level_is_largest_enabled idleMethods idleMethods testConfig defaultLogger
      (Or.inl rfl)).2.1,
    (setupLog_level_is_largest_enabled idleMethods idleMethods testConfig defaultLogger
      (Or.inl rfl)).2.2.1⟩⟩

/-- C22 (as stated): a sink with rotation by day, hour and minute enabled, no
multiplier given and the permission string `0999`: `Init` returns the parse
error before it reaches the defaults, and the three multipliers are still 0
afterwards. -/
theorem init_bad_permission_skips_defaults :
    badPermSink.rotate = true ∧ badPermSink.daily = true ∧ badPermSink.hourly = true ∧
    badPermSink.minutely = true ∧ badPermSink.maxDays ≤ 0 ∧ badPermSink.maxHours ≤ 0 ∧
    badPermSink.maxMinutes ≤ 0 ∧
    ∃ r, badPermSink.Init okEnv (Date 2024 3 7 9 5 0 0 0) = .ok r ∧
      r.err = some "strconv.ParseInt: parsing \"0999\": invalid syntax".toList ∧
      r.w.maxDays = 0 ∧ r.w.maxHours = 0 ∧ r.w.maxMinutes = 0 ∧
      r.w.maxDays ≠ 60 ∧ r.w.maxHours ≠ 12 ∧ r.w.maxMinutes ≠ 1 :=
  ⟨rfl, rfl, rfl, rfl, by decide, by decide, by decide, _, rfl, by decide, by decide, by decide,
   by decide, by decide, by decide, by decide⟩

/-- C22 (amended): for a sink with rotation enabled whose permission string,
or `0755` in place of an empty one, parses as an octal number: `Init` calls
`Rotate` on a writer in which `maxDays` is 60 if the daily flag is set and
`maxDays` was not positive, `maxHours` is 12 if the hourly flag is set and
`maxHours` was not positive, `maxMinutes` is 1 if the minutely flag is set
and `maxMinutes` was not positive, and each multiplier is the one before
otherwise; when `Init` returns, with or without an error, the writer has
these multipliers. -/
theorem init_sets_default_multipliers (env : FileEnv) (now : Time) (w : FileWriter) (v : Int)
    (hrot : w.rotate = true)
    (hparse : ParseInt8 (if w.perm = [] then "0755".toList else w.perm) = .ok v) :
    ∃ wx : FileWriter, w.Init env now = wx.Rotate env now ∧
      wx.maxDays = (if w.daily = true ∧ w.maxDays ≤ 0 then 60 else w.maxDays) ∧
      wx.maxHours = (if w.hourly = true ∧ w.maxHours ≤ 0 then 12 else w.maxHours) ∧
      wx.maxMinutes = (if w.minutely = true ∧ w.maxMinutes ≤ 0 then 1 else w.maxMinutes) ∧
      ∀ r, w.Init env now = .ok r →
        r.w.maxDays = (if w.daily = true ∧ w.maxDays ≤ 0 then 60 else w.maxDays) ∧
        r.w.maxHours = (if w.hourly = true ∧ w.maxHours ≤ 0 then 12 else w.maxHours) ∧
        r.w.maxMinutes
          = (if w.minutely = true ∧ w.maxMinutes ≤ 0 then 1 else w.maxMinutes) := by
  have hparse1 : ParseInt8 w.named.perm = .ok v := by
    rw [named_perm]
    exact hparse
  have hi := init_parsed env now w v hparse1
  obtain ⟨p1, p2, p3⟩ := prepared_multipliers w v
  simp only [hrot, true_and] at p1 p2 p3
  refine ⟨w.prepared v, hi, p1, p2, p3, ?_⟩
  intro r hr
  rw [hi] at hr
  obtain ⟨q1, q2, q3⟩ := rotate_multipliers env now _ r hr
  exact ⟨q1.trans p1, q2.trans p2, q3.trans p3⟩

theorem init_sets_default_multipliers_witness :
    ({ badPermSink with perm := [], maxHours := 6, minutely := false } : FileWriter).rotate
      = true ∧
    ParseInt8 (if ({ badPermSink with perm := [], maxHours := 6, minutely := false }
        : FileWriter).perm = [] then "0755".toList
      else ({ badPermSink with perm := [], maxHours := 6, minutely := false }
        : FileWriter).perm) = .ok 493 ∧
    (∃ r, ({ badPermSink with perm := [], maxHours := 6, minutely := false }
        : FileWriter).Init okEnv (Date 2024 3 7 9 5 0 0 0) = .ok r ∧
      r.w.maxDays = 60 ∧ r.w.maxHours = 6 ∧ r.w.maxMinutes = 0) ∧
    ∃ wx : FileWriter,
      ({ badPermSink with perm := [], maxHours := 6, minutely := false } : FileWriter).Init
          okEnv (Date 2024 3 7 9 5 0 0 0) = wx.Rotate okEnv (Date 2024 3 7 9 5 0 0 0) ∧
      wx.maxDays = 60 ∧ wx.maxHours = 6 ∧ wx.maxMinutes = 0 :=
  ⟨rfl, rfl, ⟨_, rfl, by decide, by decide, by decide⟩,
   (init_sets_default_multipliers okEnv (Date 2024 3 7 9 5 0 0 0)
      { badPermSink with perm := [], maxHours := 6, minutely := false } 493 rfl rfl).imp
     fun _ h => ⟨h.1, h.2.1, h.2.2.1, h.2.2.2.1⟩⟩

/-- C23: when the loop of `Rotate` at the instant `now` ends with `rotate`
false, that is when no component triggers, `Rotate` returns nil without a
single operating-system call and without computing a path, and the cached
values, the time of the last write, the initialised flag, the file and the
buffered writer are as before; so is every other field except the open date
and open time of a unit, which the loop may have assigned. -/
theorem rotate_without_trigger_is_noop (env : FileEnv) (now : Time) (w : FileWriter)
    (h : rotationTriggered now w = some false) :
    ∃ r, w.Rotate env now = .ok r ∧ r.err = none ∧ r.ops = [] ∧ r.filePath = none ∧
      r.w.vars = w.vars ∧ r.w.lastWriteTime = w.lastWriteTime ∧
      r.w.initFileOk = w.initFileOk ∧ r.w.initFileOnce = w.initFileOnce ∧
      r.w.file = w.file ∧ r.w.fileBufWriter = w.fileBufWriter ∧ r.w.core = w.core := by
  unfold rotationTriggered at h
  cases hl : rotateLoop now w.actions 0 w false with
  | error f => simp [hl] at h
  | ok p =>
    obtain ⟨w1, rot⟩ := p
    simp only [hl, Option.some.injEq] at h
    subst h
    obtain ⟨hc, _⟩ := rotateLoop_core now w.actions 0 w false w1 false hl
    have hv := rotateLoop_false_vars now w.actions 0 w false w1 hl
    refine ⟨{ w := w1, err := none, filePath := none, ops := [] }, ?_, rfl, rfl, rfl, hv,
      (congrArg FileWriter.lastWriteTime hc : w1.core.lastWriteTime = w.core.lastWriteTime),
      (congrArg FileWriter.initFileOk hc : w1.core.initFileOk = w.core.initFileOk),
      (congrArg FileWriter.initFileOnce hc : w1.core.initFileOnce = w.core.initFileOnce),
      (congrArg FileWriter.file hc : w1.core.file = w.core.file),
      (congrArg FileWriter.fileBufWriter hc : w1.core.fileBufWriter = w.core.fileBufWriter),
      hc⟩
    unfold FileWriter.Rotate
    rw [hl]
    rfl

theorem rotate_without_trigger_is_noop_witness :
    rotationTriggered (Date 2024 3 9 9 5 0 0 0) dailySink = some false ∧
    (Date 2024 3 9 9 5 0 0 0).Day ≠ 7 ∧ dayBoundary dailySink = 8 ∧
    (∃ r, dailySink.Rotate noOpenEnv (Date 2024 3 9 9 5 0 0 0) = .ok r ∧
      r.w.dailyOpenDate = 9 ∧ dailySink.dailyOpenDate = 0) ∧
    ∃ r, dailySink.Rotate noOpenEnv (Date 2024 3 9 9 5 0 0 0) = .ok r ∧ r.err = none ∧
      r.ops = [] ∧ r.filePath = none ∧ r.w.vars = dailySink.vars ∧
      r.w.lastWriteTime = dailySink.lastWriteTime ∧
      r.w.initFileOk = dailySink.initFileOk ∧ r.w.initFileOnce = dailySink.initFileOnce ∧
      r.w.file = dailySink.file ∧ r.w.fileBufWriter = dailySink.fileBufWriter ∧
      r.w.core = dailySink.core :=
  ⟨by decide, by decide, by decide, ⟨_, rfl, by decide, by decide⟩,
   rotate_without_trigger_is_noop noOpenEnv (Date 2024 3 9 9 5 0 0 0) dailySink (by decide)⟩

/-- C24 (code check): `SetPathPattern` replaces the compiled template only
when the new one has a `%`. For a template `p` without `%`, on a writer that
holds the valid template `q` with placeholders, it returns nil and stores `p`
as the format, but the extractors and the slots of `q` stay: their number is
not the number of placeholders of `p`, which is zero, and the first `Init`
resolves `p` followed by the `%!(EXTRA ...)` text of the values of `q`, not
`p`. For a valid template `p` with placeholders, on any writer, extractors,
slots and format are those of `p` alone, as many extractors and slots as `p`
has placeholders, and on a writer not yet initialised the first `Init`
resolves the expansion of `p`. For every writer and template a second call
with the same template changes nothing. -/
theorem setPathPattern_replaces_only_with_placeholders (w0 w : FileWriter) (q p : Str)
    (t : Time) (env : FileEnv) :
    (w0.Fresh → eachPercentFollowed q = true → '%' ∈ q → '%' ∉ p →
      ((w0.SetPathPattern q).1.SetPathPattern p).2 = none ∧
      ((w0.SetPathPattern q).1.SetPathPattern p).1.pathFmt = p ∧
      ((w0.SetPathPattern q).1.SetPathPattern p).1.actions = extractorsOf q ∧
      ((w0.SetPathPattern q).1.SetPathPattern p).1.vars
        = List.replicate (extractorsOf q).length none ∧
      ((w0.SetPathPattern q).1.SetPathPattern p).1.actions.length ≠ (placeholdersOf p).length ∧
      resolvedPath (((w0.SetPathPattern q).1.SetPathPattern p).1.Init env t)
        = some (p ++ extraArgs ((extractorsOf q).map fun a => Arg.int (a t))) ∧
      resolvedPath (((w0.SetPathPattern q).1.SetPathPattern p).1.Init env t) ≠ some p) ∧
    (eachPercentFollowed p = true → '%' ∈ p →
      (w.SetPathPattern p).2 = none ∧
      (w.SetPathPattern p).1.pathFmt = formatOf p ∧
      (w.SetPathPattern p).1.actions = extractorsOf p ∧
      (w.SetPathPattern p).1.vars = List.replicate (placeholdersOf p).length none ∧
      (w.SetPathPattern p).1.actions.length = (placeholdersOf p).length ∧
      (w.initFileOk = false → w.initFileOnce = false → w.file = none →
        w.fileBufWriter = none → w.perm = [] →
        resolvedPath ((w.SetPathPattern p).1.Init env t) = some (expandTemplate t p))) ∧
    (w.SetPathPattern p).1.SetPathPattern p = w.SetPathPattern p := by
  refine ⟨?_, ?_, setPathPattern_twice w p⟩
  · intro hfresh hq hqc hp
    have hpath := init_stale_extractors w0 q p t env hfresh hq hqc hp
    have hne := extractorsOf_ne_nil q hq hqc
    refine ⟨?_, ?_, ?_, ?_, ?_, hpath, ?_⟩
    · rw [setPathPattern_plain _ p hp]
    · rw [setPathPattern_plain _ p hp]
    · rw [setPathPattern_plain _ p hp, setPathPattern_valid w0 q hq hqc]
    · rw [setPathPattern_plain _ p hp, setPathPattern_valid w0 q hq hqc]
    · rw [setPathPattern_plain _ p hp, setPathPattern_valid w0 q hq hqc,
        placeholdersOf_plain p hp]
      intro h
      exact hne (List.length_eq_zero.mp h)
    · rw [hpath]
      intro h
      rw [Option.some.injEq] at h
      cases hx : extractorsOf q with
      | nil => exact hne hx
      | cons a as =>
        rw [hx] at h
        exact extraArgs_ne_nil _ _ (List.append_right_eq_self.mp h)
  · intro hv hpc
    have hlen : (extractorsOf p).length = (placeholdersOf p).length := by
      rw [extractorsOf_eq_map, List.length_map]
    refine ⟨?_, ?_, ?_, ?_, ?_, ?_⟩
    · rw [setPathPattern_valid w p hv hpc]
    · rw [setPathPattern_valid w p hv hpc]
    · rw [setPathPattern_valid w p hv hpc]
    · rw [setPathPattern_valid w p hv hpc, ← hlen]
    · rw [setPathPattern_valid w p hv hpc]
      exact hlen
    · intro h1 h2 h3 h4 h5
      have e : (w.SetPathPattern p).1
          = (({ w with actions := [], vars := [] } : FileWriter).SetPathPattern p).1 := by
        rw [setPathPattern_valid w p hv hpc, setPathPattern_valid _ p hv hpc]
      rw [e]
      exact init_resolves_placeholders _ p t env ⟨rfl, rfl, h1, h2, h3, h4, h5⟩ hv hpc

theorem setPathPattern_replaces_only_with_placeholders_witness :
    NewFileWriter.Fresh ∧ eachPercentFollowed "log-%Y.log".toList = true ∧
    '%' ∈ "log-%Y.log".toList ∧ '%' ∉ "app.log".toList ∧
    resolvedPath (((NewFileWriter.SetPathPattern "log-%Y.log".toList).1.SetPathPattern
        "app.log".toList).1.Init okEnv (Date 2024 3 7 9 5 0 0 0))
      = some "app.log%!(EXTRA int=2024)".toList ∧
    (((NewFileWriter.SetPathPattern "log-%Y.log".toList).1.SetPathPattern "app.log".toList).2
        = none ∧
      ((NewFileWriter.SetPathPattern "log-%Y.log".toList).1.SetPathPattern
        "app.log".toList).1.pathFmt = "app.log".toList ∧
      ((NewFileWriter.SetPathPattern "log-%Y.log".toList).1.SetPathPattern
        "app.log".toList).1.actions = extractorsOf "log-%Y.log".toList ∧
      ((NewFileWriter.SetPathPattern "log-%Y.log".toList).1.SetPathPattern
        "app.log".toList).1.vars
        = List.replicate (extractorsOf "log-%Y.log".toList).length none ∧
      ((NewFileWriter.SetPathPattern "log-%Y.log".toList).1.SetPathPattern
        "app.log".toList).1.actions.length ≠ (placeholdersOf "app.log".toList).length ∧
      resolvedPath (((NewFileWriter.SetPathPattern "log-%Y.log".toList).1.SetPathPattern
          "app.log".toList).1.Init okEnv (Date 2024 3 7 9 5 0 0 0))
        = some ("app.log".toList
            ++ extraArgs ((extractorsOf "log-%Y.log".toList).map
                fun a => Arg.int (a (Date 2024 3 7 9 5 0 0 0)))) ∧
      resolvedPath (((NewFileWriter.SetPathPattern "log-%Y.log".toList).1.SetPathPattern
          "app.log".toList).1.Init okEnv (Date 2024 3 7 9 5 0 0 0))
        ≠ some "app.log".toList) ∧
    (eachPercentFollowed "log-%Y%M.log".toList = true ∧ '%' ∈ "log-%Y%M.log".toList ∧
      ((NewFileWriter.SetPathPattern "log-%D.log".toList).1.SetPathPattern
        "log-%Y%M.log".toList).1.vars
        = List.replicate (placeholdersOf "log-%Y%M.log".toList).length none) :=
  ⟨⟨rfl, rfl, rfl, rfl, rfl, rfl, rfl⟩, by decide, by decide, by decide, by decide,
   (setPathPattern_replaces_only_with_placeholders NewFileWriter NewFileWriter
      "log-%Y.log".toList "app.log".toList (Date 2024 3 7 9 5 0 0 0) okEnv).1
      ⟨rfl, rfl, rfl, rfl, rfl, rfl, rfl⟩ (by decide) (by decide) (by decide),
   ⟨by decide, by decide,
    ((setPathPattern_replaces_only_with_placeholders NewFileWriter
      (NewFileWriter.SetPathPattern "log-%D.log".toList).1 "log-%Y.log".toList
      "log-%Y%M.log".toList (Date 2024 3 7 9 5 0 0 0) okEnv).2.1 (by decide)
      (by decide)).2.2.2.1⟩⟩

/-- C25: a log call with format `f` and operands `args` that passes the level
filter builds a record whose message is `Sprintf(g, args...)`, where `g` is `f`
when there is no operand or when `f` contains `%` and does not contain `%%`,
and `f` followed by one `%v` for each operand otherwise; on an open queue that
record is the one appended to the queue. When `f` holds no `%` at all the
rendering of `g` is `f` followed by the default rendering of each operand, in
order. -/
theorem log_message_is_sprintf_of_extended_format {σ : Type} (env : CallEnv) (l : Logger σ)
    (s : Int) (f : Str) (args : List Arg) (hs : s ≤ l.level) :
    ∃ (r : Record) (g : Str),
      g = (if args.length = 0 ∨
              (containsStr "%".toList f = true ∧ containsStr "%%".toList f = false) then f
           else f ++ (List.replicate args.length "%v".toList).flatten) ∧
      r = (buildRecord env l s f args).2 ∧ r.level = s ∧ r.msg = env.sprintf g args ∧
      (l.records.closed = false →
        (l.deliverRecordToWriter env s f args).logger.records.queue = l.records.queue ++ [r]) ∧
      ('%' ∉ f → Sprintf g args = some (f ++ (args.map defaultText).flatten)) := by
  have hn : ¬ s > l.level := not_lt.mpr hs
  obtain ⟨hrec, hw, hl⟩ := buildRecord_frame env l s f args
  refine ⟨(buildRecord env l s f args).2, _, rfl, rfl, hl, ?_, ?_, ?_⟩
  · rw [buildRecord_msg, messageFormat_eq]
  · intro hopen
    simp only [Logger.deliverRecordToWriter, hn, if_false, Chan.send, hrec, hopen]
    by_cases hc : l.records.queue.length < l.records.cap <;>
      simp [hc, Delivery.logger]
  · intro hf
    have h1 : containsStr "%".toList f = false := by
      cases h : containsStr "%".toList f
      · rfl
      · exact absurd ((contains_percent f).mp h) hf
    by_cases h0 : args.length = 0
    · have ha : args = [] := List.length_eq_zero.mp h0
      subst ha
      have := sprintf_appended_verbs f [] hf
      simpa using this
    · simp only [h0, h1, false_or, Bool.false_eq_true, false_and, if_false]
      exact sprintf_appended_verbs f args hf

theorem log_message_is_sprintf_of_extended_format_witness :
    ERROR ≤ sampleLogger.level ∧
    (buildRecord sampleEnv sampleLogger ERROR "go-log by fmt ".toList
        [.int 123, .str " super ".toList, .str "name".toList]).2.msg
      = "go-log by fmt 123 super name".toList ∧
    ∃ (r : Record) (g : Str),
      g = (if [Arg.int 123, .str " super ".toList, .str "name".toList].length = 0 ∨
              (containsStr "%".toList "go-log by fmt ".toList = true ∧
                containsStr "%%".toList "go-log by fmt ".toList = false) then
             "go-log by fmt ".toList
           else "go-log by fmt ".toList ++
             (List.replicate [Arg.int 123, .str " super ".toList, .str "name".toList].length
               "%v".toList).flatten) ∧
      r = (buildRecord sampleEnv sampleLogger ERROR "go-log by fmt ".toList
            [.int 123, .str " super ".toList, .str "name".toList]).2 ∧
      r.level = ERROR ∧
      r.msg = sampleEnv.sprintf g [.int 123, .str " super ".toList, .str "name".toList] ∧
      (sampleLogger.records.closed = false →
        (sampleLogger.deliverRecordToWriter sampleEnv ERROR "go-log by fmt ".toList
            [.int 123, .str " super ".toList, .str "name".toList]).logger.records.queue
          = sampleLogger.records.queue ++ [r]) ∧
      ('%' ∉ "go-log by fmt ".toList →
        Sprintf g [.int 123, .str " super ".toList, .str "name".toList]
          = some ("go-log by fmt ".toList ++
              ([Arg.int 123, .str " super ".toList, .str "name".toList].map defaultText).flatten)) :=
  ⟨by decide, by decide,
   log_message_is_sprintf_of_extended_format sampleEnv sampleLogger ERROR "go-log by fmt ".toList
     [.int 123, .str " super ".toList, .str "name".toList] (by decide)⟩

end GoLog
